import Mathlib

/-!
# Image manipulation toolkit: bitmap codec and image buffer

A shallow embedding of `RGBPixel.h`, `Exceptions.h` and `RGBImage.h`.

Modelling conventions.

* `byte` (`unsigned char`) is `Fin 256`.
* `int` values are `Int`.  Arithmetic on the sizes and coordinates of an image in memory
  (`x*height + y`, `x2 - x1`, ...) is the arithmetic of `Int`: signed overflow is undefined
  behaviour in C++ and is outside the model.  The width of `int` (32 bits) and `short`
  (16 bits) is modelled where the code assembles or serialises machine words byte by byte
  (`getInt`, `getShort`, `putInt`, `putShort`) and where it computes with the raw words of a
  file header (`getScanlinePadding`, the size check of the constructor): there a result is
  reduced to 32 bits (`toInt32`), as the machine arithmetic does.  The C++ operator `%`
  truncates toward zero and is `Int.tmod`.
* A finite `double` is the rational number it stands for; an arithmetic result is rounded to
  the nearest `double` (`toDouble`), and a conversion to `int` whose value is not representable
  is undefined.
* Exceptions are values of `Exception`; a function that can throw returns `Result`.
* A `for` loop is `forLoop`, a recursion on the number of iterations still to run.
* `std::ifstream` / `std::ofstream` are records holding the file contents, the stream position
  and (for input) the `eofbit` / `failbit` flags.
* The heap buffer `RGBPixel* image` is a `List RGBPixel`.
-/

namespace IManip

/-! ## RGBPixel.h -/

/-- The macro `BYTE_MAX`, that is `UCHAR_MAX`. -/
def BYTE_MAX : Nat := 255

/-- The macro `BYTE_BIT`, that is `CHAR_BIT`. -/
def BYTE_BIT : Nat := 8

/-- The type `byte`, an `unsigned char`. -/
abbrev byte := Fin 256

/-- Conversion of an `int` to `unsigned char` / `char`: reduction modulo 256. -/
def toByte (v : Int) : byte := ⟨(v % 256).toNat, by omega⟩

/-- Conversion of an arithmetic result to `int` (two's complement, 32 bits). -/
def toInt32 (v : Int) : Int := (v + 2147483648) % 4294967296 - 2147483648

/-- Conversion of an arithmetic result to `short` (two's complement, 16 bits). -/
def toInt16 (v : Int) : Int := (v + 32768) % 65536 - 32768

/-- The struct `RGBPixel`: one byte per channel. -/
structure RGBPixel where
  r : byte
  g : byte
  b : byte
  deriving DecidableEq, Repr

/-- The default constructor `RGBPixel()`: all channels zero. -/
def RGBPixel.default : RGBPixel := ⟨0, 0, 0⟩

instance : Inhabited RGBPixel := ⟨RGBPixel.default⟩

/-! ## Exceptions.h -/

set_option linter.dupNamespace false in
/-- The exception classes.  `IndexOutOfBoundsException` derives from
`IllegalArgumentException` in the source; `OutOfRange` is `std::out_of_range`, thrown by
`std::string::substr`; `LengthError` is `std::length_error`, thrown when a `std::vector` is
asked for a negative number of elements.  `Undefined` is no exception: it marks a step whose
behaviour C++ leaves undefined (an unchecked `std::vector` index past the end, an integer
division by zero).  `Exception` is the base class, thrown as such by `ImageRotator`. -/
inductive Exception where
  | Exception (message : String)
  | IllegalArgumentException (message : String)
  | IndexOutOfBoundsException (message : String)
  | FileException (filename : String) (message : String)
  | OutOfRange
  | LengthError
  | Undefined
  deriving DecidableEq, Repr

/-- The outcome of a call that may throw. -/
abbrev Result (α : Type) := Except Exception α

/-- A counted `for` loop: `n` iterations remain, the loop variable is `i` and changes by
`step` after each iteration.  An exception thrown by the body leaves the loop. -/
def forLoop {σ : Type} (body : Int → σ → Result σ) (step : Int) : Nat → Int → σ → Result σ
  | 0, _, s => .ok s
  | n + 1, i, s =>
    match body i s with
    | .error e => .error e
    | .ok s1 => forLoop body step n (i + step) s1

/-! ## Streams -/

/-- An `std::ifstream` opened on a file: contents, read position, state flags. -/
structure ifstream where
  contents : List byte
  pos : Nat
  eofbit : Bool
  failbit : Bool
  deriving DecidableEq, Repr

/-- A freshly opened input stream. -/
def ifstream.open (contents : List byte) : ifstream := ⟨contents, 0, false, false⟩

/-- The call `ifs.get()`: the next byte, or `EOF` (-1).  When the stream is not good the
sentry sets `failbit`; reading at the end of the file sets `eofbit` and `failbit`. -/
def ifstream.get (ifs : ifstream) : Int × ifstream :=
  if ifs.eofbit || ifs.failbit then (-1, { ifs with failbit := true })
  else
    match ifs.contents[ifs.pos]? with
    | some c => ((c.val : Int), { ifs with pos := ifs.pos + 1 })
    | none => (-1, { ifs with eofbit := true, failbit := true })

/-- The call `ifs.seekg(offset)`: clears `eofbit`, then moves the position unless the stream
has failed; a negative offset makes the seek fail. -/
def ifstream.seekg (ifs : ifstream) (offset : Int) : ifstream :=
  let ifs1 := { ifs with eofbit := false }
  if ifs1.failbit then ifs1
  else if offset < 0 then { ifs1 with failbit := true }
  else { ifs1 with pos := offset.toNat }

/-- The call `ifs.ignore(n)`: skips up to `n` bytes; reaching the end of the file first sets
`eofbit`. -/
def ifstream.ignore (ifs : ifstream) (n : Int) : ifstream :=
  if ifs.eofbit || ifs.failbit then { ifs with failbit := true }
  else if n ≤ 0 then ifs
  else if ifs.pos + n.toNat ≤ ifs.contents.length then { ifs with pos := ifs.pos + n.toNat }
  else { ifs with pos := max ifs.pos ifs.contents.length, eofbit := true }

/-- Storing byte `c` at position `p` of a file: positions between the old end of the file and
`p` read as zero. -/
def writeAt (l : List byte) (p : Nat) (c : byte) : List byte :=
  if p < l.length then l.set p c else l ++ List.replicate (p - l.length) 0 ++ [c]

/-- An `std::ofstream` opened on a file: contents and write position. -/
structure ofstream where
  contents : List byte
  pos : Nat
  deriving DecidableEq, Repr

/-- A freshly opened (truncated) output stream. -/
def ofstream.open : ofstream := ⟨[], 0⟩

/-- The call `ofs.put(c)`. -/
def ofstream.put (ofs : ofstream) (c : byte) : ofstream :=
  { contents := writeAt ofs.contents ofs.pos c, pos := ofs.pos + 1 }

/-- The call `ofs.seekp(offset)`. -/
def ofstream.seekp (ofs : ofstream) (offset : Int) : ofstream :=
  { ofs with pos := offset.toNat }

/-- The file system: the files written so far, most recent first. -/
abbrev FileSystem := List (String × List byte)

/-- The contents of the file called `filename`, if there is one. -/
def FileSystem.read (fs : FileSystem) (filename : String) : Option (List byte) :=
  match fs.find? (fun e => e.1 == filename) with
  | some e => some e.2
  | none => none

/-- Creating or replacing the file called `filename`. -/
def FileSystem.write (fs : FileSystem) (filename : String) (contents : List byte) : FileSystem :=
  (filename, contents) :: fs

/-! ## RGBImage.h: header constants and word access -/

def FILE_START_INDEX : Int := 0
def BMP_IDENTIFIER : Int := 0x4d42
def FILE_SIZE_INDEX : Int := 2
def DATA_START_INDEX_INDEX : Int := 10
def DATA_START_INDEX : Int := 54
def HEADER_SIZE_INDEX : Int := 14
def HEADER_SIZE : Int := 40
def WIDTH_INDEX : Int := 18
def HEIGHT_INDEX : Int := 22
def PLANES_INDEX : Int := 26
def PLANES : Int := 1
def BIT_DEPTH_INDEX : Int := 28
def PIXEL_SIZE : Int := 3
def BIT_DEPTH : Int := PIXEL_SIZE * BYTE_BIT
def IMAGE_SIZE_INDEX : Int := 34

/-- The loop of `getInt`: `result += ifs.get() << (i * BYTE_BIT)` with `n` iterations left. -/
def getIntLoop : Nat → Nat → Int → ifstream → Int × ifstream
  | 0, _, result, ifs => (result, ifs)
  | n + 1, i, result, ifs =>
    let r := ifs.get
    getIntLoop n (i + 1) (toInt32 (result + toInt32 (r.1 * 2 ^ (i * BYTE_BIT)))) r.2

/-- The function `getInt`, with `sizeof(int) = 4`. -/
def getInt (ifs : ifstream) (offset : Int) : Int × ifstream :=
  getIntLoop 4 0 0 (ifs.seekg offset)

/-- The loop of `getShort`; the accumulator is a `short`. -/
def getShortLoop : Nat → Nat → Int → ifstream → Int × ifstream
  | 0, _, result, ifs => (result, ifs)
  | n + 1, i, result, ifs =>
    let r := ifs.get
    getShortLoop n (i + 1) (toInt16 (result + toInt32 (r.1 * 2 ^ (i * BYTE_BIT)))) r.2

/-- The function `getShort`, with `sizeof(short) = 2`. -/
def getShort (ifs : ifstream) (offset : Int) : Int × ifstream :=
  getShortLoop 2 0 0 (ifs.seekg offset)

/-- The loop shared by `putInt` and `putShort`:
`ofs.put(val>>(i*BYTE_BIT) % (BYTE_MAX + 1))`.  In C++ `%` binds tighter than `>>`, so the
shift amount is `(i*BYTE_BIT) % (BYTE_MAX + 1)` and the shifted value is narrowed to a byte
by `put`. -/
def putLoop (val : Int) : Nat → Nat → ofstream → ofstream
  | 0, _, ofs => ofs
  | n + 1, i, ofs =>
    putLoop val n (i + 1) (ofs.put (toByte (val >>> ((i * BYTE_BIT) % (BYTE_MAX + 1)))))

/-- The function `putInt`, with `sizeof(int) = 4`. -/
def putInt (ofs : ofstream) (offset : Int) (val : Int) : ofstream :=
  putLoop val 4 0 (ofs.seekp offset)

/-- The function `putShort`, with `sizeof(short) = 2`. -/
def putShort (ofs : ofstream) (offset : Int) (val : Int) : ofstream :=
  putLoop val 2 0 (ofs.seekp offset)

/-- The function `getScanlinePadding`.  The argument is a raw header word when the decoder
calls it, so the product `width * PIXEL_SIZE` is kept in 32 bits. -/
def getScanlinePadding (width : Int) : Int :=
  let scanlineSize := toInt32 (width * PIXEL_SIZE)
  if scanlineSize.tmod 4 ≠ 0 then 4 - scanlineSize.tmod 4 else 0

/-! ## RGBImage.h: the image class -/

/-- The class `RGBImage`: the pixel buffer (of `width*height` pixels, column after column)
and the dimensions. -/
structure RGBImage where
  image : List RGBPixel
  width : Int
  height : Int
  deriving DecidableEq, Repr

namespace RGBImage

/-- The method `assertBounds`. -/
def assertBounds (img : RGBImage) (x y : Int) : Result Unit :=
  if x < 0 ∨ x ≥ img.width ∨ y < 0 ∨ y ≥ img.height then
    if img.width = 0 ∨ img.height = 0 then
      .error (.IndexOutOfBoundsException
        ("Image not properly intiialized: bounds of 0. widt:h" ++ toString img.width
          ++ " height: " ++ toString img.height))
    else
      .error (.IndexOutOfBoundsException
        ("Bounds error: (" ++ toString x ++ "," ++ toString y ++ "), width: "
          ++ toString img.width ++ " height: " ++ toString img.height))
  else .ok ()

/-- The method `initializeWith`: `new RGBPixel[width*height]` default-constructs every
pixel. -/
def initializeWith (width height : Int) : Result RGBImage :=
  if width < 0 ∨ height < 0 then
    .error (.IllegalArgumentException
      ("Dimensions must be greater than zero. Width: " ++ toString width
        ++ " Height: " ++ toString height ++ "\n"))
  else
    .ok { image := List.replicate (width * height).toNat RGBPixel.default,
          width := width, height := height }

/-- The constructor `RGBImage(int width, int height)`. -/
def create (width height : Int) : Result RGBImage :=
  initializeWith width height

/-- The image of the default constructor `RGBImage()`: `width` and `height` are 0.  The
constructor does not initialise the pointer `image`; the empty list stands for an object whose
pointer is not read, or reads as null.  Where `operator=` reads it, the statement is
`RGBImage.assignToDefault`. -/
def empty : RGBImage := { image := [], width := 0, height := 0 }

def getWidth (img : RGBImage) : Int := img.width

def getHeight (img : RGBImage) : Int := img.height

/-- The method `getRGB`. -/
def getRGB (img : RGBImage) (x y : Int) : Result RGBPixel :=
  match img.assertBounds x y with
  | .error e => .error e
  | .ok _ => .ok (img.image.getD (x * img.height + y).toNat RGBPixel.default)

/-- The method `setRGB`. -/
def setRGB (img : RGBImage) (x y : Int) (pixel : RGBPixel) : Result RGBImage :=
  match img.assertBounds x y with
  | .error e => .error e
  | .ok _ => .ok { img with image := img.image.set (x * img.height + y).toNat pixel }

/-- Class invariant established by every constructor: non-negative dimensions and a buffer of
`width*height` pixels. -/
def WF (img : RGBImage) : Prop :=
  0 ≤ img.width ∧ 0 ≤ img.height ∧ img.image.length = (img.width * img.height).toNat

instance (img : RGBImage) : Decidable img.WF := by unfold WF; infer_instance

end RGBImage

/-! ## RGBImage.h: the codec -/

/-- The operator `ifs >> pix` of `RGBPixel.h`: three `get` calls, stored as `b`, `g`, `r`. -/
def readPixel (ifs : ifstream) : RGBPixel × ifstream :=
  let rb := ifs.get
  let rg := rb.2.get
  let rr := rg.2.get
  ({ r := toByte rr.1, g := toByte rg.1, b := toByte rb.1 }, rr.2)

/-- The operator `ofs << srcPix` of `RGBPixel.h`: the bytes `b`, `g`, `r`. -/
def writePixel (ofs : ofstream) (srcPix : RGBPixel) : ofstream :=
  ((ofs.put srcPix.b).put srcPix.g).put srcPix.r

/-- The inner loop of `ifs >> destImg`: one scanline, `x` from `0` to `width - 1`. -/
def readScanline (y : Int) (st : ifstream × RGBImage) : Result (ifstream × RGBImage) :=
  forLoop (fun x (s : ifstream × RGBImage) =>
      let p := readPixel s.1
      match s.2.setRGB x y p.1 with
      | .error e => .error e
      | .ok img => .ok (p.2, img))
    1 st.2.getWidth.toNat 0 st

/-- The operator `ifs >> destImg`: scanlines from `y = height - 1` down to `0`, the padding
ignored after each. -/
def readImage (ifs : ifstream) (destImg : RGBImage) : Result (ifstream × RGBImage) :=
  let padding := getScanlinePadding destImg.getWidth
  forLoop (fun y (s : ifstream × RGBImage) =>
      match readScanline y s with
      | .error e => .error e
      | .ok s1 => .ok (s1.1.ignore padding, s1.2))
    (-1) destImg.getHeight.toNat (destImg.getHeight - 1) (ifs, destImg)

/-- The body of the constructor `RGBImage(std::string filename)` once the file is open. -/
def decode (filename : String) (ifs : ifstream) : Result RGBImage :=
  let sig := getShort ifs FILE_START_INDEX
  if sig.1 ≠ BMP_IDENTIFIER then .error (.FileException filename "File is not a bitmap")
  else
    let file_size := getInt sig.2 FILE_SIZE_INDEX
    let data_start := getInt file_size.2 DATA_START_INDEX_INDEX
    let data_width := getInt data_start.2 WIDTH_INDEX
    let data_height := getInt data_width.2 HEIGHT_INDEX
    if file_size.1 ≠ toInt32 (data_start.1
        + (data_width.1 * PIXEL_SIZE + getScanlinePadding data_width.1) * data_height.1) then
      .error (.FileException filename "File is not a valid bitmap.")
    else
      match RGBImage.initializeWith data_width.1 data_height.1 with
      | .error e => .error e
      | .ok img =>
        match readImage (data_height.2.seekg data_start.1) img with
        | .error e => .error e
        | .ok s => .ok s.2

/-- The constructor `RGBImage(std::string filename)`. -/
def RGBImage.fromFile (fs : FileSystem) (filename : String) : Result RGBImage :=
  match fs.read filename with
  | none => .error (.FileException filename "File cannot be read or does not exist")
  | some contents => decode filename (ifstream.open contents)

/-- The padding loop of `ofs << srcImg`: `ofs.put(0)`, `n` times. -/
def putPadding : Nat → ofstream → ofstream
  | 0, ofs => ofs
  | n + 1, ofs => putPadding n (ofs.put 0)

/-- The inner loop of `ofs << srcImg`: one scanline, `x` from `0` to `width - 1`. -/
def writeScanline (srcImg : RGBImage) (y : Int) (ofs : ofstream) : Result ofstream :=
  forLoop (fun x (s : ofstream) =>
      match srcImg.getRGB x y with
      | .error e => .error e
      | .ok pix => .ok (writePixel s pix))
    1 srcImg.getWidth.toNat 0 ofs

/-- The operator `ofs << srcImg` for an `std::ofstream`. -/
def writeImage (ofs : ofstream) (srcImg : RGBImage) : Result ofstream :=
  let padding := getScanlinePadding srcImg.getWidth
  forLoop (fun y (s : ofstream) =>
      match writeScanline srcImg y s with
      | .error e => .error e
      | .ok s1 => .ok (putPadding padding.toNat s1))
    (-1) srcImg.getHeight.toNat (srcImg.getHeight - 1) ofs

/-- The function `writeHeader`. -/
def writeHeader (ofs : ofstream) (srcImg : RGBImage) : ofstream :=
  let ofs := putShort ofs FILE_START_INDEX BMP_IDENTIFIER
  let ofs := putInt ofs DATA_START_INDEX_INDEX DATA_START_INDEX
  let ofs := putInt ofs HEADER_SIZE_INDEX HEADER_SIZE
  let ofs := putShort ofs PLANES_INDEX PLANES
  let ofs := putShort ofs BIT_DEPTH_INDEX BIT_DEPTH
  let ofs := putInt ofs WIDTH_INDEX srcImg.getWidth
  let ofs := putInt ofs HEIGHT_INDEX srcImg.getHeight
  let scanline := srcImg.getWidth * PIXEL_SIZE
  let imageDataSize := (scanline + getScanlinePadding srcImg.getWidth) * srcImg.getHeight
  let ofs := putInt ofs IMAGE_SIZE_INDEX imageDataSize
  putInt ofs FILE_SIZE_INDEX (imageDataSize + DATA_START_INDEX)

/-- The bytes that `saveImage` writes to the file it opens. -/
def encode (srcImg : RGBImage) : Result (List byte) :=
  let ofs := writeHeader ofstream.open srcImg
  let ofs := ofs.seekp DATA_START_INDEX
  match writeImage ofs srcImg with
  | .error e => .error e
  | .ok ofs1 => .ok ofs1.contents

/-- The function `saveImage`. -/
def saveImage (fs : FileSystem) (filename : String) (srcImg : RGBImage) : Result FileSystem :=
  match encode srcImg with
  | .error e => .error e
  | .ok contents => .ok (fs.write filename contents)

/-- The call `s.substr(pos, count)` of `std::string`: throws when `pos` exceeds the size. -/
def substr (s : String) (pos count : Nat) : Result String :=
  if pos > s.length then .error .OutOfRange
  else .ok (String.mk ((s.data.drop pos).take count))

/-- The value `std::string::npos`, the default `count` of `substr`. -/
def npos : Nat := 2 ^ 64 - 1

/-- The expression `filename.size() - 4` in `size_t` (64-bit unsigned) arithmetic: it wraps
around when the name has fewer than four characters. -/
def sizeMinus4 (filename : String) : Nat :=
  if filename.length < 4 then filename.length + 2 ^ 64 - 4 else filename.length - 4

/-- The name built in the body of the loop of `saveImages`. -/
def indexedName (filename : String) (i : Nat) : Result String :=
  match substr filename 0 (sizeMinus4 filename) with
  | .error e => .error e
  | .ok front =>
    match substr filename (sizeMinus4 filename) npos with
    | .error e => .error e
    | .ok back => .ok (front ++ toString i ++ back)

/-- The loop of `saveImages` from index `i` on. -/
def saveImagesFrom (filename : String) : Nat → List RGBImage → FileSystem → Result FileSystem
  | _, [], fs => .ok fs
  | i, img :: rest, fs =>
    match indexedName filename i with
    | .error e => .error e
    | .ok name =>
      match saveImage fs name img with
      | .error e => .error e
      | .ok fs1 => saveImagesFrom filename (i + 1) rest fs1

/-- The function `saveImages`. -/
def saveImages (fs : FileSystem) (filename : String) (srcImgs : List RGBImage) :
    Result FileSystem :=
  saveImagesFrom filename 0 srcImgs fs

/-! ## RGBPixel.h and RGBImage.h: equality, copies, sub-images -/

/-- The operator `==` of `RGBPixel`. -/
def RGBPixel.equals (p pix : RGBPixel) : Bool :=
  p.r == pix.r && p.g == pix.g && p.b == pix.b

/-- The operator `!=` of `RGBPixel`. -/
def RGBPixel.notEquals (p pix : RGBPixel) : Bool :=
  !p.equals pix

/-- The method `initializeTo`, which is also the copy constructor: the dimensions of the
source and a fresh buffer of `width*height` pixels copied from it index by index. -/
def RGBImage.initializeTo (srcImg : RGBImage) : RGBImage :=
  { width := srcImg.width, height := srcImg.height,
    image := (List.range (srcImg.width * srcImg.height).toNat).map
      (fun i => srcImg.image.getD i RGBPixel.default) }

/-- The pixel loop of `operator==`, `n` iterations left from index `i`: the first pair of
different pixels returns `false`. -/
def RGBImage.equalsLoop (a b : List RGBPixel) : Nat → Nat → Bool
  | 0, _ => true
  | n + 1, i =>
    if (a.getD i RGBPixel.default).notEquals (b.getD i RGBPixel.default) then false
    else RGBImage.equalsLoop a b n (i + 1)

/-- The operator `==` of `RGBImage`.  The source skips the pixel loop when both images share
one buffer; the loop would find no difference then. -/
def RGBImage.equals (self img : RGBImage) : Bool :=
  if ¬ (self.width = img.width ∧ self.height = img.height) then false
  else RGBImage.equalsLoop self.image img.image (self.width * self.height).toNat 0

/-- The operator `!=` of `RGBImage`. -/
def RGBImage.notEquals (self img : RGBImage) : Bool :=
  !self.equals img

/-- The operator `=` of `RGBImage`: the value of `*this` after `*this = srcImg`, for an object
`*this` whose pointer `image` is null or owns its buffer, so that `this->~RGBImage()` is
defined and only releases memory. -/
def RGBImage.assign (self srcImg : RGBImage) : RGBImage :=
  if self.notEquals srcImg then RGBImage.initializeTo srcImg else self

/-- The method `subImage`. -/
def RGBImage.subImage (img : RGBImage) (xOffset yOffset width height : Int) : Result RGBImage :=
  if xOffset + width > img.width ∨ yOffset + height > img.height then
    .error (.IndexOutOfBoundsException
      ("SubImage dimensions out of bounds:\nSubImage: x: " ++ toString xOffset
        ++ " y: " ++ toString yOffset ++ " width: " ++ toString width ++ " height: "
        ++ toString height ++ "\nSrcImage: width: " ++ toString img.width
        ++ " height: " ++ toString img.height))
  else
    match RGBImage.create width height with
    | .error e => .error e
    | .ok subImage =>
      forLoop (fun x (s : RGBImage) =>
          forLoop (fun y (s1 : RGBImage) =>
              match img.getRGB (x + xOffset) (y + yOffset) with
              | .error e => .error e
              | .ok pix => s1.setRGB x y pix)
            1 height.toNat 0 s)
        1 width.toNat 0 subImage

/-! ## ImageFilter.h and ImageSeparator.h -/

/-- The statement `slot = srcImg` for a slot that `RGBImage()` constructed, as every element of
`std::vector<RGBImage> v(n)` is.  The constructor sets `width` and `height` to 0 and leaves the
pointer `image` uninitialised.  `operator=` evaluates `*this != srcImg`; for a source that is not
0×0 the sizes differ, and `this->~RGBImage()` runs `if(image) delete image` on the uninitialised
pointer: undefined behaviour.  For a 0×0 source the pixel loop of `operator==` runs zero times,
the images compare equal and the slot stays as it is. -/
def RGBImage.assignToDefault (srcImg : RGBImage) : Result RGBImage :=
  if RGBImage.empty.notEquals srcImg then .error .Undefined else .ok RGBImage.empty

/-- The statement `v[i] = srcImg` on a `std::vector<RGBImage>` whose slot `i` is still as
`RGBImage()` constructed it: the unchecked `operator[]` followed by `operator=`. -/
def vectorAssignDefault (v : List RGBImage) (i : Int) (srcImg : RGBImage) :
    Result (List RGBImage) :=
  if 0 ≤ i ∧ i < v.length then
    match RGBImage.assignToDefault srcImg with
    | .error e => .error e
    | .ok slot => .ok (v.set i.toNat slot)
  else .error .Undefined

/-- The statement `v[i] = srcImg` on a `std::vector<RGBImage>`: the unchecked `operator[]`
followed by `operator=` of `RGBImage`, for a slot whose pointer `image` is null or owns a buffer.
For a slot that is still as `RGBImage()` constructed it the statement is `vectorAssignDefault`;
this definition is what the statement does in a run in which the uninitialised pointer reads as
null, so that `if(image)` skips the `delete`. -/
def vectorAssign (v : List RGBImage) (i : Int) (srcImg : RGBImage) : Result (List RGBImage) :=
  if 0 ≤ i ∧ i < v.length then
    .ok (v.set i.toNat ((v.getD i.toNat RGBImage.empty).assign srcImg))
  else .error .Undefined

/-- The method `ImageFilter::applyOverVector`, for the virtual method `filter`.  The vector
`transformedImages(srcImgs.size())` holds default-constructed images, and every slot is assigned
once. -/
def ImageFilter.applyOverVector (filter : RGBImage → Result RGBImage)
    (srcImgs : List RGBImage) : Result (List RGBImage) :=
  forLoop (fun i (transformedImages : List RGBImage) =>
      match filter (srcImgs.getD i.toNat RGBImage.empty) with
      | .error e => .error e
      | .ok img => vectorAssignDefault transformedImages i img)
    1 srcImgs.length 0 (List.replicate srcImgs.length RGBImage.empty)

/-- The method `ImageSeparator::applyOverVector`, for the virtual method `separate`;
`push_back` stores a copy of its argument. -/
def ImageSeparator.applyOverVector (separate : RGBImage → Result (List RGBImage))
    (srcImgs : List RGBImage) : Result (List RGBImage) :=
  forLoop (fun i (separatedImages : List RGBImage) =>
      match separate (srcImgs.getD i.toNat RGBImage.empty) with
      | .error e => .error e
      | .ok cachedImages =>
        forLoop (fun j (acc : List RGBImage) =>
            .ok (acc ++ [RGBImage.initializeTo (cachedImages.getD j.toNat RGBImage.empty)]))
          1 cachedImages.length 0 separatedImages)
    1 srcImgs.length 0 []

/-! ## ColorAmplifier.h and ColorSplitter.h -/

/-- Rounding of a number to the nearest integer, a tie to the even one of its two neighbours. -/
def roundHalfEven (q : ℚ) : Int :=
  let f := ⌊q⌋
  let d := q - f
  if d < 1 / 2 then f else if 1 / 2 < d then f + 1 else if f % 2 = 0 then f else f + 1

/-- The value of type `double` that an arithmetic operation with the exact result `q` returns:
IEEE 754 binary64, rounding to nearest, ties to even.  A finite `double` is the rational number
it stands for.  The significand has 53 bits, so the unit in the last place of a number in
`[2^e, 2^(e+1))` is `2^(e-52)`, and it is never smaller than `2^(-1074)`, that of the
subnormal numbers.  A result beyond the largest finite `double`, which the machine replaces by
infinity, is left as it is: either value is too large for the conversion to `int` that follows. -/
def toDouble (q : ℚ) : ℚ :=
  if q = 0 then 0
  else
    let e : Int := max (Int.log 2 |q|) (-1022)
    let ulp : ℚ := (2 : ℚ) ^ (e - 52)
    (roundHalfEven (q / ulp) : ℚ) * ulp

/-- The integer part of a number: its truncation toward zero. -/
def truncToInt (q : ℚ) : Int := q.num.tdiv q.den

/-- Conversion of a `double` to `int`: truncation toward zero; the behaviour is undefined when the
truncated value is not representable as an `int`. -/
def doubleToInt (d : ℚ) : Result Int :=
  if -2147483648 ≤ truncToInt d ∧ truncToInt d ≤ 2147483647 then .ok (truncToInt d)
  else .error .Undefined

/-- The class `ColorAmplifier`: the three ratios, finite values of type `double`. -/
structure ColorAmplifier where
  redRatio : ℚ
  greenRatio : ℚ
  blueRatio : ℚ
  deriving DecidableEq, Repr

/-- The constructor of `ColorAmplifier`. -/
def ColorAmplifier.create (redRatio greenRatio blueRatio : ℚ) : Result ColorAmplifier :=
  if redRatio < 0 ∨ greenRatio < 0 ∨ blueRatio < 0 then
    .error (.IllegalArgumentException "Color amplification ratios must be greater than 0.")
  else .ok { redRatio := redRatio, greenRatio := greenRatio, blueRatio := blueRatio }

/-- The static method `amplify`.  In `int amplifiedValue = value*ratio` the byte is converted to
`double` without rounding, the product is the `double` product, and the initialisation converts
it to `int`; the `int` that the `return` statement selects is narrowed to a byte. -/
def ColorAmplifier.amplify (value : byte) (ratio : ℚ) : Result byte :=
  match doubleToInt (toDouble ((value.val : ℚ) * ratio)) with
  | .error e => .error e
  | .ok amplifiedValue =>
    .ok (toByte (if amplifiedValue < (BYTE_MAX : Int) then amplifiedValue else (BYTE_MAX : Int)))

/-- The method `amplifyPixel`. -/
def ColorAmplifier.amplifyPixel (self : ColorAmplifier) (srcPix : RGBPixel) : Result RGBPixel :=
  match ColorAmplifier.amplify srcPix.r self.redRatio with
  | .error e => .error e
  | .ok r =>
    match ColorAmplifier.amplify srcPix.g self.greenRatio with
    | .error e => .error e
    | .ok g =>
      match ColorAmplifier.amplify srcPix.b self.blueRatio with
      | .error e => .error e
      | .ok b => .ok { r := r, g := g, b := b }

/-- The method `ColorAmplifier::filter`. -/
def ColorAmplifier.filter (self : ColorAmplifier) (srcImage : RGBImage) : Result RGBImage :=
  match RGBImage.create srcImage.getWidth srcImage.getHeight with
  | .error e => .error e
  | .ok amplifiedImage =>
    forLoop (fun x (s : RGBImage) =>
        forLoop (fun y (s1 : RGBImage) =>
            match srcImage.getRGB x y with
            | .error e => .error e
            | .ok pix =>
              match self.amplifyPixel pix with
              | .error e => .error e
              | .ok amplified => s1.setRGB x y amplified)
          1 srcImage.getHeight.toNat 0 s)
      1 srcImage.getWidth.toNat 0 amplifiedImage

/-- The class `ColorSplitter`: the three filters. -/
structure ColorSplitter where
  redFilter : ColorAmplifier
  greenFilter : ColorAmplifier
  blueFilter : ColorAmplifier
  deriving DecidableEq, Repr

/-- The constructor of `ColorSplitter`: `redFilter(1,0,0), greenFilter(0,1,0),
blueFilter(0,0,1)`. -/
def ColorSplitter.create : Result ColorSplitter :=
  match ColorAmplifier.create 1 0 0 with
  | .error e => .error e
  | .ok redFilter =>
    match ColorAmplifier.create 0 1 0 with
    | .error e => .error e
    | .ok greenFilter =>
      match ColorAmplifier.create 0 0 1 with
      | .error e => .error e
      | .ok blueFilter =>
        .ok { redFilter := redFilter, greenFilter := greenFilter, blueFilter := blueFilter }

/-- The method `ColorSplitter::separate`; `push_back` stores a copy of its argument. -/
def ColorSplitter.separate (self : ColorSplitter) (srcImg : RGBImage) :
    Result (List RGBImage) :=
  match self.redFilter.filter srcImg with
  | .error e => .error e
  | .ok red =>
    match self.greenFilter.filter srcImg with
    | .error e => .error e
    | .ok green =>
      match self.blueFilter.filter srcImg with
      | .error e => .error e
      | .ok blue =>
        .ok [RGBImage.initializeTo red, RGBImage.initializeTo green, RGBImage.initializeTo blue]

/-! ## ImageCropper.h and ImageSlicer.h -/

/-- The class `ImageCropper`: the two corners. -/
structure ImageCropper where
  x1 : Int
  y1 : Int
  x2 : Int
  y2 : Int
  deriving DecidableEq, Repr

/-- The constructor of `ImageCropper`: it stores the four coordinates and checks nothing. -/
def ImageCropper.create (get_x1 get_y1 get_x2 get_y2 : Int) : Result ImageCropper :=
  .ok { x1 := get_x1, y1 := get_y1, x2 := get_x2, y2 := get_y2 }

/-- The method `ImageCropper::filter`; `xPixel` and `yPixel` return their first and second
argument. -/
def ImageCropper.filter (self : ImageCropper) (srcImg : RGBImage) : Result RGBImage :=
  let newWidth := self.x2 - self.x1
  let newHeight := self.y2 - self.y1
  match RGBImage.create newWidth newHeight with
  | .error e => .error e
  | .ok Crop =>
    forLoop (fun x (s : RGBImage) =>
        forLoop (fun y (s1 : RGBImage) =>
            match srcImg.getRGB x y with
            | .error e => .error e
            | .ok pix => s1.setRGB (x - self.x1) (y - self.y1) pix)
          1 (self.y2 - self.y1).toNat self.y1 s)
      1 (self.x2 - self.x1).toNat self.x1 Crop

/-- The class `ImageSlicer`: the numbers of rows and columns. -/
structure ImageSlicer where
  rows : Int
  columns : Int
  deriving DecidableEq, Repr

/-- The method `ImageSlicer::separate`.  The vector is created with `rows*columns`
default-constructed images; the two divisions are integer divisions of C++.  The slots are
assigned with `vectorAssign`: the definition follows the two loops as they run when the
uninitialised pointers of the slots read as null, the only run that gets past the first
assignment of a slice that is not 0×0 (`vectorAssignDefault`), so that the crops and the slot
indices of the later iterations can be stated. -/
def ImageSlicer.separate (self : ImageSlicer) (srcImg : RGBImage) : Result (List RGBImage) :=
  if self.rows * self.columns < 0 then .error .LengthError
  else if self.rows = 0 ∨ self.columns = 0 then .error .Undefined
  else
    let slicedImages := List.replicate (self.rows * self.columns).toNat RGBImage.empty
    let rowHeight := srcImg.getHeight.tdiv self.rows
    let columnWidth := srcImg.getWidth.tdiv self.columns
    forLoop (fun r (s : List RGBImage) =>
        forLoop (fun c (s1 : List RGBImage) =>
            let cropper : ImageCropper :=
              { x1 := r * columnWidth, y1 := c * rowHeight,
                x2 := r * columnWidth + columnWidth, y2 := c * rowHeight + rowHeight }
            match cropper.filter srcImg with
            | .error e => .error e
            | .ok img => vectorAssign s1 (r * self.rows + c) img)
          1 self.columns.toNat 0 s)
      1 self.rows.toNat 0 slicedImages

/-! ## ImageRotator.h -/

/-- The class `ImageRotator`: the number of quarter turns. -/
structure ImageRotator where
  rotate : Int
  deriving DecidableEq, Repr

/-- The constructor of `ImageRotator`; `%` is the truncating remainder of C++. -/
def ImageRotator.create (rotate : Int) : ImageRotator :=
  let rotation_modulus := rotate.tmod 4
  if rotation_modulus < 0 then { rotate := rotation_modulus + 4 }
  else { rotate := rotation_modulus }

/-- The method `get_rotated_x`: the `switch` over `rotate`. -/
def ImageRotator.get_rotated_x (self : ImageRotator) (x y width height : Int) : Result Int :=
  if self.rotate = 0 then .ok x
  else if self.rotate = 1 then .ok (height - y - 1)
  else if self.rotate = 2 then .ok (width - x - 1)
  else if self.rotate = 3 then .ok y
  else .error (.Exception "We should never get here, rotations")

/-- The method `get_rotated_y`: the `switch` over `rotate`. -/
def ImageRotator.get_rotated_y (self : ImageRotator) (x y width height : Int) : Result Int :=
  if self.rotate = 0 then .ok y
  else if self.rotate = 1 then .ok x
  else if self.rotate = 2 then .ok (height - y - 1)
  else if self.rotate = 3 then .ok (width - x - 1)
  else .error (.Exception "We should never get here, rotations")

/-- The method `get_rotated_width`. -/
def ImageRotator.get_rotated_width (self : ImageRotator) (width height : Int) : Int :=
  if self.rotate.tmod 2 = 0 then width else height

/-- The method `get_rotated_height`. -/
def ImageRotator.get_rotated_height (self : ImageRotator) (width height : Int) : Int :=
  if self.rotate.tmod 2 = 0 then height else width

/-- The method `ImageRotator::filter`.  C++ leaves the order in which the three arguments of
`setRGB` are evaluated open; they are evaluated here from left to right. -/
def ImageRotator.filter (self : ImageRotator) (srcImg : RGBImage) : Result RGBImage :=
  match RGBImage.create (self.get_rotated_width srcImg.getWidth srcImg.getHeight)
      (self.get_rotated_height srcImg.getWidth srcImg.getHeight) with
  | .error e => .error e
  | .ok rotatedImage =>
    forLoop (fun x (s : RGBImage) =>
        forLoop (fun y (s1 : RGBImage) =>
            match self.get_rotated_x x y srcImg.getWidth srcImg.getHeight with
            | .error e => .error e
            | .ok rx =>
              match self.get_rotated_y x y srcImg.getWidth srcImg.getHeight with
              | .error e => .error e
              | .ok ry =>
                match srcImg.getRGB x y with
                | .error e => .error e
                | .ok pix => s1.setRGB rx ry pix)
          1 srcImg.getHeight.toNat 0 s)
      1 srcImg.getWidth.toNat 0 rotatedImage

/-! ## ImageScaler.h -/

/-- The class `ImageScaler`: the scale. -/
structure ImageScaler where
  scale : Int
  deriving DecidableEq, Repr

/-- The constructor of `ImageScaler`. -/
def ImageScaler.create (scale : Int) : Result ImageScaler :=
  if scale < 1 then .error (.IllegalArgumentException "ImageScaler scale cannot be less than 1")
  else .ok { scale := scale }

/-- The method `ImageScaler::filter`. -/
def ImageScaler.filter (self : ImageScaler) (srcImg : RGBImage) : Result RGBImage :=
  match RGBImage.create (srcImg.getWidth * self.scale) (srcImg.getHeight * self.scale) with
  | .error e => .error e
  | .ok scaledImage =>
    forLoop (fun x (s : RGBImage) =>
        forLoop (fun y (s1 : RGBImage) =>
            match srcImg.getRGB x y with
            | .error e => .error e
            | .ok pix =>
              let scaled_x := x * self.scale
              let scaled_y := y * self.scale
              forLoop (fun xs (s2 : RGBImage) =>
                  forLoop (fun ys (s3 : RGBImage) => s3.setRGB (scaled_x + xs) (scaled_y + ys) pix)
                    1 self.scale.toNat 0 s2)
                1 self.scale.toNat 0 s1)
          1 srcImg.getHeight.toNat 0 s)
      1 srcImg.getWidth.toNat 0 scaledImage

/-! ## ColorInverter.h -/

/-- The method `invertPixel`: `255 - channel` is computed in `int` and stored in a byte. -/
def ColorInverter.invertPixel (srcPix : RGBPixel) : RGBPixel :=
  { r := toByte (255 - (srcPix.r.val : Int)),
    g := toByte (255 - (srcPix.g.val : Int)),
    b := toByte (255 - (srcPix.b.val : Int)) }

/-- The method `ColorInverter::filter`. -/
def ColorInverter.filter (srcImg : RGBImage) : Result RGBImage :=
  match RGBImage.create srcImg.getWidth srcImg.getHeight with
  | .error e => .error e
  | .ok invertedImage =>
    forLoop (fun x (s : RGBImage) =>
        forLoop (fun y (s1 : RGBImage) =>
            match srcImg.getRGB x y with
            | .error e => .error e
            | .ok pix => s1.setRGB x y (ColorInverter.invertPixel pix))
          1 srcImg.getHeight.toNat 0 s)
      1 srcImg.getWidth.toNat 0 invertedImage

/-! ## ImageReflector.h -/

/-- The method `getReflectedX`. -/
def ImageReflector.getReflectedX (x _y width _height : Int) : Int := width - 1 - x

/-- The method `getReflectedY`. -/
def ImageReflector.getReflectedY (_x y _width _height : Int) : Int := y

/-- The method `ImageReflector::filter`. -/
def ImageReflector.filter (srcImg : RGBImage) : Result RGBImage :=
  match RGBImage.create srcImg.getWidth srcImg.getHeight with
  | .error e => .error e
  | .ok reflectedImage =>
    forLoop (fun x (s : RGBImage) =>
        forLoop (fun y (s1 : RGBImage) =>
            match srcImg.getRGB x y with
            | .error e => .error e
            | .ok pix =>
              s1.setRGB (ImageReflector.getReflectedX x y srcImg.getWidth srcImg.getHeight)
                (ImageReflector.getReflectedY x y srcImg.getWidth srcImg.getHeight) pix)
          1 srcImg.getHeight.toNat 0 s)
      1 srcImg.getWidth.toNat 0 reflectedImage

/-! ## Specification-side readings of a file -/

/-- The byte of a file at offset `i` as `get` reports it: the byte, or `EOF` (-1) past the end
of the file. -/
def byteAt (contents : List byte) (i : Nat) : Int :=
  match contents[i]? with
  | some c => (c.val : Int)
  | none => -1

/-- The 32-bit little-endian two's complement integer a file declares at `offset`. -/
def declaredInt (contents : List byte) (offset : Nat) : Int :=
  toInt32 (byteAt contents offset + 256 * byteAt contents (offset + 1)
    + 65536 * byteAt contents (offset + 2) + 16777216 * byteAt contents (offset + 3))

/-- The 16-bit little-endian two's complement integer a file declares at `offset`. -/
def declaredShort (contents : List byte) (offset : Nat) : Int :=
  toInt16 (byteAt contents offset + 256 * byteAt contents (offset + 1))

/-- The byte at offset `i` of a file (zero where the file has no such byte). -/
def fileByte (c : List byte) (i : Int) : byte := c.getD i.toNat 0

/-- The pixel stored at offset `i` of a file: bytes `b`, `g`, `r`. -/
def pixelAt (c : List byte) (i : Nat) : RGBPixel :=
  { r := c.getD (i + 2) 0, g := c.getD (i + 1) 0, b := c.getD i 0 }

/-- The channel of a pixel written `k`-th to a file: blue, green, red. -/
def RGBPixel.channel (pix : RGBPixel) (k : Nat) : byte :=
  if k = 0 then pix.b else if k = 1 then pix.g else pix.r

/-- The `n` low-order bytes of the two's complement representation of `v`, least significant
first. -/
def leBytes (n : Nat) (v : Int) : List byte :=
  (List.range n).map (fun i => toByte (v / 256 ^ i))

/-- The `size` bytes of `file` from `offset` on are the low-order bytes of `v`, least
significant first. -/
def holdsLE (file : List byte) (offset size : Nat) (v : Int) : Prop :=
  ∀ i, i < size → file[offset + i]? = some (toByte (v / 256 ^ i))

/-- The 38 header bytes of the bitmap of a `W × H` image, field by field. -/
def bitmapHeader (W H : Int) : List byte :=
  leBytes 2 0x4D42 ++ leBytes 4 (54 + (3 * W + getScanlinePadding W) * H) ++ [0, 0, 0, 0]
    ++ leBytes 4 54 ++ leBytes 4 40 ++ leBytes 4 W ++ leBytes 4 H ++ leBytes 2 1 ++ leBytes 2 24
    ++ [0, 0, 0, 0] ++ leBytes 4 ((3 * W + getScanlinePadding W) * H)

/-- The byte that the bitmap layout puts at offset `i` of the file of an image of `w × h` pixels
with `p` padding bytes per row, given the header bytes `hdr`. -/
def encodedByte (img : RGBImage) (hdr : List byte) (w h p : Nat) (i : Nat) : byte :=
  if i < 54 then hdr.getD i 0
  else
    let col := (i - 54) % (3 * w + p)
    let row := (i - 54) / (3 * w + p)
    if col < 3 * w then
      (img.image.getD ((col / 3) * h + (h - 1 - row)) RGBPixel.default).channel (col % 3)
    else 0

/-- The entries that `saveImages` adds to the file system for images number `i`, `i+1`, ...
with contents `outs`: the most recent first. -/
def savedFiles (stem ext : String) (i : Nat) (outs : List (List byte)) : FileSystem :=
  (((List.range' i outs.length).zip outs).map
    (fun q => (stem ++ toString q.1 ++ ext, q.2))).reverse

/-! ## Loop and stream invariants -/

/-- The stream reads file `c`, and it is good or it has failed on a file that ends before
offset `k`. -/
def Rd (c : List byte) (k : Nat) (ifs : ifstream) : Prop :=
  ifs.contents = c ∧
    ((ifs.eofbit = false ∧ ifs.failbit = false) ∨ (ifs.failbit = true ∧ c.length < k))

/-- The stream reads file `c`, and it is good at position `p` or it has failed on a file that
ends at or before offset `p`. -/
def At (c : List byte) (p : Nat) (ifs : ifstream) : Prop :=
  ifs.contents = c ∧
    ((ifs.eofbit = false ∧ ifs.failbit = false ∧ ifs.pos = p)
      ∨ (ifs.failbit = true ∧ c.length ≤ p))

/-- The stream on which the constructor calls `seekg(data_start)`: the opened file after the
five header reads. -/
def afterHeader (c : List byte) : ifstream :=
  (getInt (getInt (getInt (getInt (getShort (ifstream.open c) FILE_START_INDEX).2
    FILE_SIZE_INDEX).2 DATA_START_INDEX_INDEX).2 WIDTH_INDEX).2 HEIGHT_INDEX).2

/-- State of `ifs >> destImg` after `j` scanlines and `k` pixels of the next one. -/
def DecInv (c : List byte) (d w h p j k : Nat) (s : ifstream × RGBImage) : Prop :=
  s.1.contents = c ∧ s.1.eofbit = false ∧ s.1.failbit = false
  ∧ s.1.pos = d + j * (3 * w + p) + 3 * k
  ∧ s.2.width = (w : Int) ∧ s.2.height = (h : Int) ∧ s.2.image.length = w * h
  ∧ ∀ x y, x < w → y < h → (h ≤ y + j ∨ (y + j + 1 = h ∧ x < k)) →
      s.2.image.getD (x * h + y) RGBPixel.default = pixelAt c (d + (h - 1 - y) * (3 * w + p) + 3 * x)

/-- State of `ofs << srcImg`: every byte before the write position is the one the layout
prescribes, and the file ends at or before the write position. -/
def EncInv (img : RGBImage) (hdr : List byte) (w h p : Nat) (ofs : ofstream) : Prop :=
  (∀ i, i < ofs.pos → ofs.contents.getD i 0 = encodedByte img hdr w h p i)
  ∧ hdr.length ≤ 54 ∧ 54 ≤ ofs.pos
  ∧ (ofs.pos = 54 → ofs.contents.length = hdr.length)
  ∧ (54 < ofs.pos → ofs.contents.length = ofs.pos)

/-! ## Sample files and images -/

/-- A 54-byte file: the header of a 1×1 bitmap declaring 58 bytes, cut off before the pixel
data. -/
def truncatedFile : List byte :=
  [0x42, 0x4D, 58, 0, 0, 0, 0, 0, 0, 0, 54, 0, 0, 0, 40, 0, 0, 0, 1, 0, 0, 0, 1, 0, 0, 0, 1, 0,
   24, 0, 0, 0, 0, 0, 4, 0, 0, 0, 0, 0, 0, 0, 0, 0, 0, 0, 0, 0, 0, 0, 0, 0, 0, 0]

/-- A complete 58-byte 1×1 bitmap whose padding byte is 7. -/
def onePixelFile : List byte := truncatedFile ++ [10, 20, 30, 7]

/-- A complete 58-byte 1×1 bitmap whose padding byte is zero. -/
def cleanPixelFile : List byte := truncatedFile ++ [10, 20, 30, 0]

/-- A 54-byte file whose header declares width -1, height -1, data offset 58 and file size
`54 = 58 + (-3 + 7) * (-1)`. -/
def negativeSizeFile : List byte :=
  [0x42, 0x4D, 54, 0, 0, 0, 0, 0, 0, 0, 58, 0, 0, 0, 40, 0, 0, 0, 255, 255, 255, 255,
   255, 255, 255, 255, 1, 0, 24, 0, 0, 0, 0, 0, 0, 0, 0, 0, 0, 0, 0, 0, 0, 0, 0, 0, 0, 0, 0, 0,
   0, 0, 0, 0]

/-- A 54-byte file whose header declares width -1, height `-2^30`, data offset 54 and file
size 54.  The value of `54 + (-3 + 7) * (-2^30)` is `54 - 2^32`, which as an `int` is 54. -/
def wrappedSizeFile : List byte :=
  [0x42, 0x4D, 54, 0, 0, 0, 0, 0, 0, 0, 54, 0, 0, 0, 40, 0, 0, 0, 255, 255, 255, 255,
   0, 0, 0, 192, 1, 0, 24, 0, 0, 0, 0, 0, 0, 0, 0, 0, 0, 0, 0, 0, 0, 0, 0, 0, 0, 0, 0, 0,
   0, 0, 0, 0]

/-- The 1×1 image with the pixel `(30,20,10)`. -/
def onePixelImage : RGBImage :=
  { image := [{ r := 30, g := 20, b := 10 }], width := 1, height := 1 }

/-- A 3×2 image with eighteen different channel values. -/
def sampleImage : RGBImage :=
  { image := [⟨1, 2, 3⟩, ⟨4, 5, 6⟩, ⟨7, 8, 9⟩, ⟨10, 11, 12⟩, ⟨13, 14, 15⟩, ⟨16, 17, 18⟩],
    width := 3, height := 2 }

/-- State of two nested loops that store `v i j` at buffer index `idx i j` of an image of
`W × H` pixels: `i` outer iterations and `j` inner ones are done. -/
def FillInv (W H : Nat) (m : Nat) (idx : Nat → Nat → Nat) (v : Nat → Nat → RGBPixel)
    (i j : Nat) (s : RGBImage) : Prop :=
  s.width = (W : Int) ∧ s.height = (H : Int) ∧ s.image.length = W * H
  ∧ ∀ a b, ((a < i ∧ b < m) ∨ (a = i ∧ b < j)) →
      s.image.getD (idx a b) RGBPixel.default = v a b

/-- A 2×2 image with four different pixels; pixel `(x,y)` is stored at index `2*x + y`. -/
def fourPixelImage : RGBImage :=
  { image := [⟨1, 1, 1⟩, ⟨2, 2, 2⟩, ⟨3, 3, 3⟩, ⟨4, 4, 4⟩], width := 2, height := 2 }

/-- A black image of 300×300 pixels. -/
def blackImage300 : RGBImage :=
  { image := List.replicate 90000 RGBPixel.default, width := 300, height := 300 }

/-- A 56-byte file: the header of a 1×1 bitmap declaring 58 bytes, cut off after the first two
bytes of the pixel. -/
def cutPixelFile : List byte := truncatedFile ++ [10, 20]

/-- A 54-byte file: the header of a 1×1 bitmap that declares its own length, 54 bytes, and no
pixel data. -/
def honestShortFile : List byte :=
  [0x42, 0x4D, 54, 0, 0, 0, 0, 0, 0, 0, 54, 0, 0, 0, 40, 0, 0, 0, 1, 0, 0, 0, 1, 0, 0, 0, 1, 0,
   24, 0, 0, 0, 0, 0, 4, 0, 0, 0, 0, 0, 0, 0, 0, 0, 0, 0, 0, 0, 0, 0, 0, 0, 0, 0]

/-- Width of the image that `r` quarter turns make of a `W×H` image. -/
def rotW (r W H : Nat) : Nat :=
  match r with
  | 0 => W
  | 1 => H
  | 2 => W
  | _ => H

/-- Height of the image that `r` quarter turns make of a `W×H` image. -/
def rotH (r W H : Nat) : Nat :=
  match r with
  | 0 => H
  | 1 => W
  | 2 => H
  | _ => W

/-- The `x` coordinate of the source pixel that `r` quarter turns of a `W×H` image bring to
`(X,Y)`. -/
def srcX (r W : Nat) (X Y : Nat) : Nat :=
  match r with
  | 0 => X
  | 1 => Y
  | 2 => W - 1 - X
  | _ => W - 1 - Y

/-- The `y` coordinate of the source pixel that `r` quarter turns of a `W×H` image bring to
`(X,Y)`. -/
def srcY (r H : Nat) (X Y : Nat) : Nat :=
  match r with
  | 0 => Y
  | 1 => H - 1 - X
  | 2 => H - 1 - Y
  | _ => X

/-- The 54-byte header of a 65536×21846 bitmap that declares the data offset 54 and the file
size 131126. -/
def wrappedLengthHeader : List byte :=
  [0x42, 0x4D, 0x36, 0, 2, 0, 0, 0, 0, 0, 54, 0, 0, 0, 40, 0, 0, 0, 0, 0, 1, 0, 0x56, 0x55, 0, 0,
   1, 0, 24, 0, 0, 0, 0, 0, 0, 0, 0, 0, 0, 0, 0, 0, 0, 0, 0, 0, 0, 0, 0, 0, 0, 0, 0, 0]

/-- A 131126-byte file: `wrappedLengthHeader` and 131072 zero bytes.  The pixel data of a
65536×21846 image has `196608 * 21846 = 2^32 + 131072` bytes, and `54 + 196608 * 21846` as an
`int` is 131126. -/
def wrappedLengthFile : List byte := wrappedLengthHeader ++ List.replicate 131072 0

/-! ## Theorems -/

/-! ### Machine words -/

/-- The truncating remainder of a negative number. -/
theorem tmod_of_neg (k n : Int) (hk : k < 0) (hn : 0 ≤ n) : k.tmod n = -((-k) % n) := by
  have h1 : k.tmod n = k - n * k.tdiv n := Int.tmod_def k n
  have h2 : k.tdiv n = -((-k).tdiv n) := by rw [Int.neg_tdiv, neg_neg]
  have h3 : (-k).tdiv n = (-k) / n := Int.tdiv_eq_ediv (by omega) hn
  have h4 : (-k) % n = -k - n * ((-k) / n) := Int.emod_def (-k) n
  rw [h1, h2, h3, h4]
  ring

/-- A value that fits in 32 bits is not changed by the reduction to `int`. -/
theorem toInt32_of_range (v : Int) (h0 : -2147483648 ≤ v) (h1 : v < 2147483648) :
    toInt32 v = v := by
  unfold toInt32
  omega

/-- The reduction to `int` always lands in the range of `int`. -/
theorem toInt32_range (v : Int) : -2147483648 ≤ toInt32 v ∧ toInt32 v < 2147483648 := by
  unfold toInt32
  omega

/-- Reducing to `int` twice is reducing once. -/
theorem toInt32_idem (v : Int) : toInt32 (toInt32 v) = toInt32 v := by
  unfold toInt32
  omega

/-- A header word is an `int`. -/
theorem toInt32_declaredInt (c : List byte) (off : Nat) :
    toInt32 (declaredInt c off) = declaredInt c off := by
  unfold declaredInt
  exact toInt32_idem _

/-- The padding that `getScanlinePadding` returns is never negative and never more than 7. -/
theorem padding_range (w : Int) :
    0 ≤ getScanlinePadding w ∧ getScanlinePadding w ≤ 7 := by
  unfold getScanlinePadding
  generalize toInt32 (w * PIXEL_SIZE) = s
  by_cases hs : 0 ≤ s
  · have ht : s.tmod 4 = s % 4 := Int.tmod_eq_emod hs (by decide)
    simp only [ht]
    split <;> omega
  · have ht : s.tmod 4 = -((-s) % 4) := tmod_of_neg s 4 (by omega) (by decide)
    simp only [ht]
    split <;> omega

/-- While `3 * w` fits in an `int`, the padding is the one of the scanline of `w` pixels. -/
theorem padding_small (w : Int) (hw : 0 ≤ w) (hb : w ≤ 715827882) :
    getScanlinePadding w = (4 - (w * 3) % 4) % 4 := by
  have h3 : (0 : Int) ≤ w * 3 := by omega
  have ht : (w * 3).tmod 4 = (w * 3) % 4 := Int.tmod_eq_emod h3 (by decide)
  have hr : toInt32 (w * 3) = w * 3 := toInt32_of_range _ (by omega) (by omega)
  unfold getScanlinePadding PIXEL_SIZE
  simp only [hr, ht]
  split <;> omega

/-! ### Input streams and header words -/

theorem byteAt_bounds (c : List byte) (i : Nat) : -1 ≤ byteAt c i ∧ byteAt c i ≤ 255 := by
  unfold byteAt
  split
  · rename_i b _
    have := b.isLt
    omega
  · omega

theorem get_spec (c : List byte) (p : Nat) (ifs : ifstream) (h : At c p ifs) :
    ifs.get.1 = byteAt c p ∧ At c (p + 1) ifs.get.2 ∧ Rd c (p + 1) ifs.get.2 := by
  obtain ⟨hc, h | h⟩ := h
  · obtain ⟨he, hf, hp⟩ := h
    subst hc hp
    unfold ifstream.get byteAt At Rd
    simp only [he, hf, Bool.or_self, Bool.false_eq_true, if_false]
    cases hg : ifs.contents[ifs.pos]? with
    | none =>
      have := List.getElem?_eq_none_iff.mp hg
      refine ⟨rfl, ⟨rfl, Or.inr ⟨rfl, ?_⟩⟩, rfl, Or.inr ⟨rfl, ?_⟩⟩ <;> omega
    | some b =>
      exact ⟨rfl, ⟨rfl, Or.inl ⟨rfl, rfl, rfl⟩⟩, rfl, Or.inl ⟨rfl, rfl⟩⟩
  · obtain ⟨hf, hl⟩ := h
    subst hc
    unfold ifstream.get byteAt At Rd
    simp only [hf, Bool.or_true, if_true]
    have hn : ifs.contents[p]? = none := List.getElem?_eq_none_iff.mpr hl
    rw [hn]
    simp only [true_and]
    exact ⟨Or.inr (by omega), Or.inr (by omega)⟩

theorem seekg_spec (c : List byte) (k : Nat) (ifs : ifstream) (off : Int) (h : Rd c k ifs)
    (h0 : 0 ≤ off) (hk : k ≤ off.toNat) : At c off.toNat (ifs.seekg off) := by
  obtain ⟨hc, h | h⟩ := h
  · obtain ⟨he, hf⟩ := h
    unfold ifstream.seekg At
    have : ¬ off < 0 := by omega
    simp [hf, this, hc]
  · obtain ⟨hf, hl⟩ := h
    unfold ifstream.seekg At
    simp only [hf, if_true, hc, true_and]
    exact Or.inr (by omega)

theorem toInt32_add (a b : Int) : toInt32 (toInt32 a + toInt32 b) = toInt32 (a + b) := by
  unfold toInt32
  omega

theorem getInt_spec (c : List byte) (k : Nat) (ifs : ifstream) (off : Int) (h : Rd c k ifs)
    (h0 : 0 ≤ off) (hk : k ≤ off.toNat) :
    (getInt ifs off).1 = declaredInt c off.toNat ∧ Rd c (off.toNat + 4) (getInt ifs off).2 := by
  have s0 := seekg_spec c k ifs off h h0 hk
  obtain ⟨v0, s1, _⟩ := get_spec c _ _ s0
  obtain ⟨v1, s2, _⟩ := get_spec c (off.toNat + 1) _ s1
  obtain ⟨v2, s3, _⟩ := get_spec c (off.toNat + 2) _ s2
  obtain ⟨v3, _, s4⟩ := get_spec c (off.toNat + 3) _ s3
  refine ⟨?_, s4⟩
  simp only [getInt, getIntLoop, v0, v1, v2, v3, declaredInt, BYTE_BIT]
  norm_num
  unfold toInt32
  omega

theorem getShort_spec (c : List byte) (ifs : ifstream) (h : Rd c 0 ifs) :
    (getShort ifs 0).1 = toInt16 (byteAt c 0 + 256 * byteAt c 1) ∧ Rd c 2 (getShort ifs 0).2 := by
  have s0 := seekg_spec c 0 ifs 0 h (le_refl _) (Nat.zero_le _)
  obtain ⟨v0, s1, _⟩ := get_spec c _ _ s0
  obtain ⟨v1, _, s2⟩ := get_spec c _ _ s1
  refine ⟨?_, s2⟩
  simp only [getShort, getShortLoop, v0, v1, BYTE_BIT]
  have b0 := byteAt_bounds c 0
  have b1 := byteAt_bounds c 1
  norm_num
  unfold toInt16 toInt32
  omega

theorem open_Rd (c : List byte) : Rd c 0 (ifstream.open c) := ⟨rfl, Or.inl ⟨rfl, rfl⟩⟩

theorem signature_iff (c : List byte) :
    toInt16 (byteAt c 0 + 256 * byteAt c 1) = BMP_IDENTIFIER ↔ c.take 2 = [0x42, 0x4D] := by
  unfold BMP_IDENTIFIER toInt16 byteAt
  match c with
  | [] => simp
  | [a] =>
    have := a.isLt
    simp
    omega
  | a :: b :: t =>
    have := a.isLt
    have := b.isLt
    simp [Fin.ext_iff]
    omega

/-! ### Loops, bounds checks and the header of a file -/

theorem forLoop_inv {σ : Type} (body : Int → σ → Result σ) (step : Int) :
    ∀ (n : Nat) (I : Nat → σ → Prop) (start : Int) (s : σ), I 0 s →
      (∀ k, k < n → ∀ t, I k t → ∃ t1, body (start + k * step) t = .ok t1 ∧ I (k + 1) t1) →
      ∃ s1, forLoop body step n start s = .ok s1 ∧ I n s1 := by
  intro n
  induction n with
  | zero =>
    intro I start s h0 _
    exact ⟨s, rfl, h0⟩
  | succ n ih =>
    intro I start s h0 hstep
    obtain ⟨t1, hb, h1⟩ := hstep 0 (Nat.succ_pos n) s h0
    simp only [Nat.cast_zero, zero_mul, add_zero] at hb
    have key := ih (fun k t => I (k + 1) t) (start + step) t1 h1 (by
      intro k hk t ht
      obtain ⟨t2, hb2, h2⟩ := hstep (k + 1) (Nat.succ_lt_succ hk) t ht
      refine ⟨t2, ?_, h2⟩
      rw [← hb2]
      congr 1
      push_cast
      ring)
    obtain ⟨s1, hs1, hI⟩ := key
    refine ⟨s1, ?_, hI⟩
    simp only [forLoop, hb, hs1]

theorem setRGB_ok (img : RGBImage) (x y : Int) (p : RGBPixel) (hx0 : 0 ≤ x) (hx : x < img.width)
    (hy0 : 0 ≤ y) (hy : y < img.height) :
    img.setRGB x y p = .ok { img with image := img.image.set (x * img.height + y).toNat p } := by
  have hb : ¬ (x < 0 ∨ x ≥ img.width ∨ y < 0 ∨ y ≥ img.height) := by omega
  simp only [RGBImage.setRGB, RGBImage.assertBounds, hb, if_false]

theorem assertBounds_error (img : RGBImage) (x y : Int)
    (hb : x < 0 ∨ x ≥ img.width ∨ y < 0 ∨ y ≥ img.height) :
    ∃ msg, img.assertBounds x y = .error (.IndexOutOfBoundsException msg) := by
  unfold RGBImage.assertBounds
  rw [if_pos hb]
  split <;> exact ⟨_, rfl⟩

theorem getRGB_ok (img : RGBImage) (x y : Int) (hx0 : 0 ≤ x) (hx : x < img.width)
    (hy0 : 0 ≤ y) (hy : y < img.height) :
    img.getRGB x y = .ok (img.image.getD (x * img.height + y).toNat RGBPixel.default) := by
  have hb : ¬ (x < 0 ∨ x ≥ img.width ∨ y < 0 ∨ y ≥ img.height) := by omega
  simp only [RGBImage.getRGB, RGBImage.assertBounds, hb, if_false]

/-- Reading a scanline into an image never throws when the row is in range. -/
theorem readScanline_ok (W H : Int) (y : Int) (hy0 : 0 ≤ y) (hy : y < H) (st : ifstream × RGBImage)
    (hw : st.2.width = W) (hh : st.2.height = H) :
    ∃ s1, readScanline y st = .ok s1 ∧ s1.2.width = W ∧ s1.2.height = H := by
  unfold readScanline
  apply forLoop_inv _ 1 _ (fun _ (s : ifstream × RGBImage) => s.2.width = W ∧ s.2.height = H)
  · exact ⟨hw, hh⟩
  · intro k hk t ht
    have hk2 : (k : Int) < W := by
      have : st.2.getWidth = W := hw
      rw [this] at hk
      omega
    dsimp only
    rw [setRGB_ok t.2 (0 + (k : Int) * 1) y _ (by omega) (by rw [ht.1]; omega) hy0
      (by rw [ht.2]; exact hy)]
    exact ⟨_, rfl, ht.1, ht.2⟩

theorem readImage_ok (ifs : ifstream) (img : RGBImage) :
    ∃ s1, readImage ifs img = .ok s1 ∧ s1.2.width = img.width ∧ s1.2.height = img.height := by
  unfold readImage
  apply forLoop_inv _ (-1) _
    (fun _ (s : ifstream × RGBImage) => s.2.width = img.width ∧ s.2.height = img.height)
  · exact ⟨rfl, rfl⟩
  · intro k hk t ht
    have hk2 : (k : Int) < img.height := by
      have : img.getHeight = img.height := rfl
      rw [this] at hk
      omega
    obtain ⟨s1, h1, h2⟩ := readScanline_ok img.width img.height (img.getHeight - 1 + k * -1)
      (by unfold RGBImage.getHeight; omega) (by unfold RGBImage.getHeight; omega) t ht.1 ht.2
    rw [h1]
    exact ⟨_, rfl, h2⟩

theorem afterHeader_spec (c : List byte) (hsig : c.take 2 = [0x42, 0x4D]) :
    Rd c 26 (afterHeader c) ∧
    ∀ filename, decode filename (ifstream.open c) =
      if declaredInt c 2 ≠ toInt32 (declaredInt c 10
          + (declaredInt c 18 * PIXEL_SIZE + getScanlinePadding (declaredInt c 18))
            * declaredInt c 22) then
        .error (.FileException filename "File is not a valid bitmap.")
      else
        match RGBImage.initializeWith (declaredInt c 18) (declaredInt c 22) with
        | .error e => .error e
        | .ok img =>
          match readImage ((afterHeader c).seekg (declaredInt c 10)) img with
          | .error e => .error e
          | .ok s => .ok s.2 := by
  obtain ⟨v0, r0⟩ := getShort_spec c _ (open_Rd c)
  have r0 : Rd c 2 (getShort (ifstream.open c) FILE_START_INDEX).2 := r0
  obtain ⟨v1, r1⟩ := getInt_spec c 2 _ FILE_SIZE_INDEX r0 (by decide) (by decide)
  obtain ⟨v2, r2⟩ := getInt_spec c _ _ DATA_START_INDEX_INDEX r1 (by decide) (by decide)
  obtain ⟨v3, r3⟩ := getInt_spec c _ _ WIDTH_INDEX r2 (by decide) (by decide)
  obtain ⟨v4, r4⟩ := getInt_spec c _ _ HEIGHT_INDEX r3 (by decide) (by decide)
  refine ⟨r4, fun filename => ?_⟩
  have hs : (getShort (ifstream.open c) FILE_START_INDEX).1 = BMP_IDENTIFIER := by
    rw [show FILE_START_INDEX = 0 from rfl, v0]
    exact (signature_iff c).mpr hsig
  unfold decode
  simp only [hs, ne_eq, not_true_eq_false, if_false]
  rw [v1, v2, v3, v4]
  rfl

theorem decode_bad_signature (c : List byte) (filename : String) (hsig : c.take 2 ≠ [0x42, 0x4D]) :
    decode filename (ifstream.open c) = .error (.FileException filename "File is not a bitmap") := by
  obtain ⟨v0, _⟩ := getShort_spec c _ (open_Rd c)
  have hs : (getShort (ifstream.open c) FILE_START_INDEX).1 ≠ BMP_IDENTIFIER := by
    rw [show FILE_START_INDEX = 0 from rfl, v0]
    exact fun h => hsig ((signature_iff c).mp h)
  unfold decode
  simp only [hs, ne_eq, not_false_eq_true, if_true]

/-! ### Claims on the image class and the header checks -/

/-- C7 (amended): for every width `w` with `0 ≤ w ≤ 715827882`, that is, while `3 * w` is
representable as an `int`, `getScanlinePadding w` equals `(4 - (w*3) % 4) % 4` (with the
truncating `%` of C++ as well as with the mathematical one), is one of 0, 1, 2, 3, and makes the
row length `3w + padding` a multiple of 4. -/
theorem C7_scanline_padding (w : Int) (hw : 0 ≤ w) (hb : w ≤ 715827882) :
    getScanlinePadding w = (4 - (w * 3).tmod 4).tmod 4
    ∧ getScanlinePadding w = (4 - (w * 3) % 4) % 4
    ∧ (getScanlinePadding w = 0 ∨ getScanlinePadding w = 1 ∨ getScanlinePadding w = 2
        ∨ getScanlinePadding w = 3)
    ∧ (3 * w + getScanlinePadding w) % 4 = 0 := by
  have h3 : (0 : Int) ≤ w * 3 := by omega
  have ht : (w * 3).tmod 4 = (w * 3) % 4 := Int.tmod_eq_emod h3 (by decide)
  have h4 : (0 : Int) ≤ 4 - (w * 3) % 4 := by omega
  have ht2 : (4 - (w * 3) % 4).tmod 4 = (4 - (w * 3) % 4) % 4 := Int.tmod_eq_emod h4 (by decide)
  rw [ht, ht2, padding_small w hw hb]
  omega

/-- Witness of C7 at width 5: the padding is 1 and the row has 16 bytes. -/
theorem C7_scanline_padding_witness :
    (0 : Int) ≤ 5 ∧ (5 : Int) ≤ 715827882 ∧ getScanlinePadding 5 = 1
      ∧ (3 * 5 + getScanlinePadding 5) % 4 = 0 :=
  ⟨by decide, by decide, by decide, (C7_scanline_padding 5 (by decide) (by decide)).2.2.2⟩

/-- C7, counterexample: at the width 715827883 the product `width * PIXEL_SIZE` is 2147483649,
which as an `int` is -2147483647; its truncating remainder by 4 is -3 and the function returns
`4 - (-3) = 7`, which is not one of 0, 1, 2, 3 and is not `(4 - (w*3) % 4) % 4 = 3`. -/
theorem C7_counterexample :
    (0 : Int) ≤ 715827883
    ∧ getScanlinePadding 715827883 = 7
    ∧ (4 - ((715827883 : Int) * 3) % 4) % 4 = 3
    ∧ (4 - ((715827883 : Int) * 3).tmod 4).tmod 4 = 3 := by
  decide

/-- C10: on every image and at all integer coordinates, `getRGB` and `setRGB` throw exactly when
the coordinates are not inside `[0,width) × [0,height)`, and what they throw is an
`IndexOutOfBoundsException`. -/
theorem C10_bounds (img : RGBImage) (x y : Int) (p : RGBPixel) :
    ((∃ msg, img.getRGB x y = .error (.IndexOutOfBoundsException msg))
        ↔ ¬ (0 ≤ x ∧ x < img.width ∧ 0 ≤ y ∧ y < img.height))
    ∧ ((∃ e, img.getRGB x y = .error e) ↔ ¬ (0 ≤ x ∧ x < img.width ∧ 0 ≤ y ∧ y < img.height))
    ∧ ((∃ msg, img.setRGB x y p = .error (.IndexOutOfBoundsException msg))
        ↔ ¬ (0 ≤ x ∧ x < img.width ∧ 0 ≤ y ∧ y < img.height))
    ∧ ((∃ e, img.setRGB x y p = .error e)
        ↔ ¬ (0 ≤ x ∧ x < img.width ∧ 0 ≤ y ∧ y < img.height)) := by
  by_cases h : 0 ≤ x ∧ x < img.width ∧ 0 ≤ y ∧ y < img.height
  · rw [getRGB_ok img x y h.1 h.2.1 h.2.2.1 h.2.2.2, setRGB_ok img x y p h.1 h.2.1 h.2.2.1 h.2.2.2]
    simp [h]
  · obtain ⟨msg, hm⟩ := assertBounds_error img x y (by omega)
    simp only [RGBImage.getRGB, RGBImage.setRGB, hm, h, not_false_eq_true, iff_true]
    exact ⟨⟨msg, rfl⟩, ⟨_, rfl⟩, ⟨msg, rfl⟩, ⟨_, rfl⟩⟩

/-- C6: a readable file whose first two bytes are not `0x42, 0x4D` (a file of fewer than two
bytes included) makes the constructor throw a `FileException` that carries the filename. -/
theorem C6_not_a_bitmap (fs : FileSystem) (filename : String) (contents : List byte)
    (hread : fs.read filename = some contents) (hsig : contents.take 2 ≠ [0x42, 0x4D]) :
    RGBImage.fromFile fs filename = .error (.FileException filename "File is not a bitmap") := by
  unfold RGBImage.fromFile
  rw [hread]
  exact decode_bad_signature contents filename hsig

/-- Witness of C6: a one-byte file. -/
theorem C6_not_a_bitmap_witness :
    RGBImage.fromFile [("notes.txt", [0x42])] "notes.txt"
      = .error (.FileException "notes.txt" "File is not a bitmap") :=
  C6_not_a_bitmap [("notes.txt", [0x42])] "notes.txt" [0x42] (by decide) (by decide)

/-- C5 (amended): for a readable file with the correct signature, the constructor throws the
`"File is not a valid bitmap."` file error exactly when the file size declared at offset 2
differs from the `int` that the code computes as
`data_offset + (width*3 + padding(width)) * height` from the fields declared at offsets 10, 18
and 22, that is, from that value reduced to 32 bits; whenever the value is representable as an
`int`, the error is thrown exactly when the declared file size differs from the value. -/
theorem C5_size_check (fs : FileSystem) (filename : String) (contents : List byte)
    (hread : fs.read filename = some contents) (hsig : contents.take 2 = [0x42, 0x4D]) :
    (RGBImage.fromFile fs filename
        = .error (.FileException filename "File is not a valid bitmap.")
      ↔ declaredInt contents 2 ≠ toInt32 (declaredInt contents 10
          + (declaredInt contents 18 * 3 + getScanlinePadding (declaredInt contents 18))
            * declaredInt contents 22))
    ∧ (-2147483648 ≤ declaredInt contents 10
          + (declaredInt contents 18 * 3 + getScanlinePadding (declaredInt contents 18))
            * declaredInt contents 22
        → declaredInt contents 10
          + (declaredInt contents 18 * 3 + getScanlinePadding (declaredInt contents 18))
            * declaredInt contents 22 < 2147483648
        → (RGBImage.fromFile fs filename
            = .error (.FileException filename "File is not a valid bitmap.")
          ↔ declaredInt contents 2 ≠ declaredInt contents 10
              + (declaredInt contents 18 * 3 + getScanlinePadding (declaredInt contents 18))
                * declaredInt contents 22)) := by
  have key : RGBImage.fromFile fs filename
        = .error (.FileException filename "File is not a valid bitmap.")
      ↔ declaredInt contents 2 ≠ toInt32 (declaredInt contents 10
          + (declaredInt contents 18 * 3 + getScanlinePadding (declaredInt contents 18))
            * declaredInt contents 22) := by
    unfold RGBImage.fromFile
    rw [hread]
    simp only
    rw [(afterHeader_spec contents hsig).2 filename]
    simp only [PIXEL_SIZE]
    split
    · rename_i h
      simp [h]
    · rename_i h
      simp only [h, iff_false]
      unfold RGBImage.initializeWith
      by_cases hneg : declaredInt contents 18 < 0 ∨ declaredInt contents 22 < 0
      · rw [if_pos hneg]
        simp
      · rw [if_neg hneg]
        obtain ⟨s1, h1, _⟩ := readImage_ok
          ((afterHeader contents).seekg (declaredInt contents 10))
          { image := List.replicate (declaredInt contents 18 * declaredInt contents 22).toNat
              RGBPixel.default,
            width := declaredInt contents 18, height := declaredInt contents 22 }
        simp only [h1]
        simp
  refine ⟨key, fun h0 h1 => ?_⟩
  rw [key, toInt32_of_range _ h0 h1]

/-- Witness of C5: `honestShortFile` declares 54 bytes and a 1×1 image at offset 54, which needs
`54 + (3 + 1) * 1 = 58` bytes, and the size check fails. -/
theorem C5_size_check_witness :
    RGBImage.fromFile [("h.bmp", honestShortFile)] "h.bmp"
      = .error (.FileException "h.bmp" "File is not a valid bitmap.") :=
  ((C5_size_check [("h.bmp", honestShortFile)] "h.bmp" honestShortFile (by decide)
    (by decide)).2 (by decide) (by decide)).mpr (by decide)

/-- Counterexample to C5 as stated: `wrappedSizeFile` has the correct signature and declares the
file size 54, which differs from `54 + (-1*3 + 7) * (-1073741824) = -4294967242`; the code
computes this value as the `int` 54, the size check passes, and the constructor leaves with the
`IllegalArgumentException` of `initializeWith`, not with the file error. -/
theorem C5_counterexample :
    wrappedSizeFile.take 2 = [0x42, 0x4D]
      ∧ declaredInt wrappedSizeFile 2 ≠ declaredInt wrappedSizeFile 10
          + (declaredInt wrappedSizeFile 18 * 3
              + getScanlinePadding (declaredInt wrappedSizeFile 18))
            * declaredInt wrappedSizeFile 22
      ∧ RGBImage.fromFile [("w.bmp", wrappedSizeFile)] "w.bmp"
          = .error (.IllegalArgumentException
              "Dimensions must be greater than zero. Width: -1 Height: -1073741824\n") :=
  ⟨by decide, by decide, rfl⟩

/-! ### Decoding the pixel area -/

theorem toByte_val (b : byte) : toByte (b.val : Int) = b := by
  apply Fin.ext
  have := b.isLt
  simp only [toByte]
  omega

theorem get_good (ifs : ifstream) (he : ifs.eofbit = false) (hf : ifs.failbit = false)
    (hlt : ifs.pos < ifs.contents.length) :
    ifs.get = (((ifs.contents.getD ifs.pos 0).val : Int), { ifs with pos := ifs.pos + 1 }) := by
  unfold ifstream.get
  simp only [he, hf, Bool.or_self, Bool.false_eq_true, if_false]
  rw [List.getD_eq_getElem?_getD, List.getElem?_eq_getElem hlt]
  rfl

theorem readPixel_good (ifs : ifstream) (he : ifs.eofbit = false) (hf : ifs.failbit = false)
    (hlt : ifs.pos + 3 ≤ ifs.contents.length) :
    readPixel ifs = (pixelAt ifs.contents ifs.pos, { ifs with pos := ifs.pos + 3 }) := by
  have g1 := get_good ifs he hf (by omega)
  have g2 := get_good { ifs with pos := ifs.pos + 1 } he hf (by show ifs.pos + 1 < ifs.contents.length; omega)
  have g3 := get_good { ifs with pos := ifs.pos + 1 + 1 } he hf
    (by show ifs.pos + 1 + 1 < ifs.contents.length; omega)
  unfold readPixel
  rw [g1]
  dsimp only
  rw [g2]
  dsimp only
  rw [g3]
  simp only [toByte_val, pixelAt]

theorem idx_inj (h x y x1 y1 : Nat) (hy : y < h) (hy1 : y1 < h) (e : x * h + y = x1 * h + y1) :
    x = x1 ∧ y = y1 := by
  have hpos : 0 < h := by omega
  have e1 : (x * h + y) / h = x := by
    rw [Nat.add_comm, Nat.add_mul_div_right _ _ hpos, Nat.div_eq_of_lt hy, Nat.zero_add]
  have e2 : (x1 * h + y1) / h = x1 := by
    rw [Nat.add_comm, Nat.add_mul_div_right _ _ hpos, Nat.div_eq_of_lt hy1, Nat.zero_add]
  have hx : x = x1 := by rw [← e1, ← e2, e]
  subst hx
  exact ⟨rfl, by omega⟩

theorem idx_lt (w h x y : Nat) (hx : x < w) (hy : y < h) : x * h + y < w * h := by
  have := Nat.mul_le_mul_right h (Nat.succ_le_of_lt hx)
  rw [Nat.succ_mul] at this
  omega

theorem row_le (rl j h : Nat) (hj : j < h) : j * rl + rl ≤ h * rl := by
  have := Nat.mul_le_mul_right rl (Nat.succ_le_of_lt hj)
  rw [Nat.succ_mul] at this
  exact this

theorem getD_set (l : List RGBPixel) (i j : Nat) (a : RGBPixel) (hi : i < l.length) :
    (l.set i a).getD j RGBPixel.default = if j = i then a else l.getD j RGBPixel.default := by
  simp only [List.getD_eq_getElem?_getD, List.getElem?_set]
  by_cases h : i = j
  · subst h
    simp [hi]
  · have h2 : ¬ j = i := fun e => h e.symm
    simp [h, h2]

theorem decode_pixel_step (c : List byte) (d w h p j k : Nat) (t : ifstream × RGBImage)
    (hlen : d + h * (3 * w + p) ≤ c.length) (hj : j < h) (hk : k < w)
    (ht : DecInv c d w h p j k t) (y : Int) (hy : y = ((h - 1 - j : Nat) : Int)) (x : Int)
    (hx : x = (k : Int)) :
    ∃ t1, (match t.2.setRGB x y (readPixel t.1).1 with
            | .error e => (.error e : Result (ifstream × RGBImage))
            | .ok img => .ok ((readPixel t.1).2, img)) = .ok t1
          ∧ DecInv c d w h p j (k + 1) t1 := by
  obtain ⟨hc, he, hf, hp, hw, hh, hl, hpix⟩ := ht
  have hrow := row_le (3 * w + p) j h hj
  have hrp : readPixel t.1 = (pixelAt c t.1.pos, { t.1 with pos := t.1.pos + 3 }) := by
    rw [← hc]
    exact readPixel_good t.1 he hf (by rw [hc, hp]; omega)
  have hidx : (x * t.2.height + y).toNat = k * h + (h - 1 - j) := by
    rw [hx, hy, hh]
    have : ((k : Int) * (h : Int) + ((h - 1 - j : Nat) : Int)) = ((k * h + (h - 1 - j) : Nat) : Int) := by
      push_cast
      rfl
    rw [this, Int.toNat_natCast]
  rw [setRGB_ok t.2 x y _ (by omega) (by rw [hw]; omega) (by omega) (by rw [hh]; omega), hrp, hidx]
  refine ⟨_, rfl, hc, he, hf, ?_, hw, hh, ?_, ?_⟩
  · simp only [hp]
    omega
  · simp only [List.length_set, hl]
  · intro x1 y1 hx1 hy1 hcase
    have hlt := idx_lt w h k (h - 1 - j) hk (by omega)
    simp only
    rw [getD_set _ _ _ _ (by rw [hl]; exact hlt)]
    by_cases hxy : x1 * h + y1 = k * h + (h - 1 - j)
    · obtain ⟨e1, e2⟩ := idx_inj h x1 y1 k (h - 1 - j) hy1 (by omega) hxy
      rw [if_pos hxy, hp, e1, e2]
      congr 1
      have : h - 1 - (h - 1 - j) = j := by omega
      rw [this]
    · rw [if_neg hxy]
      apply hpix x1 y1 hx1 hy1
      rcases hcase with hcase | ⟨h1, h2⟩
      · exact Or.inl hcase
      · refine Or.inr ⟨h1, ?_⟩
        rcases Nat.lt_succ_iff_lt_or_eq.mp h2 with h3 | h3
        · exact h3
        · exfalso
          apply hxy
          have : y1 = h - 1 - j := by omega
          rw [h3, this]

theorem readScanline_dec (c : List byte) (d w h p j : Nat) (st : ifstream × RGBImage)
    (hlen : d + h * (3 * w + p) ≤ c.length) (hj : j < h)
    (h0 : DecInv c d w h p j 0 st) (y : Int) (hy : y = ((h - 1 - j : Nat) : Int)) :
    ∃ s1, readScanline y st = .ok s1 ∧ DecInv c d w h p j w s1 := by
  unfold readScanline
  have hw : st.2.getWidth.toNat = w := by
    have : st.2.getWidth = (w : Int) := h0.2.2.2.2.1
    rw [this, Int.toNat_natCast]
  rw [hw]
  apply forLoop_inv _ 1 w (fun k s => DecInv c d w h p j k s) 0 st h0
  intro k hk t ht
  exact decode_pixel_step c d w h p j k t hlen hj hk ht y hy (0 + (k : Int) * 1) (by omega)

theorem ignore_dec (c : List byte) (d w h p j : Nat) (s : ifstream × RGBImage)
    (hlen : d + h * (3 * w + p) ≤ c.length) (hj : j < h) (hs : DecInv c d w h p j w s) :
    DecInv c d w h p (j + 1) 0 (s.1.ignore (p : Int), s.2) := by
  obtain ⟨hc, he, hf, hp, hw, hh, hl, hpix⟩ := hs
  have hrow := row_le (3 * w + p) j h hj
  have hpos : (s.1.ignore (p : Int)).pos = s.1.pos + p
      ∧ (s.1.ignore (p : Int)).contents = s.1.contents
      ∧ (s.1.ignore (p : Int)).eofbit = false ∧ (s.1.ignore (p : Int)).failbit = false := by
    unfold ifstream.ignore
    simp only [he, hf, Bool.or_self, Bool.false_eq_true, if_false]
    by_cases h0 : (p : Int) ≤ 0
    · rw [if_pos h0]
      exact ⟨by omega, rfl, he, hf⟩
    · rw [if_neg h0, Int.toNat_natCast, if_pos (by rw [hc, hp]; omega)]
      exact ⟨rfl, rfl, rfl, rfl⟩
  refine ⟨hpos.2.1.trans hc, hpos.2.2.1, hpos.2.2.2, ?_, hw, hh, hl, ?_⟩
  · have hm : (j + 1) * (3 * w + p) = j * (3 * w + p) + (3 * w + p) := Nat.succ_mul _ _
    show (s.1.ignore (p : Int)).pos = _
    rw [hpos.1, hp, hm]
    omega
  · intro x y hx hy hcase
    apply hpix x y hx hy
    rcases hcase with h1 | ⟨_, h2⟩
    · by_cases h3 : h ≤ y + j
      · exact Or.inl h3
      · exact Or.inr ⟨by omega, hx⟩
    · omega

theorem readImage_dec (c : List byte) (d w h p : Nat) (ifs : ifstream) (img : RGBImage)
    (hlen : d + h * (3 * w + p) ≤ c.length) (hpad : getScanlinePadding (w : Int) = (p : Int))
    (h0 : DecInv c d w h p 0 0 (ifs, img)) :
    ∃ s1, readImage ifs img = .ok s1 ∧ DecInv c d w h p h 0 s1 := by
  unfold readImage
  have hw : img.getWidth = (w : Int) := h0.2.2.2.2.1
  have hh : img.getHeight = (h : Int) := h0.2.2.2.2.2.1
  rw [hw, hh, hpad, Int.toNat_natCast]
  apply forLoop_inv _ (-1) h (fun j s => DecInv c d w h p j 0 s) _ (ifs, img) h0
  intro j hj t ht
  obtain ⟨s1, hs1, hd1⟩ := readScanline_dec c d w h p j t hlen hj ht
    ((h : Int) - 1 + (j : Int) * -1) (by omega)
  rw [hs1]
  exact ⟨_, rfl, ignore_dec c d w h p j s1 hlen hj hd1⟩

theorem declaredInt_nonneg (c : List byte) (off : Nat) (h : 0 ≤ declaredInt c off) :
    off + 4 ≤ c.length := by
  by_contra hlt
  have hn : (c)[off + 3]? = none := List.getElem?_eq_none_iff.mpr (by omega)
  have b0 := byteAt_bounds c off
  have b1 := byteAt_bounds c (off + 1)
  have b2 := byteAt_bounds c (off + 2)
  have b3 : byteAt c (off + 3) = -1 := by
    unfold byteAt
    rw [hn]
  unfold declaredInt toInt32 at h
  rw [b3] at h
  omega

theorem decode_pixels (filename : String) (c : List byte) (d w h p : Nat)
    (hsig : c.take 2 = [0x42, 0x4D]) (hW : declaredInt c 18 = (w : Int))
    (hH : declaredInt c 22 = (h : Int)) (hd : declaredInt c 10 = (d : Int))
    (hpad : getScanlinePadding (w : Int) = (p : Int))
    (hsize : declaredInt c 2 = (d : Int) + ((w : Int) * 3 + (p : Int)) * (h : Int))
    (hlen : d + h * (3 * w + p) ≤ c.length) :
    ∃ img, decode filename (ifstream.open c) = .ok img ∧ img.width = (w : Int)
      ∧ img.height = (h : Int) ∧ img.image.length = w * h
      ∧ ∀ x y, x < w → y < h →
          img.image.getD (x * h + y) RGBPixel.default
            = pixelAt c (d + (h - 1 - y) * (3 * w + p) + 3 * x) := by
  obtain ⟨hrd, hdec⟩ := afterHeader_spec c hsig
  have h26 : 22 + 4 ≤ c.length := declaredInt_nonneg c 22 (by rw [hH]; omega)
  have hgood : (afterHeader c).contents = c ∧ (afterHeader c).eofbit = false
      ∧ (afterHeader c).failbit = false := by
    obtain ⟨hc, hg | hb⟩ := hrd
    · exact ⟨hc, hg.1, hg.2⟩
    · omega
  rw [hdec filename, hW, hH, hd, hpad, PIXEL_SIZE,
    if_neg (by rw [← hsize, toInt32_declaredInt]; simp)]
  have hinit : RGBImage.initializeWith (w : Int) (h : Int)
      = .ok { image := List.replicate (w * h) RGBPixel.default, width := w, height := h } := by
    unfold RGBImage.initializeWith
    rw [if_neg (by omega)]
    congr 2
  rw [hinit]
  have hseek : (afterHeader c).seekg (d : Int)
      = { contents := c, pos := d, eofbit := false, failbit := false } := by
    unfold ifstream.seekg
    simp only [hgood.2.2, Bool.false_eq_true, if_false]
    rw [if_neg (by omega), hgood.1, Int.toNat_natCast]
  rw [hseek]
  obtain ⟨s1, hs1, hinv⟩ := readImage_dec c d w h p
    { contents := c, pos := d, eofbit := false, failbit := false }
    { image := List.replicate (w * h) RGBPixel.default, width := w, height := h } hlen hpad
    ⟨rfl, rfl, rfl, by simp, rfl, rfl, by simp, by
      intro x y _ hy hcase
      omega⟩
  simp only [hs1]
  obtain ⟨_, _, _, _, hw1, hh1, hl1, hpix⟩ := hinv
  refine ⟨s1.2, rfl, hw1, hh1, hl1, ?_⟩
  intro x y hx hy
  exact hpix x y hx hy (Or.inl (by omega))

/-! ### Output streams and the encoded file -/

theorem writeAt_length (l : List byte) (p : Nat) (c : byte) :
    (writeAt l p c).length = max l.length (p + 1) := by
  unfold writeAt
  split
  · rw [List.length_set]
    omega
  · simp only [List.length_append, List.length_replicate, List.length_singleton]
    omega

theorem writeAt_getD (l : List byte) (p i : Nat) (c : byte) :
    (writeAt l p c).getD i 0 = if i = p then c else l.getD i 0 := by
  unfold writeAt
  simp only [List.getD_eq_getElem?_getD]
  split
  · rename_i hp
    rw [List.getElem?_set]
    by_cases h : p = i
    · subst h
      simp [hp]
    · have h2 : ¬ i = p := fun e => h e.symm
      simp [h, h2]
  · rename_i hp
    by_cases h : i = p
    · subst h
      rw [if_pos rfl, List.getElem?_append_right (by simp; omega)]
      have e : i - (l ++ List.replicate (i - l.length) (0 : byte)).length = 0 := by
        simp only [List.length_append, List.length_replicate]
        omega
      rw [e]
      rfl
    · rw [if_neg h]
      by_cases h1 : i < l.length
      · rw [List.append_assoc, List.getElem?_append_left h1]
      · rw [List.getElem?_eq_none (by omega : l.length ≤ i)]
        by_cases h2 : i < p
        · rw [List.getElem?_append_left (by simp; omega),
            List.getElem?_append_right (by omega), List.getElem?_replicate]
          split <;> rfl
        · rw [List.getElem?_eq_none (by simp; omega)]

theorem put_inv (img : RGBImage) (hdr : List byte) (w h p : Nat) (ofs : ofstream) (c : byte)
    (hinv : EncInv img hdr w h p ofs)
    (hc : c = encodedByte img hdr w h p ofs.pos) :
    EncInv img hdr w h p (ofs.put c) ∧ (ofs.put c).pos = ofs.pos + 1 := by
  obtain ⟨h1, h2, h3, h4, h5⟩ := hinv
  have hl : (writeAt ofs.contents ofs.pos c).length = ofs.pos + 1 := by
    rw [writeAt_length]
    rcases Nat.lt_or_ge 54 ofs.pos with h6 | h6
    · rw [h5 h6]
      omega
    · rw [h4 (by omega)]
      omega
  refine ⟨⟨?_, h2, ?_, ?_, ?_⟩, rfl⟩
  · intro i hi
    show (writeAt ofs.contents ofs.pos c).getD i 0 = _
    rw [writeAt_getD]
    by_cases e : i = ofs.pos
    · rw [if_pos e, hc, e]
    · rw [if_neg e]
      exact h1 i (by
        have : i < ofs.pos + 1 := hi
        omega)
  · show 54 ≤ ofs.pos + 1
    omega
  · intro e
    have : ofs.pos + 1 = 54 := e
    omega
  · intro _
    exact hl

theorem divmod_row (rl j col : Nat) (h : col < rl) :
    (j * rl + col) / rl = j ∧ (j * rl + col) % rl = col := by
  have hpos : 0 < rl := by omega
  constructor
  · rw [Nat.add_comm, Nat.add_mul_div_right _ _ hpos, Nat.div_eq_of_lt h, Nat.zero_add]
  · rw [Nat.add_comm, Nat.add_mul_mod_self_right, Nat.mod_eq_of_lt h]

theorem encodedByte_pixel (img : RGBImage) (hdr : List byte) (w h p j x k : Nat)
    (hx : x < w) (hk : k < 3) :
    encodedByte img hdr w h p (54 + j * (3 * w + p) + 3 * x + k)
      = (img.image.getD (x * h + (h - 1 - j)) RGBPixel.default).channel k := by
  unfold encodedByte
  rw [if_neg (by omega)]
  have e : 54 + j * (3 * w + p) + 3 * x + k - 54 = j * (3 * w + p) + (3 * x + k) := by omega
  obtain ⟨e1, e2⟩ := divmod_row (3 * w + p) j (3 * x + k) (by omega)
  simp only [e, e1, e2]
  rw [if_pos (by omega)]
  have : (3 * x + k) / 3 = x := by omega
  have : (3 * x + k) % 3 = k := by omega
  simp only [*]

theorem encodedByte_padding (img : RGBImage) (hdr : List byte) (w h p j t : Nat) (ht : t < p) :
    encodedByte img hdr w h p (54 + j * (3 * w + p) + 3 * w + t) = 0 := by
  unfold encodedByte
  rw [if_neg (by omega)]
  have e : 54 + j * (3 * w + p) + 3 * w + t - 54 = j * (3 * w + p) + (3 * w + t) := by omega
  obtain ⟨e1, e2⟩ := divmod_row (3 * w + p) j (3 * w + t) (by omega)
  simp only [e, e1, e2]
  rw [if_neg (by omega)]

theorem writePixel_inv (img : RGBImage) (hdr : List byte) (w h p j x : Nat) (ofs : ofstream)
    (hx : x < w) (hinv : EncInv img hdr w h p ofs)
    (hpos : ofs.pos = 54 + j * (3 * w + p) + 3 * x) :
    EncInv img hdr w h p
        (writePixel ofs (img.image.getD (x * h + (h - 1 - j)) RGBPixel.default))
      ∧ (writePixel ofs (img.image.getD (x * h + (h - 1 - j)) RGBPixel.default)).pos
          = 54 + j * (3 * w + p) + 3 * (x + 1) := by
  have c0 : encodedByte img hdr w h p (54 + j * (3 * w + p) + 3 * x)
      = (img.image.getD (x * h + (h - 1 - j)) RGBPixel.default).b :=
    encodedByte_pixel img hdr w h p j x 0 hx (by omega)
  have c1 : encodedByte img hdr w h p (54 + j * (3 * w + p) + 3 * x + 1)
      = (img.image.getD (x * h + (h - 1 - j)) RGBPixel.default).g :=
    encodedByte_pixel img hdr w h p j x 1 hx (by omega)
  have c2 : encodedByte img hdr w h p (54 + j * (3 * w + p) + 3 * x + 1 + 1)
      = (img.image.getD (x * h + (h - 1 - j)) RGBPixel.default).r :=
    encodedByte_pixel img hdr w h p j x 2 hx (by omega)
  unfold writePixel
  obtain ⟨i1, p1⟩ := put_inv img hdr w h p ofs
    (img.image.getD (x * h + (h - 1 - j)) RGBPixel.default).b hinv (by rw [hpos, c0])
  obtain ⟨i2, p2⟩ := put_inv img hdr w h p _
    (img.image.getD (x * h + (h - 1 - j)) RGBPixel.default).g i1 (by rw [p1, hpos, c1])
  obtain ⟨i3, p3⟩ := put_inv img hdr w h p _
    (img.image.getD (x * h + (h - 1 - j)) RGBPixel.default).r i2 (by rw [p2, p1, hpos, c2])
  refine ⟨i3, ?_⟩
  rw [p3, p2, p1, hpos]
  omega

theorem writeScanline_enc (img : RGBImage) (hdr : List byte) (w h p j : Nat) (ofs : ofstream)
    (hw : img.width = (w : Int)) (hh : img.height = (h : Int)) (hj : j < h)
    (hinv : EncInv img hdr w h p ofs) (hpos : ofs.pos = 54 + j * (3 * w + p))
    (y : Int) (hy : y = ((h - 1 - j : Nat) : Int)) :
    ∃ ofs1, writeScanline img y ofs = .ok ofs1 ∧ EncInv img hdr w h p ofs1
      ∧ ofs1.pos = 54 + j * (3 * w + p) + 3 * w := by
  unfold writeScanline
  have hgw : img.getWidth.toNat = w := by
    show img.width.toNat = w
    rw [hw, Int.toNat_natCast]
  rw [hgw]
  apply forLoop_inv _ 1 w
    (fun k s => EncInv img hdr w h p s ∧ s.pos = 54 + j * (3 * w + p) + 3 * k) 0 ofs
    ⟨hinv, by rw [hpos]; omega⟩
  intro k hk t ht
  have hidx : ((0 + (k : Int) * 1) * img.height + y).toNat = k * h + (h - 1 - j) := by
    rw [hy, hh]
    have : ((0 + (k : Int) * 1) * (h : Int) + ((h - 1 - j : Nat) : Int))
        = ((k * h + (h - 1 - j) : Nat) : Int) := by
      push_cast
      ring
    rw [this, Int.toNat_natCast]
  rw [getRGB_ok img _ y (by omega) (by rw [hw]; omega) (by omega) (by rw [hh]; omega), hidx]
  exact ⟨_, rfl, writePixel_inv img hdr w h p j k t hk ht.1 ht.2⟩

theorem putPadding_enc (img : RGBImage) (hdr : List byte) (w h p j : Nat) :
    ∀ (n t0 : Nat) (ofs : ofstream), t0 + n ≤ p → EncInv img hdr w h p ofs →
      ofs.pos = 54 + j * (3 * w + p) + 3 * w + t0 →
      EncInv img hdr w h p (putPadding n ofs)
        ∧ (putPadding n ofs).pos = 54 + j * (3 * w + p) + 3 * w + t0 + n := by
  intro n
  induction n with
  | zero =>
    intro t0 ofs _ hinv hpos
    exact ⟨hinv, hpos⟩
  | succ n ih =>
    intro t0 ofs hle hinv hpos
    obtain ⟨i1, p1⟩ := put_inv img hdr w h p ofs 0 hinv (by
      rw [hpos, encodedByte_padding img hdr w h p j t0 (by omega)])
    obtain ⟨i2, p2⟩ := ih (t0 + 1) (ofs.put 0) (by omega) i1 (by rw [p1, hpos]; omega)
    refine ⟨i2, ?_⟩
    show (putPadding n (ofs.put 0)).pos = _
    rw [p2]
    omega

theorem writeImage_enc (img : RGBImage) (hdr : List byte) (w h p : Nat) (ofs : ofstream)
    (hw : img.width = (w : Int)) (hh : img.height = (h : Int))
    (hpad : getScanlinePadding (w : Int) = (p : Int))
    (hinv : EncInv img hdr w h p ofs) (hpos : ofs.pos = 54) :
    ∃ ofs1, writeImage ofs img = .ok ofs1 ∧ EncInv img hdr w h p ofs1
      ∧ ofs1.pos = 54 + h * (3 * w + p) := by
  unfold writeImage
  have hgw : img.getWidth = (w : Int) := hw
  have hgh : img.getHeight = (h : Int) := hh
  rw [hgw, hgh, hpad]
  dsimp only
  rw [Int.toNat_natCast, Int.toNat_natCast]
  apply forLoop_inv _ (-1) h
    (fun j s => EncInv img hdr w h p s ∧ s.pos = 54 + j * (3 * w + p)) _ ofs
    ⟨hinv, by rw [hpos]; omega⟩
  intro j hj t ht
  obtain ⟨s1, hs1, hi1, hp1⟩ := writeScanline_enc img hdr w h p j t hw hh hj ht.1 ht.2
    ((h : Int) - 1 + (j : Int) * -1) (by omega)
  rw [hs1]
  obtain ⟨i2, p2⟩ := putPadding_enc img hdr w h p j p 0 s1 (by omega) hi1 (by rw [hp1]; omega)
  refine ⟨_, rfl, i2, ?_⟩
  have hm : (j + 1) * (3 * w + p) = j * (3 * w + p) + (3 * w + p) := Nat.succ_mul _ _
  rw [p2, hm]
  omega

theorem writeAt_nil_zero (c : byte) : writeAt [] 0 c = [c] := rfl

theorem writeAt_nil_succ (p : Nat) (c : byte) : writeAt [] (p + 1) c = 0 :: writeAt [] p c := by
  simp [writeAt, List.replicate_succ]

theorem writeAt_cons_zero (a : byte) (l : List byte) (c : byte) : writeAt (a :: l) 0 c = c :: l := by
  simp [writeAt]

theorem writeAt_cons_succ (a : byte) (l : List byte) (p : Nat) (c : byte) :
    writeAt (a :: l) (p + 1) c = a :: writeAt l p c := by
  unfold writeAt
  by_cases h : p < l.length
  · simp [h]
  · simp [h]

theorem header_layout (v1 v2 v3 v4 v5 v6 v7 v8 v9 : Int) :
    (putInt (putInt (putInt (putInt (putShort (putShort (putInt (putInt
      (putShort ofstream.open 0 v1) 10 v2) 14 v3) 26 v4) 28 v5) 18 v6) 22 v7) 34 v8) 2 v9).contents
    = [toByte (v1 >>> (0 : Nat)), toByte (v1 >>> (8 : Nat)),
       toByte (v9 >>> (0 : Nat)), toByte (v9 >>> (8 : Nat)), toByte (v9 >>> (16 : Nat)),
       toByte (v9 >>> (24 : Nat)),
       0, 0, 0, 0,
       toByte (v2 >>> (0 : Nat)), toByte (v2 >>> (8 : Nat)), toByte (v2 >>> (16 : Nat)),
       toByte (v2 >>> (24 : Nat)),
       toByte (v3 >>> (0 : Nat)), toByte (v3 >>> (8 : Nat)), toByte (v3 >>> (16 : Nat)),
       toByte (v3 >>> (24 : Nat)),
       toByte (v6 >>> (0 : Nat)), toByte (v6 >>> (8 : Nat)), toByte (v6 >>> (16 : Nat)),
       toByte (v6 >>> (24 : Nat)),
       toByte (v7 >>> (0 : Nat)), toByte (v7 >>> (8 : Nat)), toByte (v7 >>> (16 : Nat)),
       toByte (v7 >>> (24 : Nat)),
       toByte (v4 >>> (0 : Nat)), toByte (v4 >>> (8 : Nat)),
       toByte (v5 >>> (0 : Nat)), toByte (v5 >>> (8 : Nat)),
       0, 0, 0, 0,
       toByte (v8 >>> (0 : Nat)), toByte (v8 >>> (8 : Nat)), toByte (v8 >>> (16 : Nat)),
       toByte (v8 >>> (24 : Nat))] := by
  have e0 : Int.toNat 0 = 0 := rfl
  have e2 : Int.toNat 2 = 2 := rfl
  have e10 : Int.toNat 10 = 10 := rfl
  have e14 : Int.toNat 14 = 14 := rfl
  have e18 : Int.toNat 18 = 18 := rfl
  have e22 : Int.toNat 22 = 22 := rfl
  have e26 : Int.toNat 26 = 26 := rfl
  have e28 : Int.toNat 28 = 28 := rfl
  have e34 : Int.toNat 34 = 34 := rfl
  simp only [putInt, putShort, putLoop, ofstream.put, ofstream.seekp, ofstream.open,
    BYTE_BIT, BYTE_MAX, e0, e2, e10, e14, e18, e22, e26, e28, e34, Nat.reduceAdd, Nat.reduceMul,
    Nat.reduceMod, writeAt_nil_zero, writeAt_nil_succ, writeAt_cons_zero, writeAt_cons_succ]


theorem writeHeader_contents (img : RGBImage) :
    (writeHeader ofstream.open img).contents = bitmapHeader img.width img.height := by
  have e : (writeHeader ofstream.open img).contents
      = (putInt (putInt (putInt (putInt (putShort (putShort (putInt (putInt
          (putShort ofstream.open 0 BMP_IDENTIFIER) 10 DATA_START_INDEX) 14 HEADER_SIZE)
          26 PLANES) 28 BIT_DEPTH) 18 img.width) 22 img.height) 34
          ((img.width * 3 + getScanlinePadding img.width) * img.height)) 2
          ((img.width * 3 + getScanlinePadding img.width) * img.height + 54)).contents := rfl
  rw [e, header_layout]
  have e1 : (img.width * 3 + getScanlinePadding img.width) * img.height + 54
      = 54 + (3 * img.width + getScanlinePadding img.width) * img.height := by ring
  have e2 : (img.width * 3 + getScanlinePadding img.width) * img.height
      = (3 * img.width + getScanlinePadding img.width) * img.height := by ring
  rw [e1, e2]
  simp only [Int.shiftRight_eq_div_pow, bitmapHeader, leBytes, List.range, List.range.loop,
    List.map, List.cons_append, List.nil_append, BMP_IDENTIFIER, DATA_START_INDEX, HEADER_SIZE,
    PLANES, BIT_DEPTH, PIXEL_SIZE, BYTE_BIT]
  norm_num

theorem bitmapHeader_length (W H : Int) : (bitmapHeader W H).length = 38 := by
  simp [bitmapHeader, leBytes]

theorem encode_spec (img : RGBImage) (w h p : Nat) (hw : img.width = (w : Int))
    (hh : img.height = (h : Int)) (hpad : getScanlinePadding (w : Int) = (p : Int)) :
    ∃ out, encode img = .ok out
      ∧ out.length = (if h * (3 * w + p) = 0 then 38 else 54 + h * (3 * w + p))
      ∧ ∀ i, i < 54 + h * (3 * w + p) →
          out.getD i 0 = encodedByte img (bitmapHeader img.width img.height) w h p i := by
  have hl := bitmapHeader_length img.width img.height
  have hc := writeHeader_contents img
  unfold encode
  generalize writeHeader ofstream.open img = ofs0 at hc
  have hpos0 : (ofs0.seekp DATA_START_INDEX).pos = 54 := rfl
  have hcon0 : (ofs0.seekp DATA_START_INDEX).contents = ofs0.contents := rfl
  have h0 : EncInv img (bitmapHeader img.width img.height) w h p
      (ofs0.seekp DATA_START_INDEX) := by
    refine ⟨?_, by omega, ?_, ?_, ?_⟩
    · intro i hi
      rw [hpos0] at hi
      rw [hcon0, hc]
      unfold encodedByte
      rw [if_pos hi]
    · rw [hpos0]
    · intro _
      rw [hcon0, hc]
    · intro hlt
      rw [hpos0] at hlt
      omega
  obtain ⟨ofs1, h1, hinv, hpos⟩ := writeImage_enc img (bitmapHeader img.width img.height) w h p
    (ofs0.seekp DATA_START_INDEX) hw hh hpad h0 hpos0
  simp only [h1]
  obtain ⟨g1, _, _, g4, g5⟩ := hinv
  refine ⟨ofs1.contents, rfl, ?_, ?_⟩
  · by_cases hz : h * (3 * w + p) = 0
    · rw [if_pos hz, g4 (by rw [hpos, hz]), hl]
    · rw [if_neg hz, g5 (by rw [hpos]; omega), hpos]
  · intro i hi
    exact g1 i (by rw [hpos]; exact hi)

/-! ### Claims on decoding -/

/-- C4 (as amended): for a readable file that passes the signature check and the size check,
whose declared width `W`, height `H` and data offset `d` are not negative and which has at
least the `d + (3W + padding W) * H` bytes it declares, the constructor returns a `W×H` image
(a buffer of exactly `W*H` pixels) whose pixel `(x,y)` has red, green and blue equal to the
file bytes at offsets `d + (H-1-y)*(3W + padding W) + 3x + 2`, `+ 1` and `+ 0`. -/
theorem C4_decode_layout (fs : FileSystem) (filename : String) (c : List byte) (W H d : Int)
    (hread : fs.read filename = some c) (hsig : c.take 2 = [0x42, 0x4D])
    (hWd : declaredInt c 18 = W) (hHd : declaredInt c 22 = H) (hdd : declaredInt c 10 = d)
    (hsize : declaredInt c 2 = d + (W * 3 + getScanlinePadding W) * H)
    (hW : 0 ≤ W) (hH : 0 ≤ H) (hd : 0 ≤ d)
    (hlen : d + (W * 3 + getScanlinePadding W) * H ≤ c.length) :
    ∃ img, RGBImage.fromFile fs filename = .ok img ∧ img.width = W ∧ img.height = H
      ∧ img.image.length = (W * H).toNat
      ∧ ∀ x y, 0 ≤ x → x < W → 0 ≤ y → y < H →
          img.getRGB x y = .ok
            { r := fileByte c (d + (H - 1 - y) * (3 * W + getScanlinePadding W) + 3 * x + 2),
              g := fileByte c (d + (H - 1 - y) * (3 * W + getScanlinePadding W) + 3 * x + 1),
              b := fileByte c (d + (H - 1 - y) * (3 * W + getScanlinePadding W) + 3 * x + 0) } := by
  obtain ⟨hp0, _⟩ := padding_range W
  lift W to Nat using hW with w
  lift H to Nat using hH with h
  lift d to Nat using hd with dn
  lift getScanlinePadding (w : Int) to Nat using hp0 with p hp
  have hlen2 : dn + h * (3 * w + p) ≤ c.length := by
    have e : ((dn : Int) + ((w : Int) * 3 + (p : Int)) * (h : Int))
        = ((dn + h * (3 * w + p) : Nat) : Int) := by
      push_cast
      ring
    rw [e] at hlen
    exact_mod_cast hlen
  obtain ⟨img, hdec, hw1, hh1, hl1, hpix⟩ :=
    decode_pixels filename c dn w h p hsig hWd hHd hdd hp.symm hsize hlen2
  unfold RGBImage.fromFile
  rw [hread]
  refine ⟨img, hdec, hw1, hh1, ?_, ?_⟩
  · rw [hl1, ← Nat.cast_mul, Int.toNat_natCast]
  · intro x y hx0 hx hy0 hy
    lift x to Nat using hx0 with xn
    lift y to Nat using hy0 with yn
    have hxn : xn < w := by exact_mod_cast hx
    have hyn : yn < h := by exact_mod_cast hy
    rw [getRGB_ok img _ _ (by omega) (by rw [hw1]; exact hx) (by omega) (by rw [hh1]; exact hy)]
    have hi : ((xn : Int) * img.height + (yn : Int)).toNat = xn * h + yn := by
      rw [hh1, ← Nat.cast_mul, ← Nat.cast_add, Int.toNat_natCast]
    have hs : (h : Int) - 1 - (yn : Int) = ((h - 1 - yn : Nat) : Int) := by omega
    have ho : ∀ k : Nat, ((dn : Int) + ((h : Int) - 1 - (yn : Int)) * (3 * (w : Int) + (p : Int))
        + 3 * (xn : Int) + (k : Int)).toNat = dn + (h - 1 - yn) * (3 * w + p) + 3 * xn + k := by
      intro k
      rw [hs]
      have e : ((dn : Int) + ((h - 1 - yn : Nat) : Int) * (3 * (w : Int) + (p : Int))
          + 3 * (xn : Int) + (k : Int))
          = ((dn + (h - 1 - yn) * (3 * w + p) + 3 * xn + k : Nat) : Int) := by
        push_cast
        ring
      rw [e, Int.toNat_natCast]
    have h2 := ho 2
    have h1 := ho 1
    have h0 := ho 0
    simp only [Nat.cast_ofNat, Nat.cast_one, Nat.cast_zero] at h2 h1 h0
    rw [hi, hpix xn yn hxn hyn]
    simp only [fileByte, pixelAt, h2, h1, h0, Nat.add_zero]

/-- Witness of C4: the 1×1 bitmap `onePixelFile` decodes to the pixel `(30,20,10)` stored as
the bytes `10, 20, 30` at offsets 54, 55, 56. -/
theorem C4_decode_layout_witness :
    ∃ img, RGBImage.fromFile [("one.bmp", onePixelFile)] "one.bmp" = .ok img
      ∧ img.width = 1 ∧ img.height = 1 ∧ img.getRGB 0 0 = .ok { r := 30, g := 20, b := 10 } := by
  obtain ⟨img, h1, h2, h3, _, h5⟩ := C4_decode_layout [("one.bmp", onePixelFile)] "one.bmp"
    onePixelFile 1 1 54 (by decide) (by decide) (by decide) (by decide) (by decide) (by decide)
    (by decide) (by decide) (by decide) (by decide)
  exact ⟨img, h1, h2, h3, h5 0 0 (by decide) (by decide) (by decide) (by decide)⟩

/-- Counterexample to C4 as stated.  `negativeSizeFile` passes the signature check and the size
check (declared size 54 = 58 + (3*(-1) + 7)*(-1)) and the constructor throws an
`IllegalArgumentException` instead of returning an image.  `truncatedFile` passes both checks
too (declared size 58 = 54 + 4*1) and decodes to a 1×1 image whose pixel is `(255,255,255)`,
although the file, 54 bytes long, has no byte at offsets 54, 55, 56. -/
theorem C4_counterexample :
    (negativeSizeFile.take 2 = [0x42, 0x4D]
      ∧ declaredInt negativeSizeFile 2 = declaredInt negativeSizeFile 10
          + (declaredInt negativeSizeFile 18 * 3
              + getScanlinePadding (declaredInt negativeSizeFile 18))
            * declaredInt negativeSizeFile 22
      ∧ ∃ msg, RGBImage.fromFile [("n.bmp", negativeSizeFile)] "n.bmp"
          = .error (.IllegalArgumentException msg))
    ∧ (truncatedFile.take 2 = [0x42, 0x4D]
      ∧ declaredInt truncatedFile 2 = declaredInt truncatedFile 10
          + (declaredInt truncatedFile 18 * 3 + getScanlinePadding (declaredInt truncatedFile 18))
            * declaredInt truncatedFile 22
      ∧ RGBImage.fromFile [("t.bmp", truncatedFile)] "t.bmp"
          = .ok { image := [{ r := 255, g := 255, b := 255 }], width := 1, height := 1 }
      ∧ truncatedFile.length = 54) :=
  ⟨⟨by decide, by decide, ⟨_, rfl⟩⟩, ⟨by decide, by decide, rfl, rfl⟩⟩

/-! ### Header fields of the encoded file -/

theorem getElem?_of_getD (l : List byte) (i : Nat) (h : i < l.length) :
    l[i]? = some (l.getD i 0) := by
  rw [List.getD_eq_getElem?_getD, List.getElem?_eq_getElem h]
  rfl

theorem byteAt_of_getElem? (f : List byte) (i : Nat) (b : byte) (h : f[i]? = some b) :
    byteAt f i = (b.val : Int) := by
  unfold byteAt
  rw [h]

theorem toByte_val_int (v : Int) : ((toByte v).val : Int) = v % 256 := by
  simp only [toByte]
  omega

theorem holdsLE_declaredInt (f : List byte) (off : Nat) (v : Int) (h : holdsLE f off 4 v) :
    declaredInt f off = toInt32 v := by
  have h0 := byteAt_of_getElem? f _ _ (h 0 (by omega))
  have h1 := byteAt_of_getElem? f _ _ (h 1 (by omega))
  have h2 := byteAt_of_getElem? f _ _ (h 2 (by omega))
  have h3 := byteAt_of_getElem? f _ _ (h 3 (by omega))
  rw [toByte_val_int] at h0 h1 h2 h3
  norm_num at h0 h1 h2 h3
  unfold declaredInt
  rw [h0, h1, h2, h3]
  unfold toInt32
  omega

theorem holdsLE_declaredShort (f : List byte) (off : Nat) (v : Int) (h : holdsLE f off 2 v) :
    declaredShort f off = toInt16 v := by
  have h0 := byteAt_of_getElem? f _ _ (h 0 (by omega))
  have h1 := byteAt_of_getElem? f _ _ (h 1 (by omega))
  rw [toByte_val_int] at h0 h1
  norm_num at h0 h1
  unfold declaredShort
  rw [h0, h1]
  unfold toInt16
  omega

theorem encode_header (img : RGBImage) (hwf : img.WF) :
    ∃ out, encode img = .ok out ∧ 38 ≤ out.length
      ∧ ∀ k, k < 38 → out[k]? = (bitmapHeader img.width img.height)[k]? := by
  obtain ⟨hW, hH, _⟩ := hwf
  obtain ⟨hp0, _⟩ := padding_range img.width
  generalize hwe : img.width = W at *
  generalize hhe : img.height = H at *
  lift W to Nat using hW with w
  lift H to Nat using hH with h
  lift getScanlinePadding (w : Int) to Nat using hp0 with p hp
  obtain ⟨out, ho, hlen, hb⟩ := encode_spec img w h p hwe hhe hp.symm
  have h38 : 38 ≤ out.length := by
    rw [hlen]
    split <;> omega
  refine ⟨out, ho, h38, ?_⟩
  intro k hk
  have hl := bitmapHeader_length (w : Int) (h : Int)
  rw [getElem?_of_getD out k (by omega), getElem?_of_getD _ k (by omega), hb k (by omega)]
  unfold encodedByte
  rw [if_pos (by omega), hwe, hhe]

theorem header_holds (W H : Int) :
    holdsLE (bitmapHeader W H) 0 2 0x4D42
    ∧ holdsLE (bitmapHeader W H) 2 4 (54 + (3 * W + getScanlinePadding W) * H)
    ∧ holdsLE (bitmapHeader W H) 10 4 54 ∧ holdsLE (bitmapHeader W H) 14 4 40
    ∧ holdsLE (bitmapHeader W H) 18 4 W ∧ holdsLE (bitmapHeader W H) 22 4 H
    ∧ holdsLE (bitmapHeader W H) 26 2 1 ∧ holdsLE (bitmapHeader W H) 28 2 24
    ∧ holdsLE (bitmapHeader W H) 34 4 ((3 * W + getScanlinePadding W) * H) := by
  refine ⟨?_, ?_, ?_, ?_, ?_, ?_, ?_, ?_, ?_⟩ <;> intro i hi <;> interval_cases i <;>
    simp [bitmapHeader, leBytes, List.range, List.range.loop]

theorem holdsLE_prefix (out hdr : List byte) (off n : Nat) (v : Int) (hn : off + n ≤ 38)
    (hpre : ∀ k, k < 38 → out[k]? = hdr[k]?) (h : holdsLE hdr off n v) : holdsLE out off n v := by
  intro i hi
  rw [hpre (off + i) (by omega)]
  exact h i hi

/-! ### Claims on encoding -/

/-- C3: the header that encoding writes holds, least significant byte first: at offset 0 the
two bytes of `0x4D42` (the characters B and M); at offset 2 the four bytes of the file size
`54 + (3W + padding W) * H`; at offset 10 of 54; at offset 14 of 40; at offset 18 of `W`; at
offset 22 of `H`; at offset 26 the two bytes of 1; at offset 28 of 24; at offset 34 the four
bytes of the data size `(3W + padding W) * H`.  Read back as `short` / `int`, the fields give
these values (converted to 16 / 32 bits). -/
theorem C3_header_fields (img : RGBImage) (hwf : img.WF) :
    ∃ out, encode img = .ok out
      ∧ holdsLE out 0 2 0x4D42 ∧ out[0]? = some 0x42 ∧ out[1]? = some 0x4D
      ∧ holdsLE out 2 4 (54 + (3 * img.width + getScanlinePadding img.width) * img.height)
      ∧ holdsLE out 10 4 54 ∧ holdsLE out 14 4 40
      ∧ holdsLE out 18 4 img.width ∧ holdsLE out 22 4 img.height
      ∧ holdsLE out 26 2 1 ∧ holdsLE out 28 2 24
      ∧ holdsLE out 34 4 ((3 * img.width + getScanlinePadding img.width) * img.height)
      ∧ declaredShort out 0 = 0x4D42
      ∧ declaredInt out 2
          = toInt32 (54 + (3 * img.width + getScanlinePadding img.width) * img.height)
      ∧ declaredInt out 10 = 54 ∧ declaredInt out 14 = 40
      ∧ declaredInt out 18 = toInt32 img.width ∧ declaredInt out 22 = toInt32 img.height
      ∧ declaredShort out 26 = 1 ∧ declaredShort out 28 = 24
      ∧ declaredInt out 34
          = toInt32 ((3 * img.width + getScanlinePadding img.width) * img.height) := by
  obtain ⟨out, ho, _, hpre⟩ := encode_header img hwf
  obtain ⟨a0, a2, a10, a14, a18, a22, a26, a28, a34⟩ := header_holds img.width img.height
  have b0 := holdsLE_prefix out _ 0 2 _ (by omega) hpre a0
  have b2 := holdsLE_prefix out _ 2 4 _ (by omega) hpre a2
  have b10 := holdsLE_prefix out _ 10 4 _ (by omega) hpre a10
  have b14 := holdsLE_prefix out _ 14 4 _ (by omega) hpre a14
  have b18 := holdsLE_prefix out _ 18 4 _ (by omega) hpre a18
  have b22 := holdsLE_prefix out _ 22 4 _ (by omega) hpre a22
  have b26 := holdsLE_prefix out _ 26 2 _ (by omega) hpre a26
  have b28 := holdsLE_prefix out _ 28 2 _ (by omega) hpre a28
  have b34 := holdsLE_prefix out _ 34 4 _ (by omega) hpre a34
  refine ⟨out, ho, b0, b0 0 (by omega), b0 1 (by omega), b2, b10, b14, b18, b22, b26, b28, b34,
    holdsLE_declaredShort out 0 _ b0, holdsLE_declaredInt out 2 _ b2,
    holdsLE_declaredInt out 10 _ b10, holdsLE_declaredInt out 14 _ b14,
    holdsLE_declaredInt out 18 _ b18, holdsLE_declaredInt out 22 _ b22,
    holdsLE_declaredShort out 26 _ b26, holdsLE_declaredShort out 28 _ b28,
    holdsLE_declaredInt out 34 _ b34⟩

/-- C2: encoding a `W×H` image puts the blue, green and red bytes of pixel `(x,y)` at file
offsets `54 + (H-1-y)*(3W+p) + 3x + 0`, `+ 1`, `+ 2` with `p = padding W`, the `p` bytes after
the `3W` pixel bytes of every row are zero, and a non-empty image gives a file of exactly
`54 + (3W+p)*H` bytes. -/
theorem C2_encode_layout (img : RGBImage) (hwf : img.WF) :
    ∃ out, encode img = .ok out
      ∧ (∀ x y, 0 ≤ x → x < img.width → 0 ≤ y → y < img.height →
          ∃ pix, img.getRGB x y = .ok pix
            ∧ out[(54 + (img.height - 1 - y) * (3 * img.width + getScanlinePadding img.width)
                + 3 * x + 0).toNat]? = some pix.b
            ∧ out[(54 + (img.height - 1 - y) * (3 * img.width + getScanlinePadding img.width)
                + 3 * x + 1).toNat]? = some pix.g
            ∧ out[(54 + (img.height - 1 - y) * (3 * img.width + getScanlinePadding img.width)
                + 3 * x + 2).toNat]? = some pix.r)
      ∧ (∀ row t, 0 ≤ row → row < img.height → 0 ≤ t → t < getScanlinePadding img.width →
          out[(54 + row * (3 * img.width + getScanlinePadding img.width)
                + 3 * img.width + t).toNat]? = some 0)
      ∧ (0 < img.width → 0 < img.height →
          (out.length : Int)
            = 54 + (3 * img.width + getScanlinePadding img.width) * img.height) := by
  obtain ⟨hW, hH, _⟩ := hwf
  obtain ⟨hp0, _⟩ := padding_range img.width
  generalize hwe : img.width = W at *
  generalize hhe : img.height = H at *
  lift W to Nat using hW with w
  lift H to Nat using hH with h
  lift getScanlinePadding (w : Int) to Nat using hp0 with p hp
  obtain ⟨out, ho, hlen, hb⟩ := encode_spec img w h p hwe hhe hp.symm
  refine ⟨out, ho, ?_, ?_, ?_⟩
  · intro x y hx0 hx hy0 hy
    lift x to Nat using hx0 with xn
    lift y to Nat using hy0 with yn
    have hxn : xn < w := by exact_mod_cast hx
    have hyn : yn < h := by exact_mod_cast hy
    have hrow := row_le (3 * w + p) (h - 1 - yn) h (by omega)
    have hnz : h * (3 * w + p) ≠ 0 := by
      intro e
      rw [e] at hrow
      omega
    rw [if_neg hnz] at hlen
    rw [getRGB_ok img _ _ (by omega) (by rw [hwe]; exact hx) (by omega) (by rw [hhe]; exact hy)]
    have hi : ((xn : Int) * img.height + (yn : Int)).toNat = xn * h + yn := by
      rw [hhe, ← Nat.cast_mul, ← Nat.cast_add, Int.toNat_natCast]
    have hs : (h : Int) - 1 - (yn : Int) = ((h - 1 - yn : Nat) : Int) := by omega
    have ho2 : ∀ k : Nat, ((54 : Int) + ((h : Int) - 1 - (yn : Int)) * (3 * (w : Int) + (p : Int))
        + 3 * (xn : Int) + (k : Int)).toNat = 54 + (h - 1 - yn) * (3 * w + p) + 3 * xn + k := by
      intro k
      rw [hs]
      have e : ((54 : Int) + ((h - 1 - yn : Nat) : Int) * (3 * (w : Int) + (p : Int))
          + 3 * (xn : Int) + (k : Int))
          = ((54 + (h - 1 - yn) * (3 * w + p) + 3 * xn + k : Nat) : Int) := by
        push_cast
        ring
      rw [e, Int.toNat_natCast]
    have hyy : h - 1 - (h - 1 - yn) = yn := by omega
    have key : ∀ k : Nat, k < 3 →
        out[54 + (h - 1 - yn) * (3 * w + p) + 3 * xn + k]?
          = some ((img.image.getD (xn * h + yn) RGBPixel.default).channel k) := by
      intro k hk
      rw [getElem?_of_getD out _ (by rw [hlen]; omega), hb _ (by omega),
        encodedByte_pixel img _ w h p (h - 1 - yn) xn k hxn hk, hyy]
    have h2 := ho2 2
    have h1 := ho2 1
    have h0 := ho2 0
    simp only [Nat.cast_ofNat, Nat.cast_one, Nat.cast_zero] at h2 h1 h0
    refine ⟨_, rfl, ?_, ?_, ?_⟩
    · rw [h0, hi]
      exact key 0 (by omega)
    · rw [h1, hi]
      exact key 1 (by omega)
    · rw [h2, hi]
      exact key 2 (by omega)
  · intro row t hr0 hr ht0 ht
    lift row to Nat using hr0 with rn
    lift t to Nat using ht0 with tn
    have hrn : rn < h := by exact_mod_cast hr
    have htn : tn < p := by exact_mod_cast ht
    have hrow := row_le (3 * w + p) rn h hrn
    have hnz : h * (3 * w + p) ≠ 0 := by
      intro e
      rw [e] at hrow
      omega
    rw [if_neg hnz] at hlen
    have e : ((54 : Int) + (rn : Int) * (3 * (w : Int) + (p : Int)) + 3 * (w : Int) + (tn : Int))
        = ((54 + rn * (3 * w + p) + 3 * w + tn : Nat) : Int) := by
      push_cast
      ring
    rw [e, Int.toNat_natCast, getElem?_of_getD out _ (by rw [hlen]; omega), hb _ (by omega),
      encodedByte_padding img _ w h p rn tn htn]
  · intro hw0 hh0
    have hw1 : 0 < w := by exact_mod_cast hw0
    have hh1 : 0 < h := by exact_mod_cast hh0
    have hnz : h * (3 * w + p) ≠ 0 := by
      have := Nat.mul_pos hh1 (by omega : 0 < 3 * w + p)
      omega
    rw [hlen, if_neg hnz]
    push_cast
    ring

/-- Witness of C3: the header of the file of `sampleImage` declares 78 bytes, width 3,
height 2 and 24 bytes of data. -/
theorem C3_header_fields_witness :
    ∃ out, encode sampleImage = .ok out ∧ declaredInt out 2 = 78 ∧ declaredInt out 18 = 3
      ∧ declaredInt out 22 = 2 ∧ declaredInt out 34 = 24 := by
  obtain ⟨out, h⟩ := C3_header_fields sampleImage (by decide)
  exact ⟨out, h.1, h.2.2.2.2.2.2.2.2.2.2.2.2.2.1, h.2.2.2.2.2.2.2.2.2.2.2.2.2.2.2.2.1,
    h.2.2.2.2.2.2.2.2.2.2.2.2.2.2.2.2.2.1, h.2.2.2.2.2.2.2.2.2.2.2.2.2.2.2.2.2.2.2.2⟩

/-- Witness of C2: in the file of `sampleImage` the bottom-left pixel `(0,1) = (4,5,6)` is
stored first, as the bytes 6, 5, 4, and the first row (9 pixel bytes) is followed by a zero. -/
theorem C2_encode_layout_witness :
    ∃ out, encode sampleImage = .ok out ∧ out[54]? = some 6 ∧ out[55]? = some 5
      ∧ out[56]? = some 4 ∧ out[63]? = some 0 ∧ out.length = 78 := by
  obtain ⟨out, h1, h2, h3, h4⟩ := C2_encode_layout sampleImage (by decide)
  obtain ⟨pix, hp, hb, hg, hr⟩ := h2 0 1 (by decide) (by decide) (by decide) (by decide)
  have e : pix = ⟨4, 5, 6⟩ := by
    have : sampleImage.getRGB 0 1 = .ok ⟨4, 5, 6⟩ := rfl
    rw [this] at hp
    exact (Except.ok.inj hp).symm
  subst e
  have hl := h4 (by decide) (by decide)
  refine ⟨out, h1, hb, hg, hr, h3 0 0 (by decide) (by decide) (by decide) (by decide), ?_⟩
  have : ((out.length : Nat) : Int) = 78 := hl
  exact_mod_cast this

/-! ### Decoding followed by encoding -/

theorem pixelAt_channel (f : List byte) (P k : Nat) (hk : k < 3) :
    (pixelAt f P).channel k = f.getD (P + k) 0 := by
  unfold RGBPixel.channel pixelAt
  interval_cases k <;> simp

theorem decode_ok_inv (filename : String) (f : List byte) (img : RGBImage)
    (hdec : decode filename (ifstream.open f) = .ok img) :
    f.take 2 = [0x42, 0x4D]
    ∧ declaredInt f 2 = toInt32 (declaredInt f 10
        + (declaredInt f 18 * 3 + getScanlinePadding (declaredInt f 18)) * declaredInt f 22)
    ∧ 0 ≤ declaredInt f 18 ∧ 0 ≤ declaredInt f 22
    ∧ img.width = declaredInt f 18 ∧ img.height = declaredInt f 22 := by
  have hsig : f.take 2 = [0x42, 0x4D] := by
    by_contra hne
    rw [decode_bad_signature f filename hne] at hdec
    cases hdec
  obtain ⟨_, hd⟩ := afterHeader_spec f hsig
  rw [hd filename] at hdec
  simp only [PIXEL_SIZE] at hdec
  by_cases hs : declaredInt f 2 ≠ toInt32 (declaredInt f 10
      + (declaredInt f 18 * 3 + getScanlinePadding (declaredInt f 18)) * declaredInt f 22)
  · rw [if_pos hs] at hdec
    cases hdec
  · rw [if_neg hs] at hdec
    have hs2 := not_not.mp hs
    by_cases hn : declaredInt f 18 < 0 ∨ declaredInt f 22 < 0
    · unfold RGBImage.initializeWith at hdec
      rw [if_pos hn] at hdec
      cases hdec
    · unfold RGBImage.initializeWith at hdec
      rw [if_neg hn] at hdec
      obtain ⟨s1, h1, h2, h3⟩ := readImage_ok ((afterHeader f).seekg (declaredInt f 10))
        { image := List.replicate (declaredInt f 18 * declaredInt f 22).toNat RGBPixel.default,
          width := declaredInt f 18, height := declaredInt f 22 }
      simp only [h1] at hdec
      have e : s1.2 = img := Except.ok.inj hdec
      rw [← e]
      exact ⟨hsig, hs2, by omega, by omega, h2, h3⟩

theorem roundtrip_bytes (filename : String) (f : List byte) (img : RGBImage) (w h p : Nat)
    (hsig : f.take 2 = [0x42, 0x4D]) (hdec : decode filename (ifstream.open f) = .ok img)
    (hW : declaredInt f 18 = (w : Int)) (hH : declaredInt f 22 = (h : Int))
    (hd : declaredInt f 10 = 54) (hp : getScanlinePadding (w : Int) = (p : Int))
    (hsize : declaredInt f 2 = 54 + ((w : Int) * 3 + (p : Int)) * (h : Int))
    (hlen : f.length = 54 + h * (3 * w + p))
    (hpad : ∀ row t, row < h → t < p → f.getD (54 + row * (3 * w + p) + 3 * w + t) 0 = 0) :
    ∃ out, encode img = .ok out ∧ out.drop 54 = f.drop 54 := by
  obtain ⟨img1, hdec1, hw1, hh1, _, hpix⟩ := decode_pixels filename f 54 w h p hsig hW hH
    (by rw [hd]; rfl) hp (by rw [hsize]; rfl) (by omega)
  rw [hdec] at hdec1
  have himg : img = img1 := Except.ok.inj hdec1
  subst himg
  obtain ⟨out, ho, holen, hb⟩ := encode_spec img w h p hw1 hh1 hp
  refine ⟨out, ho, ?_⟩
  apply List.ext_getElem?
  intro n
  rw [List.getElem?_drop, List.getElem?_drop]
  by_cases hn : n < h * (3 * w + p)
  · have hnz : h * (3 * w + p) ≠ 0 := by omega
    rw [if_neg hnz] at holen
    rw [getElem?_of_getD out _ (by omega), getElem?_of_getD f _ (by omega), hb _ (by omega)]
    refine congrArg some ?_
    have hrl : 0 < 3 * w + p := by
      rcases Nat.eq_zero_or_pos (3 * w + p) with e | e
      · rw [e, Nat.mul_zero] at hn
        omega
      · exact e
    have hcol : n % (3 * w + p) < 3 * w + p := Nat.mod_lt _ hrl
    have hrow : n / (3 * w + p) < h := by
      apply Nat.div_lt_of_lt_mul
      rw [Nat.mul_comm]
      exact hn
    have hdm : (n / (3 * w + p)) * (3 * w + p) + n % (3 * w + p) = n := by
      rw [Nat.mul_comm]
      exact Nat.div_add_mod n (3 * w + p)
    unfold encodedByte
    rw [if_neg (by omega)]
    have e54 : 54 + n - 54 = n := by omega
    simp only [e54]
    generalize n % (3 * w + p) = col at *
    generalize n / (3 * w + p) = row at *
    by_cases hc : col < 3 * w
    · rw [if_pos hc, hpix (col / 3) (h - 1 - row) (by omega) (by omega),
        pixelAt_channel _ _ _ (by omega)]
      have : h - 1 - (h - 1 - row) = row := by omega
      rw [this]
      refine congrArg (fun i => f.getD i 0) ?_
      omega
    · rw [if_neg hc]
      have e : 54 + n = 54 + row * (3 * w + p) + 3 * w + (col - 3 * w) := by omega
      rw [e, hpad row (col - 3 * w) hrow (by omega)]
  · have h1 : f.length ≤ 54 + n := by omega
    have h2 : out.length ≤ 54 + n := by
      rw [holen]
      split <;> omega
    rw [List.getElem?_eq_none h1, List.getElem?_eq_none h2]

/-! ### Claim on the round trip -/

/-- C1 (as amended): when the constructor accepts a bitmap file whose declared data offset is
54, whose length is the file size it declares, whose decoded `W×H` image has a file size
`54 + (3W + padding(W))*H` below `2^31` and whose padding bytes are all zero, encoding the
decoded image gives a file whose bytes from offset 54 to the end are the original file's bytes
from offset 54 to the end. -/
theorem C1_round_trip (fs : FileSystem) (filename : String) (f : List byte) (img : RGBImage)
    (hread : fs.read filename = some f) (hdec : RGBImage.fromFile fs filename = .ok img)
    (hoff : declaredInt f 10 = 54) (hlen : (f.length : Int) = declaredInt f 2)
    (hfit : 54 + (3 * img.width + getScanlinePadding img.width) * img.height < 2147483648)
    (hpad : ∀ row t : Int, 0 ≤ row → row < img.height → 0 ≤ t →
      t < getScanlinePadding img.width →
      fileByte f (54 + row * (3 * img.width + getScanlinePadding img.width)
        + 3 * img.width + t) = 0) :
    ∃ out, encode img = .ok out ∧ out.drop 54 = f.drop 54 := by
  unfold RGBImage.fromFile at hdec
  rw [hread] at hdec
  have hdec : decode filename (ifstream.open f) = .ok img := hdec
  obtain ⟨hsig, hsizeW, hW, hH, hwI, hhI⟩ := decode_ok_inv filename f img hdec
  obtain ⟨hp0, _⟩ := padding_range (declaredInt f 18)
  have hsize : declaredInt f 2 = declaredInt f 10
      + (declaredInt f 18 * 3 + getScanlinePadding (declaredInt f 18)) * declaredInt f 22 := by
    have hprod : 0 ≤ (declaredInt f 18 * 3 + getScanlinePadding (declaredInt f 18))
        * declaredInt f 22 := Int.mul_nonneg (by omega) hH
    rw [hsizeW]
    apply toInt32_of_range
    · rw [hoff]
      omega
    · rw [hoff, ← hwI, ← hhI, Int.mul_comm img.width 3]
      exact hfit
  clear hsizeW hwI hhI hfit
  generalize hWe : declaredInt f 18 = W at *
  generalize hHe : declaredInt f 22 = H at *
  lift W to Nat using hW with w
  lift H to Nat using hH with h
  lift getScanlinePadding (w : Int) to Nat using hp0 with p hp
  rw [hoff] at hsize
  have hlen2 : f.length = 54 + h * (3 * w + p) := by
    have e : (f.length : Int) = ((54 + h * (3 * w + p) : Nat) : Int) := by
      rw [hlen, hsize]
      push_cast
      ring
    exact_mod_cast e
  obtain ⟨img1, hdec1, hw1, hh1, _, _⟩ := decode_pixels filename f 54 w h p hsig hWe hHe
    (by rw [hoff]; rfl) hp.symm (by rw [hsize]; rfl) (by omega)
  rw [hdec] at hdec1
  have himg : img = img1 := Except.ok.inj hdec1
  subst himg
  apply roundtrip_bytes filename f img w h p hsig hdec hWe hHe hoff hp.symm hsize hlen2
  intro row t hr ht
  have := hpad (row : Int) (t : Int) (by omega) (by rw [hh1]; exact_mod_cast hr) (by omega)
    (by rw [hw1, ← hp]; exact_mod_cast ht)
  rw [hw1, ← hp] at this
  have e : ((54 : Int) + (row : Int) * (3 * (w : Int) + (p : Int)) + 3 * (w : Int) + (t : Int))
      = ((54 + row * (3 * w + p) + 3 * w + t : Nat) : Int) := by
    push_cast
    ring
  rw [e] at this
  simpa [fileByte] using this

/-- Witness of C1: the 1×1 bitmap `cleanPixelFile` decodes to the pixel `(30,20,10)`, and the
file encoded from it ends in the same four bytes `10, 20, 30, 0`. -/
theorem C1_round_trip_witness :
    ∃ out, encode onePixelImage = .ok out ∧ out.drop 54 = [10, 20, 30, 0] :=
  C1_round_trip [("clean.bmp", cleanPixelFile)] "clean.bmp" cleanPixelFile onePixelImage
    (by decide) rfl (by decide) (by decide) (by decide)
    (by
      intro row t h1 h2 h3 h4
      have h5 : row < 1 := h2
      have h6 : t < 1 := h4
      obtain rfl : row = 0 := by omega
      obtain rfl : t = 0 := by omega
      rfl)

set_option maxRecDepth 100000 in
/-- Counterexample to C1 as stated: the constructor accepts the 58-byte file `onePixelFile`,
whose padding byte is 7, and the file encoded from the decoded image ends in
`10, 20, 30, 0`, not in `10, 20, 30, 7`. -/
theorem C1_counterexample :
    RGBImage.fromFile [("one.bmp", onePixelFile)] "one.bmp" = .ok onePixelImage
      ∧ encode onePixelImage = .ok cleanPixelFile
      ∧ cleanPixelFile.drop 54 = [10, 20, 30, 0]
      ∧ onePixelFile.drop 54 = [10, 20, 30, 7]
      ∧ cleanPixelFile.drop 54 ≠ onePixelFile.drop 54 :=
  ⟨rfl, rfl, by decide, by decide, by decide⟩

/-! ### File names of a sequence of images -/

theorem encode_ok (img : RGBImage) (hwf : img.WF) : ∃ out, encode img = .ok out := by
  obtain ⟨out, ho, _⟩ := encode_header img hwf
  exact ⟨out, ho⟩

theorem indexedName_eq (stem ext : String) (i : Nat) (hext : ext.length = 4) :
    indexedName (stem ++ ext) i = .ok (stem ++ toString i ++ ext) := by
  have hl : (stem ++ ext).length = stem.length + 4 := by
    rw [String.length_append, hext]
  have hs : sizeMinus4 (stem ++ ext) = stem.length := by
    unfold sizeMinus4
    rw [if_neg (by omega), hl]
    omega
  have hd : (stem ++ ext).data = stem.data ++ ext.data := String.data_append stem ext
  unfold indexedName
  rw [hs]
  have h1 : substr (stem ++ ext) 0 stem.length = .ok stem := by
    unfold substr
    rw [if_neg (by omega), hd, List.drop_zero]
    have : List.take stem.length (stem.data ++ ext.data) = stem.data := List.take_left' rfl
    rw [this]
  have h2 : substr (stem ++ ext) stem.length npos = .ok ext := by
    unfold substr
    rw [if_neg (by omega), hd]
    have : List.drop stem.length (stem.data ++ ext.data) = ext.data := List.drop_left' rfl
    rw [this, List.take_of_length_le]
    have : ext.data.length = 4 := hext
    rw [this]
    decide
  rw [h1]
  simp only [h2]

theorem saveImagesFrom_spec (stem ext : String) (hext : ext.length = 4) :
    ∀ (imgs : List RGBImage) (i : Nat) (fs : FileSystem), (∀ img ∈ imgs, img.WF) →
      ∃ outs, List.Forall₂ (fun img o => encode img = .ok o) imgs outs
        ∧ saveImagesFrom (stem ++ ext) i imgs fs = .ok (savedFiles stem ext i outs ++ fs) := by
  intro imgs
  induction imgs with
  | nil =>
    intro i fs _
    exact ⟨[], List.Forall₂.nil, rfl⟩
  | cons img rest ih =>
    intro i fs hwf
    obtain ⟨o, ho⟩ := encode_ok img (hwf img (List.mem_cons_self _ _))
    obtain ⟨outs, hf, hs⟩ := ih (i + 1) (fs.write (stem ++ toString i ++ ext) o)
      (fun g hg => hwf g (List.mem_cons_of_mem _ hg))
    refine ⟨o :: outs, List.Forall₂.cons ho hf, ?_⟩
    unfold saveImagesFrom
    rw [indexedName_eq stem ext i hext]
    simp only [saveImage, ho]
    rw [hs]
    simp only [savedFiles, FileSystem.write, List.length_cons, List.range'_succ, List.zip_cons_cons,
      List.map_cons, List.reverse_cons, List.append_assoc, List.singleton_append]

/-! ### Claim on saving several images -/

/-- C8 (as amended): for a base filename that ends in four characters `ext` (a dot and a
three-letter extension such as `.bmp`) after `stem`, `saveImages` writes image `i` of the
sequence (0-based, in sequence order) to the file `stem ++ i ++ ext`, the decimal index
inserted before the last four characters, with the bytes `encode` gives for that image, and
changes nothing else in the file system. -/
theorem C8_saveImages (fs : FileSystem) (stem ext : String) (srcImgs : List RGBImage)
    (hext : ext.length = 4) (hwf : ∀ img ∈ srcImgs, img.WF) :
    ∃ outs, List.Forall₂ (fun img o => encode img = .ok o) srcImgs outs
      ∧ saveImages fs (stem ++ ext) srcImgs = .ok (savedFiles stem ext 0 outs ++ fs) :=
  saveImagesFrom_spec stem ext hext srcImgs 0 fs hwf

/-- Witness of C8: two images saved under `out.bmp` go to `out0.bmp` and `out1.bmp`. -/
theorem C8_saveImages_witness :
    ∃ o0 o1, encode onePixelImage = .ok o0 ∧ encode sampleImage = .ok o1
      ∧ saveImages [] "out.bmp" [onePixelImage, sampleImage]
          = .ok [("out1.bmp", o1), ("out0.bmp", o0)] := by
  obtain ⟨outs, hf, hs⟩ := C8_saveImages [] "out" ".bmp" [onePixelImage, sampleImage]
    (by decide) (by decide)
  cases hf with
  | cons h0 hrest =>
    cases hrest with
    | cons h1 hnil =>
      cases hnil
      rename_i o0 o1
      have e1 : ("out" ++ ".bmp" : String) = "out.bmp" := by decide
      have e2 : savedFiles "out" ".bmp" 0 [o0, o1] ++ []
          = [("out1.bmp", o1), ("out0.bmp", o0)] := by
        have n0 : ("out" ++ toString 0 ++ ".bmp" : String) = "out0.bmp" := by decide
        have n1 : ("out" ++ toString 1 ++ ".bmp" : String) = "out1.bmp" := by decide
        simp only [savedFiles, List.length_cons, List.length_nil, List.range', List.zip_cons_cons,
          List.zip_nil_right, List.map_cons, List.map_nil, List.reverse_cons, List.reverse_nil,
          List.nil_append, List.append_nil, List.singleton_append, Nat.reduceAdd, n0, n1]
      rw [e1, e2] at hs
      exact ⟨o0, o1, h0, h1, hs⟩

set_option maxRecDepth 100000 in
/-- Counterexample to C8 as stated: `pic.jpeg` has the extension `.jpeg`, and two images saved
under that name go to `pic.0jpeg` and `pic.1jpeg`; no file `pic0.jpeg` or `pic1.jpeg` is
written. -/
theorem C8_counterexample :
    saveImages [] "pic.jpeg" [onePixelImage, onePixelImage]
        = .ok [("pic.1jpeg", cleanPixelFile), ("pic.0jpeg", cleanPixelFile)]
      ∧ FileSystem.read [("pic.1jpeg", cleanPixelFile), ("pic.0jpeg", cleanPixelFile)]
          "pic0.jpeg" = none
      ∧ FileSystem.read [("pic.1jpeg", cleanPixelFile), ("pic.0jpeg", cleanPixelFile)]
          "pic1.jpeg" = none :=
  ⟨rfl, by decide, by decide⟩

/-! ### Nested loops, sub-images and crops -/

/-- Invariant rule for two nested counted loops with unit steps. -/
theorem nested_inv {σ : Type} (body : Int → Int → σ → Result σ) (n m : Nat) (x0 y0 : Int)
    (I : Nat → Nat → σ → Prop) (s0 : σ) (h0 : I 0 0 s0)
    (hstep : ∀ i j, i < n → j < m → ∀ s, I i j s →
      ∃ s1, body (x0 + (i : Int)) (y0 + (j : Int)) s = .ok s1 ∧ I i (j + 1) s1)
    (hrow : ∀ i, i < n → ∀ s, I i m s → I (i + 1) 0 s) :
    ∃ r, forLoop (fun x s => forLoop (fun y s1 => body x y s1) 1 m y0 s) 1 n x0 s0 = .ok r
      ∧ I n 0 r := by
  apply forLoop_inv _ 1 n (fun i s => I i 0 s) x0 s0 h0
  intro i hi t ht
  obtain ⟨s1, hs1, hI⟩ := forLoop_inv (fun y s1 => body (x0 + (i : Int) * 1) y s1) 1 m
    (fun j s => I i j s) y0 t ht (by
      intro j hj s hs
      obtain ⟨s2, hb, h2⟩ := hstep i j hi hj s hs
      refine ⟨s2, ?_, h2⟩
      rw [← hb]
      simp only [mul_one])
  exact ⟨s1, hs1, hrow i hi s1 hI⟩

theorem fill_image (body : Int → Int → RGBImage → Result RGBImage) (n m : Nat) (x0 y0 : Int)
    (W H : Nat) (idx : Nat → Nat → Nat) (v : Nat → Nat → RGBPixel) (d0 : RGBImage)
    (hw : d0.width = (W : Int)) (hh : d0.height = (H : Int)) (hl : d0.image.length = W * H)
    (hidx : ∀ i j, i < n → j < m → idx i j < W * H)
    (hinj : ∀ i j a b, i < n → j < m → a < n → b < m → idx i j = idx a b → i = a ∧ j = b)
    (hbody : ∀ i j, i < n → j < m → ∀ d : RGBImage, d.width = (W : Int) → d.height = (H : Int) →
      body (x0 + (i : Int)) (y0 + (j : Int)) d
        = .ok { d with image := d.image.set (idx i j) (v i j) }) :
    ∃ r, forLoop (fun x s => forLoop (fun y s1 => body x y s1) 1 m y0 s) 1 n x0 d0 = .ok r
      ∧ r.width = (W : Int) ∧ r.height = (H : Int) ∧ r.image.length = W * H
      ∧ ∀ i j, i < n → j < m → r.image.getD (idx i j) RGBPixel.default = v i j := by
  obtain ⟨r, hr, hI⟩ := nested_inv body n m x0 y0 (FillInv W H m idx v) d0
    ⟨hw, hh, hl, by
      intro a b hab
      omega⟩
    (by
      intro i j hi hj s hs
      obtain ⟨sw, sh, sl, sp⟩ := hs
      refine ⟨_, hbody i j hi hj s sw sh, sw, sh, ?_, ?_⟩
      · simp only [List.length_set, sl]
      · intro a b hab
        simp only
        rw [getD_set _ _ _ _ (by rw [sl]; exact hidx i j hi hj)]
        by_cases e : idx a b = idx i j
        · have hab2 : a < n ∧ b < m := by
            rcases hab with h1 | h1
            · exact ⟨by omega, h1.2⟩
            · exact ⟨by omega, by omega⟩
          obtain ⟨e1, e2⟩ := hinj a b i j hab2.1 hab2.2 hi hj e
          rw [if_pos e, e1, e2]
        · rw [if_neg e]
          apply sp a b
          rcases hab with h1 | h1
          · exact Or.inl h1
          · refine Or.inr ⟨h1.1, ?_⟩
            rcases Nat.lt_succ_iff_lt_or_eq.mp h1.2 with h3 | h3
            · exact h3
            · exfalso
              apply e
              rw [h1.1, h3])
    (by
      intro i hi s hs
      obtain ⟨sw, sh, sl, sp⟩ := hs
      refine ⟨sw, sh, sl, ?_⟩
      intro a b hab
      apply sp a b
      rcases hab with h1 | h1
      · by_cases e : a = i
        · exact Or.inr ⟨e, h1.2⟩
        · exact Or.inl ⟨by omega, h1.2⟩
      · omega)
  obtain ⟨rw1, rh1, rl1, rp⟩ := hI
  exact ⟨r, hr, rw1, rh1, rl1, fun i j hi hj => rp i j (Or.inl ⟨hi, hj⟩)⟩

theorem create_ok (w h : Nat) :
    RGBImage.create (w : Int) (h : Int)
      = .ok { image := List.replicate (w * h) RGBPixel.default, width := w, height := h } := by
  unfold RGBImage.create RGBImage.initializeWith
  rw [if_neg (by omega)]
  congr 2

theorem toNat_idx (x y H : Nat) : ((x : Int) * (H : Int) + (y : Int)).toNat = x * H + y := by
  rw [← Nat.cast_mul, ← Nat.cast_add, Int.toNat_natCast]

/-- Reading pixel `(sx, sy)` of `src` and storing it, changed by `g`, as pixel `(dx, dy)` of
`d`, both coordinates in range. -/
theorem copy_pixel_ok (src d : RGBImage) (g : RGBPixel → RGBPixel) (W H Ws Hs sx sy dx dy : Nat)
    (x y x1 y1 : Int) (hsw : src.width = (Ws : Int)) (hsh : src.height = (Hs : Int))
    (hdw : d.width = (W : Int)) (hdh : d.height = (H : Int))
    (hx : x = (sx : Int)) (hy : y = (sy : Int)) (hx1 : x1 = (dx : Int)) (hy1 : y1 = (dy : Int))
    (h1 : sx < Ws) (h2 : sy < Hs) (h3 : dx < W) (h4 : dy < H) :
    (match src.getRGB x y with
      | .error e => (.error e : Result RGBImage)
      | .ok pix => d.setRGB x1 y1 (g pix))
      = .ok { d with
          image := d.image.set (dx * H + dy) (g (src.image.getD (sx * Hs + sy) RGBPixel.default)) } := by
  subst hx hy hx1 hy1
  rw [getRGB_ok src _ _ (by omega) (by rw [hsw]; exact_mod_cast h1) (by omega)
    (by rw [hsh]; exact_mod_cast h2)]
  simp only
  rw [setRGB_ok d _ _ _ (by omega) (by rw [hdw]; exact_mod_cast h3) (by omega)
    (by rw [hdh]; exact_mod_cast h4), hsh, hdh, toNat_idx, toNat_idx]

theorem subImage_spec (img : RGBImage) (W H xo yo w h : Nat) (hw : img.width = (W : Int))
    (hh : img.height = (H : Int)) (hx : xo + w ≤ W) (hy : yo + h ≤ H) :
    ∃ r, img.subImage (xo : Int) (yo : Int) (w : Int) (h : Int) = .ok r
      ∧ r.width = (w : Int) ∧ r.height = (h : Int) ∧ r.image.length = w * h
      ∧ ∀ i j, i < w → j < h →
          r.image.getD (i * h + j) RGBPixel.default
            = img.image.getD ((i + xo) * H + (j + yo)) RGBPixel.default := by
  unfold RGBImage.subImage
  rw [if_neg (by rw [hw, hh]; omega), create_ok]
  simp only [Int.toNat_natCast]
  apply fill_image _ w h 0 0 w h (fun i j => i * h + j)
    (fun i j => img.image.getD ((i + xo) * H + (j + yo)) RGBPixel.default) _ rfl rfl
    (by simp)
  · intro i j hi hj
    exact idx_lt w h i j hi hj
  · intro i j a b _ hj _ hb e
    exact idx_inj h i j a b hj hb e
  · intro i j hi hj d hdw hdh
    exact copy_pixel_ok img d id w h W H (i + xo) (j + yo) i j _ _ _ _ hw hh hdw hdh
      (by push_cast; omega) (by push_cast; omega) (by omega) (by omega) (by omega) (by omega)
      hi hj

theorem crop_spec (img : RGBImage) (W H x1 y1 w h : Nat) (hw : img.width = (W : Int))
    (hh : img.height = (H : Int)) (hx : x1 + w ≤ W) (hy : y1 + h ≤ H) (x2 y2 : Int)
    (hx2 : x2 = (x1 : Int) + (w : Int)) (hy2 : y2 = (y1 : Int) + (h : Int)) :
    ∃ r, ImageCropper.filter { x1 := x1, y1 := y1, x2 := x2, y2 := y2 } img = .ok r
      ∧ r.width = (w : Int) ∧ r.height = (h : Int) ∧ r.image.length = w * h
      ∧ ∀ i j, i < w → j < h →
          r.image.getD (i * h + j) RGBPixel.default
            = img.image.getD ((x1 + i) * H + (y1 + j)) RGBPixel.default := by
  subst hx2 hy2
  unfold ImageCropper.filter
  have e1 : (x1 : Int) + (w : Int) - (x1 : Int) = (w : Int) := by omega
  have e2 : (y1 : Int) + (h : Int) - (y1 : Int) = (h : Int) := by omega
  simp only [e1, e2, create_ok, Int.toNat_natCast]
  apply fill_image _ w h x1 y1 w h (fun i j => i * h + j)
    (fun i j => img.image.getD ((x1 + i) * H + (y1 + j)) RGBPixel.default) _ rfl rfl
    (by simp)
  · intro i j hi hj
    exact idx_lt w h i j hi hj
  · intro i j a b _ hj _ hb e
    exact idx_inj h i j a b hj hb e
  · intro i j hi hj d hdw hdh
    exact copy_pixel_ok img d id w h W H (x1 + i) (y1 + j) i j _ _ _ _ hw hh hdw hdh
      (by push_cast; omega) (by push_cast; omega) (by omega) (by omega) (by omega) (by omega)
      hi hj

/-- C11: on an image of size `W×H`, for `xOffset ≥ 0`, `yOffset ≥ 0`, `w ≥ 0`, `h ≥ 0` with
`xOffset + w ≤ W` and `yOffset + h ≤ H`, `subImage(xOffset, yOffset, w, h)` succeeds and returns
an image of size `w×h` (with a buffer of `w*h` pixels) whose pixel `(x,y)` is the source pixel
`(x + xOffset, y + yOffset)` for all `0 ≤ x < w`, `0 ≤ y < h`. -/
theorem C11_subImage (img : RGBImage) (xOffset yOffset w h : Int) (hx0 : 0 ≤ xOffset)
    (hy0 : 0 ≤ yOffset) (hw0 : 0 ≤ w) (hh0 : 0 ≤ h) (hx : xOffset + w ≤ img.width)
    (hy : yOffset + h ≤ img.height) :
    ∃ sub, img.subImage xOffset yOffset w h = .ok sub ∧ sub.width = w ∧ sub.height = h
      ∧ sub.WF
      ∧ ∀ x y, 0 ≤ x → x < w → 0 ≤ y → y < h →
          ∃ pix, img.getRGB (x + xOffset) (y + yOffset) = .ok pix
            ∧ sub.getRGB x y = .ok pix := by
  have hW : 0 ≤ img.width := by omega
  have hH : 0 ≤ img.height := by omega
  generalize hwe : img.width = W at *
  generalize hhe : img.height = H at *
  lift W to Nat using hW with Wn
  lift H to Nat using hH with Hn
  lift xOffset to Nat using hx0 with xo
  lift yOffset to Nat using hy0 with yo
  lift w to Nat using hw0 with wn
  lift h to Nat using hh0 with hn
  obtain ⟨r, hr, rw1, rh1, rl1, rp⟩ := subImage_spec img Wn Hn xo yo wn hn hwe hhe
    (by exact_mod_cast hx) (by exact_mod_cast hy)
  refine ⟨r, hr, rw1, rh1, ⟨by rw [rw1]; omega, by rw [rh1]; omega, ?_⟩, ?_⟩
  · rw [rl1, rw1, rh1, ← Nat.cast_mul, Int.toNat_natCast]
  · intro x y hx0 hxw hy0 hyh
    lift x to Nat using hx0 with xn
    lift y to Nat using hy0 with yn
    have hxn : xn < wn := by exact_mod_cast hxw
    have hyn : yn < hn := by exact_mod_cast hyh
    have hxb : xn + xo < Wn := by
      have : xo + wn ≤ Wn := by exact_mod_cast hx
      omega
    have hyb : yn + yo < Hn := by
      have : yo + hn ≤ Hn := by exact_mod_cast hy
      omega
    refine ⟨_, getRGB_ok img _ _ (by omega) (by rw [hwe]; exact_mod_cast hxb) (by omega)
      (by rw [hhe]; exact_mod_cast hyb), ?_⟩
    rw [getRGB_ok r _ _ (by omega) (by rw [rw1]; exact hxw) (by omega) (by rw [rh1]; exact hyh),
      rh1, hhe, toNat_idx, rp xn yn hxn hyn]
    congr 2

/-- Witness of C11: the right column of the 3×2 image `sampleImage`. -/
theorem C11_subImage_witness :
    ∃ sub, sampleImage.subImage 2 0 1 2 = .ok sub ∧ sub.width = 1 ∧ sub.height = 2
      ∧ sub.getRGB 0 1 = .ok ⟨16, 17, 18⟩ := by
  obtain ⟨sub, h1, h2, h3, _, h5⟩ := C11_subImage sampleImage 2 0 1 2 (by decide) (by decide)
    (by decide) (by decide) (by decide) (by decide)
  obtain ⟨pix, hp, hs⟩ := h5 0 1 (by decide) (by decide) (by decide) (by decide)
  have e : sampleImage.getRGB (0 + 2) (1 + 0) = .ok ⟨16, 17, 18⟩ := rfl
  rw [e] at hp
  rw [← Except.ok.inj hp] at hs
  exact ⟨sub, h1, h2, h3, hs⟩

theorem pixel_equals_iff (p q : RGBPixel) : p.equals q = true ↔ p = q := by
  cases p
  cases q
  simp [RGBPixel.equals, and_assoc]

theorem pixel_notEquals_iff (p q : RGBPixel) : p.notEquals q = true ↔ p ≠ q := by
  unfold RGBPixel.notEquals
  rw [Bool.not_eq_true', ← Bool.not_eq_true, pixel_equals_iff]

theorem equalsLoop_iff (a b : List RGBPixel) :
    ∀ (n i : Nat), RGBImage.equalsLoop a b n i = true
      ↔ ∀ k, k < n → a.getD (i + k) RGBPixel.default = b.getD (i + k) RGBPixel.default := by
  intro n
  induction n with
  | zero =>
    intro i
    simp [RGBImage.equalsLoop]
  | succ n ih =>
    intro i
    unfold RGBImage.equalsLoop
    by_cases h : a.getD i RGBPixel.default = b.getD i RGBPixel.default
    · have hn : ¬ ((a.getD i RGBPixel.default).notEquals (b.getD i RGBPixel.default) = true) := by
        rw [pixel_notEquals_iff]
        exact fun hne => hne h
      rw [if_neg hn, ih (i + 1)]
      constructor
      · intro hk k hlt
        rcases Nat.eq_zero_or_pos k with e | e
        · subst e
          exact h
        · have := hk (k - 1) (by omega)
          have e2 : i + 1 + (k - 1) = i + k := by omega
          rw [e2] at this
          exact this
      · intro hk k hlt
        have := hk (k + 1) (by omega)
        have e2 : i + (k + 1) = i + 1 + k := by omega
        rw [e2] at this
        exact this
    · have hn : (a.getD i RGBPixel.default).notEquals (b.getD i RGBPixel.default) = true := by
        rw [pixel_notEquals_iff]
        exact h
      rw [if_pos hn]
      constructor
      · intro hf
        cases hf
      · intro hk
        exact absurd (hk 0 (by omega)) h

theorem equals_iff_buffer (A B : RGBImage) :
    A.equals B = true ↔ (A.width = B.width ∧ A.height = B.height
      ∧ ∀ k, k < (A.width * A.height).toNat →
          A.image.getD k RGBPixel.default = B.image.getD k RGBPixel.default) := by
  unfold RGBImage.equals
  by_cases h : A.width = B.width ∧ A.height = B.height
  · rw [if_neg (not_not.mpr h), equalsLoop_iff]
    simp only [Nat.zero_add]
    constructor
    · intro hk
      exact ⟨h.1, h.2, hk⟩
    · intro hk
      exact hk.2.2
  · rw [if_pos h]
    constructor
    · intro hf
      cases hf
    · intro hk
      exact absurd ⟨hk.1, hk.2.1⟩ h

theorem equals_self (A : RGBImage) : A.equals A = true := by
  rw [equals_iff_buffer]
  exact ⟨rfl, rfl, fun _ _ => rfl⟩

/-- An index of the buffer of a `W × H` image is the index of a coordinate of the image. -/
theorem idx_decompose (W H k : Nat) (hk : k < W * H) :
    ∃ x y, x < W ∧ y < H ∧ k = x * H + y := by
  have hH : 0 < H := by
    rcases Nat.eq_zero_or_pos H with e | e
    · rw [e, Nat.mul_zero] at hk
      omega
    · exact e
  refine ⟨k / H, k % H, ?_, Nat.mod_lt _ hH, ?_⟩
  · apply Nat.div_lt_of_lt_mul
    rw [Nat.mul_comm]
    exact hk
  · rw [Nat.mul_comm]
    exact (Nat.div_add_mod k H).symm

theorem buffer_eq_iff_pixels (A B : RGBImage) (W H : Nat) (hAw : A.width = (W : Int))
    (hAh : A.height = (H : Int)) (hBw : B.width = (W : Int)) (hBh : B.height = (H : Int)) :
    (∀ k, k < W * H → A.image.getD k RGBPixel.default = B.image.getD k RGBPixel.default)
      ↔ ∀ x y : Int, 0 ≤ x → x < (W : Int) → 0 ≤ y → y < (H : Int) →
          A.getRGB x y = B.getRGB x y := by
  constructor
  · intro hk x y hx0 hx hy0 hy
    lift x to Nat using hx0 with xn
    lift y to Nat using hy0 with yn
    have hxn : xn < W := by exact_mod_cast hx
    have hyn : yn < H := by exact_mod_cast hy
    rw [getRGB_ok A _ _ (by omega) (by rw [hAw]; exact hx) (by omega) (by rw [hAh]; exact hy),
      getRGB_ok B _ _ (by omega) (by rw [hBw]; exact hx) (by omega) (by rw [hBh]; exact hy),
      hAh, hBh, toNat_idx, hk _ (idx_lt W H xn yn hxn hyn)]
  · intro hp k hk
    obtain ⟨x, y, hx, hy, rfl⟩ := idx_decompose W H k hk
    have := hp (x : Int) (y : Int) (by omega) (by exact_mod_cast hx) (by omega)
      (by exact_mod_cast hy)
    rw [getRGB_ok A _ _ (by omega) (by rw [hAw]; exact_mod_cast hx) (by omega)
        (by rw [hAh]; exact_mod_cast hy),
      getRGB_ok B _ _ (by omega) (by rw [hBw]; exact_mod_cast hx) (by omega)
        (by rw [hBh]; exact_mod_cast hy),
      hAh, hBh, toNat_idx] at this
    exact Except.ok.inj this

/-- C13: for an image `A` with non-negative dimensions and a buffer of `width*height`
pixels and any image `B`, `A == B` is true exactly when `A` and `B` have the same width and
height and `getRGB` agrees at every coordinate inside the image; `A != B` is the negation of
`A == B`; and `C == C` for every image `C`. -/
theorem C13_equality (A B : RGBImage) (hA : A.WF) :
    (A.equals B = true ↔
      (A.width = B.width ∧ A.height = B.height
        ∧ ∀ x y, 0 ≤ x → x < A.width → 0 ≤ y → y < A.height → A.getRGB x y = B.getRGB x y))
    ∧ A.notEquals B = !A.equals B
    ∧ ∀ C : RGBImage, C.equals C = true := by
  refine ⟨?_, rfl, equals_self⟩
  rw [equals_iff_buffer]
  obtain ⟨hW, hH, _⟩ := hA
  constructor
  · intro ⟨h1, h2, h3⟩
    refine ⟨h1, h2, ?_⟩
    generalize hwe : A.width = W at *
    generalize hhe : A.height = H at *
    lift W to Nat using hW with Wn
    lift H to Nat using hH with Hn
    rw [← Nat.cast_mul, Int.toNat_natCast] at h3
    exact (buffer_eq_iff_pixels A B Wn Hn hwe hhe h1.symm h2.symm).mp h3
  · intro ⟨h1, h2, h3⟩
    refine ⟨h1, h2, ?_⟩
    generalize hwe : A.width = W at *
    generalize hhe : A.height = H at *
    lift W to Nat using hW with Wn
    lift H to Nat using hH with Hn
    rw [← Nat.cast_mul, Int.toNat_natCast]
    exact (buffer_eq_iff_pixels A B Wn Hn hwe hhe h1.symm h2.symm).mpr h3

/-- Witness of C13: `sampleImage` and `onePixelImage` differ in their dimensions. -/
theorem C13_equality_witness :
    sampleImage.equals onePixelImage = false ∧ sampleImage.notEquals onePixelImage = true
      ∧ sampleImage.equals sampleImage = true := by
  obtain ⟨h1, h2, h3⟩ := C13_equality sampleImage onePixelImage (by decide)
  have hf : sampleImage.equals onePixelImage = false := by
    rw [← Bool.not_eq_true, h1]
    intro h
    exact absurd h.1 (by decide)
  refine ⟨hf, ?_, h3 sampleImage⟩
  rw [h2, hf]
  rfl

/-! ### Assignment and filters over a sequence -/

theorem list_eq_of_getD (a b : List RGBPixel) (hl : a.length = b.length)
    (h : ∀ k, k < a.length → a.getD k RGBPixel.default = b.getD k RGBPixel.default) : a = b := by
  apply List.ext_getElem hl
  intro k h1 h2
  have := h k h1
  rw [List.getD_eq_getElem _ _ h1, List.getD_eq_getElem _ _ h2] at this
  exact this

/-- The copy of an image with a buffer of `width*height` pixels is the image itself. -/
theorem initializeTo_of_WF (src : RGBImage) (hwf : src.WF) : RGBImage.initializeTo src = src := by
  obtain ⟨_, _, hl⟩ := hwf
  cases src with
  | mk image width height =>
    simp only [RGBImage.initializeTo, RGBImage.mk.injEq, and_true] at hl ⊢
    apply list_eq_of_getD
    · simp [hl]
    · intro k hk
      simp only [List.length_map, List.length_range] at hk
      rw [List.getD_eq_getElem _ _ (by simp [hk])]
      simp

/-- C14 fails on the code: `ColorInverter::filter` turns the 1×1 image `onePixelImage` into the
1×1 image with the pixel `(225,235,245)`, and `applyOverVector` on the one-element sequence
`[onePixelImage]` assigns it to slot 0 of a vector of one default-constructed image, whose
pointer `image` was never initialised: the destructor call of `operator=` is undefined
behaviour, and no sequence is returned. -/
theorem C14_first_assignment_undefined :
    ColorInverter.filter onePixelImage
        = .ok { image := [{ r := 225, g := 235, b := 245 }], width := 1, height := 1 }
      ∧ ImageFilter.applyOverVector ColorInverter.filter [onePixelImage] = .error .Undefined :=
  ⟨rfl, rfl⟩

/-! ### Separators over a sequence -/

theorem take_succ_getD {α : Type} (d : α) :
    ∀ (l : List α) (k : Nat), k < l.length → l.take (k + 1) = l.take k ++ [l.getD k d] := by
  intro l
  induction l with
  | nil =>
    intro k hk
    simp at hk
  | cons a l ih =>
    intro k hk
    cases k with
    | zero => simp
    | succ k =>
      simp only [List.length_cons] at hk
      have := ih k (by omega)
      simp only [List.take_succ_cons, List.getD_cons_succ, List.cons_append, this]

/-- The inner loop of `ImageSeparator::applyOverVector` appends the cached images in order. -/
theorem push_back_loop (cached acc : List RGBImage) (hwf : ∀ x ∈ cached, x.WF) :
    forLoop (fun j acc =>
        .ok (acc ++ [RGBImage.initializeTo (cached.getD j.toNat RGBImage.empty)]))
      1 cached.length 0 acc = .ok (acc ++ cached) := by
  obtain ⟨r, hr, hI⟩ := forLoop_inv
    (fun j acc => .ok (acc ++ [RGBImage.initializeTo (cached.getD j.toNat RGBImage.empty)]))
    1 cached.length (fun k t => t = acc ++ cached.take k) 0 acc (by simp)
    (by
      intro k hk t ht
      have e1 : (0 : Int) + (k : Int) * 1 = (k : Int) := by ring
      simp only [e1, Int.toNat_natCast]
      refine ⟨_, rfl, ?_⟩
      have hmem : cached.getD k RGBImage.empty ∈ cached := by
        rw [List.getD_eq_getElem _ _ hk]
        exact List.getElem_mem _
      rw [initializeTo_of_WF _ (hwf _ hmem), ht, take_succ_getD RGBImage.empty cached k hk,
        List.append_assoc])
  rw [hr, hI, List.take_length]

/-- C15: for every separator and every sequence `s` of images on each of which `separate`
succeeds (returning images with buffers of `width*height` pixels), `applyOverVector(s)` is the
in-order concatenation `separate(s[0]) ++ separate(s[1]) ++ ...`, and its length is the sum of
the lengths of the individual separation results. -/
theorem C15_separator_over_vector (separate : RGBImage → Result (List RGBImage))
    (s : List RGBImage) (outs : List (List RGBImage)) (hlen : outs.length = s.length)
    (hs : ∀ i, i < s.length → separate (s.getD i RGBImage.empty) = .ok (outs.getD i [])
      ∧ ∀ x ∈ outs.getD i [], x.WF) :
    ImageSeparator.applyOverVector separate s = .ok outs.flatten
      ∧ outs.flatten.length = (outs.map List.length).sum := by
  refine ⟨?_, List.length_flatten _⟩
  unfold ImageSeparator.applyOverVector
  obtain ⟨r, hr, hI⟩ := forLoop_inv
    (fun i acc =>
      match separate (s.getD i.toNat RGBImage.empty) with
      | .error e => .error e
      | .ok cachedImages =>
        forLoop (fun j acc =>
            .ok (acc ++ [RGBImage.initializeTo (cachedImages.getD j.toNat RGBImage.empty)]))
          1 cachedImages.length 0 acc)
    1 s.length (fun k t => t = (outs.take k).flatten) 0 [] (by simp)
    (by
      intro k hk t ht
      obtain ⟨ho, howf⟩ := hs k hk
      have e1 : (0 : Int) + (k : Int) * 1 = (k : Int) := by ring
      simp only [e1, Int.toNat_natCast, ho]
      rw [push_back_loop _ _ howf]
      refine ⟨_, rfl, ?_⟩
      rw [ht, take_succ_getD [] outs k (by omega), List.flatten_append]
      simp)
  subst hI
  have e : List.take s.length outs = outs := by rw [← hlen, List.take_length]
  rw [e] at hr
  exact hr

/-- Witness of C15: a separator that returns its argument twice, over two images. -/
theorem C15_separator_over_vector_witness :
    ImageSeparator.applyOverVector (fun img => .ok [img, img]) [sampleImage, onePixelImage]
        = .ok [sampleImage, sampleImage, onePixelImage, onePixelImage]
      ∧ [sampleImage, sampleImage, onePixelImage, onePixelImage].length = 2 + 2 :=
  C15_separator_over_vector (fun img => .ok [img, img]) [sampleImage, onePixelImage]
    [[sampleImage, sampleImage], [onePixelImage, onePixelImage]] rfl (by
      intro i hi
      have hi2 : i < 2 := hi
      interval_cases i
      · exact ⟨rfl, by decide⟩
      · exact ⟨rfl, by decide⟩)

/-! ### Colour amplification and splitting -/

/-- An integer is rounded to itself. -/
theorem roundHalfEven_intCast (n : Int) : roundHalfEven (n : ℚ) = n := by
  unfold roundHalfEven
  simp

theorem roundHalfEven_cases (q : ℚ) : roundHalfEven q = ⌊q⌋ ∨ roundHalfEven q = ⌊q⌋ + 1 := by
  unfold roundHalfEven
  simp only
  split
  · exact Or.inl rfl
  · split
    · exact Or.inr rfl
    · split
      · exact Or.inl rfl
      · exact Or.inr rfl

theorem roundHalfEven_nonneg (q : ℚ) (hq : 0 ≤ q) : 0 ≤ roundHalfEven q := by
  have hf : 0 ≤ ⌊q⌋ := Int.floor_nonneg.mpr hq
  rcases roundHalfEven_cases q with h | h <;> omega

theorem binade_exists (q : ℚ) (hq : 0 < q) :
    (2 : ℚ) ^ (Int.log 2 q) ≤ q ∧ q < (2 : ℚ) ^ (Int.log 2 q + 1) := by
  have a := Int.zpow_log_le_self (R := ℚ) (b := 2) (by norm_num) hq
  have b := Int.lt_zpow_succ_log_self (R := ℚ) (b := 2) (by norm_num) q
  simp only [Nat.cast_ofNat] at a b
  exact ⟨a, b⟩

/-- The `double` nearest to a number that is not negative is not negative. -/
theorem toDouble_nonneg (q : ℚ) (hq : 0 ≤ q) : 0 ≤ toDouble q := by
  unfold toDouble
  split
  · exact le_refl 0
  · simp only
    have hu : (0 : ℚ) < 2 ^ (max (Int.log 2 |q|) (-1022) - 52) := by positivity
    apply mul_nonneg _ hu.le
    exact_mod_cast roundHalfEven_nonneg _ (div_nonneg hq hu.le)

/-- A number `m * 2^k` with `m < 2^53` and `k ≥ -1074` is a `double`: rounding leaves it as it
is. -/
theorem toDouble_exact (m : Nat) (k : Int) (hm : m < 2 ^ 53) (hk : -1074 ≤ k) :
    toDouble ((m : ℚ) * 2 ^ k) = (m : ℚ) * 2 ^ k := by
  by_cases h0 : m = 0
  · subst h0
    simp [toDouble]
  have hmpos : (0 : ℚ) < m := by exact_mod_cast Nat.pos_of_ne_zero h0
  have hq : (0 : ℚ) < (m : ℚ) * 2 ^ k := by positivity
  obtain ⟨b1, _⟩ := binade_exists _ hq
  have hm2 : (m : ℚ) < 2 ^ (53 : Int) := by
    rw [show ((2 : ℚ) ^ (53 : Int)) = ((2 ^ 53 : Nat) : ℚ) by norm_num]
    exact_mod_cast hm
  have hlt : (2 : ℚ) ^ (Int.log 2 ((m : ℚ) * 2 ^ k)) < 2 ^ (53 + k) := by
    rw [zpow_add₀ (by norm_num : (2 : ℚ) ≠ 0)]
    exact lt_of_le_of_lt b1 (mul_lt_mul_of_pos_right hm2 (by positivity))
  have he : Int.log 2 ((m : ℚ) * 2 ^ k) < 53 + k :=
    (zpow_lt_zpow_iff_right₀ (by norm_num : (1 : ℚ) < 2)).mp hlt
  have hE : max (Int.log 2 ((m : ℚ) * 2 ^ k)) (-1022) - 52 ≤ k := by omega
  unfold toDouble
  rw [if_neg hq.ne', abs_of_pos hq]
  simp only
  generalize max (Int.log 2 ((m : ℚ) * 2 ^ k)) (-1022) - 52 = u at hE
  obtain ⟨j, hj⟩ : ∃ j : Nat, k = u + (j : Int) := ⟨(k - u).toNat, by omega⟩
  have h2 : (2 : ℚ) ^ u ≠ 0 := by positivity
  have hdiv : (m : ℚ) * 2 ^ k / 2 ^ u = (((m * 2 ^ j : Nat) : Int) : ℚ) := by
    rw [hj, zpow_add₀ (by norm_num : (2 : ℚ) ≠ 0), zpow_natCast]
    field_simp
    ring
  rw [hdiv, roundHalfEven_intCast, hj, zpow_add₀ (by norm_num : (2 : ℚ) ≠ 0), zpow_natCast]
  push_cast
  ring

/-- A natural number below `2^53` is a `double`. -/
theorem toDouble_natCast (n : Nat) (hn : n < 2 ^ 53) : toDouble (n : ℚ) = (n : ℚ) := by
  have := toDouble_exact n 0 hn (by norm_num)
  simpa using this

theorem truncToInt_natCast (n : Nat) : truncToInt (n : ℚ) = (n : Int) := by
  unfold truncToInt
  rw [Rat.num_natCast, Rat.den_natCast]
  simp

/-- For a number that is not negative the truncation is the floor. -/
theorem truncToInt_floor (q : ℚ) (hq : 0 ≤ q) : truncToInt q = ⌊q⌋ := by
  unfold truncToInt
  rw [Rat.floor_def, Int.tdiv_eq_ediv (Rat.num_nonneg.mpr hq) (Int.ofNat_nonneg _)]

theorem truncToInt_nonneg (q : ℚ) (hq : 0 ≤ q) : 0 ≤ truncToInt q := by
  rw [truncToInt_floor q hq]
  exact Int.floor_nonneg.mpr hq

theorem truncToInt_eq (q : ℚ) (t : Int) (h0 : 0 ≤ t) (h1 : (t : ℚ) ≤ q)
    (h2 : q < (t : ℚ) + 1) : truncToInt q = t := by
  have hq : 0 ≤ q := le_trans (by exact_mod_cast h0) h1
  rw [truncToInt_floor q hq, Int.floor_eq_iff]
  exact ⟨h1, h2⟩

/-- The byte that `amplify` returns when the truncated product is representable as an `int`. -/
theorem amplify_ok (c : byte) (ratio : ℚ) (hr : 0 ≤ ratio)
    (hfit : truncToInt (toDouble ((c.val : ℚ) * ratio)) ≤ 2147483647) :
    ColorAmplifier.amplify c ratio
      = .ok (toByte (min 255 (truncToInt (toDouble ((c.val : ℚ) * ratio))))) := by
  have hq : 0 ≤ (c.val : ℚ) * ratio := mul_nonneg (by positivity) hr
  have ht := truncToInt_nonneg _ (toDouble_nonneg _ hq)
  unfold ColorAmplifier.amplify doubleToInt BYTE_MAX
  rw [if_pos ⟨by omega, hfit⟩]
  simp only
  congr 2
  split <;> omega

/-- The number of the byte `toByte (min 255 t)` for `t ≥ 0`. -/
theorem toByte_min_val (t : Int) (ht : 0 ≤ t) : ((toByte (min 255 t)).val : Int) = min 255 t := by
  rw [toByte_val_int]
  omega

theorem amplify_one (v : byte) : ColorAmplifier.amplify v 1 = .ok v := by
  have h := v.isLt
  have e : toDouble ((v.val : ℚ) * 1) = (v.val : ℚ) := by
    rw [mul_one]
    exact toDouble_natCast _ (by omega)
  rw [amplify_ok v 1 (by norm_num) (by rw [e, truncToInt_natCast]; omega), e, truncToInt_natCast]
  congr 1
  apply Fin.ext
  unfold toByte
  simp only
  omega

theorem amplify_zero (v : byte) : ColorAmplifier.amplify v 0 = .ok 0 := by
  have e : toDouble ((v.val : ℚ) * 0) = ((0 : Nat) : ℚ) := by
    rw [mul_zero]
    simp [toDouble]
  rw [amplify_ok v 0 (by norm_num) (by rw [e, truncToInt_natCast]; omega), e, truncToInt_natCast]
  rfl

/-- The image that `ColorAmplifier::filter` returns when `amplifyPixel` returns `g pix` for
every pixel. -/
theorem amplifier_spec (self : ColorAmplifier) (g : RGBPixel → RGBPixel)
    (hg : ∀ pix, self.amplifyPixel pix = .ok (g pix)) (img : RGBImage) (W H : Nat)
    (hw : img.width = (W : Int)) (hh : img.height = (H : Int)) :
    ∃ r, self.filter img = .ok r
      ∧ r.width = (W : Int) ∧ r.height = (H : Int) ∧ r.image.length = W * H
      ∧ ∀ i j, i < W → j < H →
          r.image.getD (i * H + j) RGBPixel.default
            = g (img.image.getD (i * H + j) RGBPixel.default) := by
  unfold ColorAmplifier.filter RGBImage.getWidth RGBImage.getHeight
  simp only [hw, hh, create_ok, Int.toNat_natCast, hg]
  apply fill_image _ W H 0 0 W H (fun i j => i * H + j)
    (fun i j => g (img.image.getD (i * H + j) RGBPixel.default)) _ rfl rfl
    (by simp)
  · intro i j hi hj
    exact idx_lt W H i j hi hj
  · intro i j a b _ hj _ hb e
    exact idx_inj H i j a b hj hb e
  · intro i j hi hj d hdw hdh
    exact copy_pixel_ok img d g W H W H i j i j _ _ _ _ hw hh hdw hdh
      (by omega) (by omega) (by omega) (by omega) hi hj hi hj

/-- With the ratios of the three filters of `ColorSplitter`, `amplifyPixel` keeps one channel
and clears the other two. -/
theorem splitter_pixels (pix : RGBPixel) :
    (⟨1, 0, 0⟩ : ColorAmplifier).amplifyPixel pix = .ok { r := pix.r, g := 0, b := 0 }
      ∧ (⟨0, 1, 0⟩ : ColorAmplifier).amplifyPixel pix = .ok { r := 0, g := pix.g, b := 0 }
      ∧ (⟨0, 0, 1⟩ : ColorAmplifier).amplifyPixel pix = .ok { r := 0, g := 0, b := pix.b } := by
  simp only [ColorAmplifier.amplifyPixel, amplify_one, amplify_zero, and_self]

theorem amplifier_create (r g b : ℚ) (hr : 0 ≤ r) (hg : 0 ≤ g) (hb : 0 ≤ b) :
    ColorAmplifier.create r g b = .ok ⟨r, g, b⟩ := by
  unfold ColorAmplifier.create
  rw [if_neg]
  intro h
  rcases h with h | h | h
  · exact absurd hr (not_le.mpr h)
  · exact absurd hg (not_le.mpr h)
  · exact absurd hb (not_le.mpr h)

theorem splitter_create :
    ColorSplitter.create = .ok (⟨⟨1, 0, 0⟩, ⟨0, 1, 0⟩, ⟨0, 0, 1⟩⟩ : ColorSplitter) := by
  unfold ColorSplitter.create
  rw [amplifier_create 1 0 0 (by norm_num) (by norm_num) (by norm_num),
    amplifier_create 0 1 0 (by norm_num) (by norm_num) (by norm_num),
    amplifier_create 0 0 1 (by norm_num) (by norm_num) (by norm_num)]

theorem WF_of_dims (r : RGBImage) (W H : Nat) (hw : r.width = (W : Int))
    (hh : r.height = (H : Int)) (hl : r.image.length = W * H) : r.WF := by
  refine ⟨by omega, by omega, ?_⟩
  rw [hl, hw, hh, ← Nat.cast_mul, Int.toNat_natCast]

theorem getRGB_buffer (r : RGBImage) (W H x y : Nat) (hw : r.width = (W : Int))
    (hh : r.height = (H : Int)) (hx : x < W) (hy : y < H) :
    r.getRGB (x : Int) (y : Int) = .ok (r.image.getD (x * H + y) RGBPixel.default) := by
  rw [getRGB_ok r _ _ (by omega) (by rw [hw]; exact_mod_cast hx) (by omega)
    (by rw [hh]; exact_mod_cast hy), hh, toNat_idx]

/-- C16: for every image (non-negative dimensions, buffer of `width*height` pixels),
`ColorSplitter.separate` returns exactly 3 images with the width and height of the source such
that at every `(x,y)` with source pixel `(r,g,b)` the first holds `(r,0,0)`, the second
`(0,g,0)` and the third `(0,0,b)`. -/
theorem C16_color_splitter (img : RGBImage) (hwf : img.WF) :
    ∃ sp, ColorSplitter.create = .ok sp ∧ ∃ red green blue,
      sp.separate img = .ok [red, green, blue]
      ∧ red.width = img.width ∧ red.height = img.height
      ∧ green.width = img.width ∧ green.height = img.height
      ∧ blue.width = img.width ∧ blue.height = img.height
      ∧ ∀ x y, 0 ≤ x → x < img.width → 0 ≤ y → y < img.height →
          ∃ pix, img.getRGB x y = .ok pix
            ∧ red.getRGB x y = .ok { r := pix.r, g := 0, b := 0 }
            ∧ green.getRGB x y = .ok { r := 0, g := pix.g, b := 0 }
            ∧ blue.getRGB x y = .ok { r := 0, g := 0, b := pix.b } := by
  obtain ⟨hW, hH, _⟩ := hwf
  generalize hwe : img.width = W at *
  generalize hhe : img.height = H at *
  lift W to Nat using hW with Wn
  lift H to Nat using hH with Hn
  obtain ⟨a, ha, haw, hah, hal, hap⟩ := amplifier_spec ⟨1, 0, 0⟩ _
    (fun pix => (splitter_pixels pix).1) img Wn Hn hwe hhe
  obtain ⟨b, hb, hbw, hbh, hbl, hbp⟩ := amplifier_spec ⟨0, 1, 0⟩ _
    (fun pix => (splitter_pixels pix).2.1) img Wn Hn hwe hhe
  obtain ⟨c, hc, hcw, hch, hcl, hcp⟩ := amplifier_spec ⟨0, 0, 1⟩ _
    (fun pix => (splitter_pixels pix).2.2) img Wn Hn hwe hhe
  refine ⟨_, splitter_create, a, b, c, ?_, haw, hah, hbw, hbh, hcw, hch, ?_⟩
  · unfold ColorSplitter.separate
    dsimp only
    simp only [ha, hb, hc]
    rw [initializeTo_of_WF a (WF_of_dims a Wn Hn haw hah hal),
      initializeTo_of_WF b (WF_of_dims b Wn Hn hbw hbh hbl),
      initializeTo_of_WF c (WF_of_dims c Wn Hn hcw hch hcl)]
  · intro x y hx0 hx hy0 hy
    lift x to Nat using hx0 with xn
    lift y to Nat using hy0 with yn
    have hxn : xn < Wn := by exact_mod_cast hx
    have hyn : yn < Hn := by exact_mod_cast hy
    refine ⟨_, getRGB_buffer img Wn Hn xn yn hwe hhe hxn hyn, ?_, ?_, ?_⟩
    · rw [getRGB_buffer a Wn Hn xn yn haw hah hxn hyn, hap xn yn hxn hyn]
    · rw [getRGB_buffer b Wn Hn xn yn hbw hbh hxn hyn, hbp xn yn hxn hyn]
    · rw [getRGB_buffer c Wn Hn xn yn hcw hch hxn hyn, hcp xn yn hxn hyn]

/-- Witness of C16: the splitter on `sampleImage`. -/
theorem C16_color_splitter_witness :
    ∃ sp, ColorSplitter.create = .ok sp ∧ ∃ red green blue,
      sp.separate sampleImage = .ok [red, green, blue]
      ∧ red.width = sampleImage.width ∧ red.height = sampleImage.height
      ∧ green.width = sampleImage.width ∧ green.height = sampleImage.height
      ∧ blue.width = sampleImage.width ∧ blue.height = sampleImage.height
      ∧ ∀ x y, 0 ≤ x → x < sampleImage.width → 0 ≤ y → y < sampleImage.height →
          ∃ pix, sampleImage.getRGB x y = .ok pix
            ∧ red.getRGB x y = .ok { r := pix.r, g := 0, b := 0 }
            ∧ green.getRGB x y = .ok { r := 0, g := pix.g, b := 0 }
            ∧ blue.getRGB x y = .ok { r := 0, g := 0, b := pix.b } :=
  C16_color_splitter sampleImage (by decide)

/-! ### Slicing -/

/-- C19 fails on the code: on the black 300×300 image `ImageSlicer(3,3).separate` crops, for
`r = 0` and `c = 0`, the block from `(0,0)` to `(100,100)`, a 100×100 image, and assigns it to
slot `0*3 + 0` of a vector of nine default-constructed images, whose pointers `image` were never
initialised: the destructor call of `operator=` is undefined behaviour, and no nine slices are
returned. -/
theorem C19_first_slice_assignment_undefined :
    ∃ slice, ImageCropper.filter { x1 := 0, y1 := 0, x2 := 100, y2 := 100 } blackImage300
        = .ok slice
      ∧ slice.width = 100 ∧ slice.height = 100
      ∧ vectorAssignDefault (List.replicate 9 RGBImage.empty) (0 * 3 + 0) slice
          = .error .Undefined := by
  obtain ⟨r, hr, hw, hh, _, _⟩ := crop_spec blackImage300 300 300 0 0 100 100 rfl rfl
    (by omega) (by omega) 100 100 (by norm_num) (by norm_num)
  simp only [Nat.cast_ofNat, Nat.cast_zero] at hr hw hh
  refine ⟨r, hr, hw, hh, ?_⟩
  have hne : RGBImage.empty.notEquals r = true := by
    unfold RGBImage.notEquals RGBImage.equals
    rw [if_pos]
    · rfl
    · intro h
      have h1 : RGBImage.empty.width = r.width := h.1
      rw [hw] at h1
      exact absurd h1 (by decide)
  unfold vectorAssignDefault RGBImage.assignToDefault
  rw [if_pos (by decide), if_pos hne]

/-- C17 fails on the code: on the 2×2 image `fourPixelImage`, `ImageSlicer(2,1).separate`
(2 rows, 1 column) does not return two slices of width 2 and height 1 but throws the bounds
exception of `getRGB(2,0)`: the row index is multiplied by the column width. -/
theorem C17_slicer_two_rows_throws :
    ImageSlicer.separate { rows := 2, columns := 1 } fourPixelImage
      = .error (.IndexOutOfBoundsException "Bounds error: (2,0), width: 2 height: 2") := by
  rfl

/-- C18 fails on the code: on the 2×2 image `fourPixelImage`, `ImageSlicer(2,2).separate`
returns four 1×1 slices, and the slice at index `0*2 + 1` (row 0, column 1) holds the source
pixel `(0,1)`, not the source pixel `(1,0)` of the region `x ∈ [1,2)`, `y ∈ [0,1)`. -/
theorem C18_slicer_order_transposed :
    ∃ r, ImageSlicer.separate { rows := 2, columns := 2 } fourPixelImage = .ok r
      ∧ r.length = 4
      ∧ (r.getD 1 RGBImage.empty).getRGB 0 0 = fourPixelImage.getRGB 0 1
      ∧ (r.getD 1 RGBImage.empty).getRGB 0 0 ≠ fourPixelImage.getRGB 1 0 := by
  refine ⟨[⟨[⟨1, 1, 1⟩], 1, 1⟩, ⟨[⟨2, 2, 2⟩], 1, 1⟩, ⟨[⟨3, 3, 3⟩], 1, 1⟩, ⟨[⟨4, 4, 4⟩], 1, 1⟩],
    rfl, rfl, rfl, ?_⟩
  intro h
  have h2 : (⟨2, 2, 2⟩ : RGBPixel) = ⟨3, 3, 3⟩ := Except.ok.inj h
  exact absurd h2 (by decide)

/-- C20 fails on the code: on the 2×2 image `fourPixelImage`, with 1 row (1 divides the
height) and 2 columns (2 divides the width), `ImageSlicer(1,2).separate` returns no slices
at all but throws the bounds exception of `getRGB(0,2)`: the column index is multiplied by the
row height. -/
theorem C20_slicer_two_columns_throws :
    ImageSlicer.separate { rows := 1, columns := 2 } fourPixelImage
      = .error (.IndexOutOfBoundsException "Bounds error: (0,2), width: 2 height: 2") := by
  rfl

/-! ### Claim on cropping -/

/-- C21: on a `W×H` image, for corners with `0 ≤ x1 ≤ x2 ≤ W` and `0 ≤ y1 ≤ y2 ≤ H`, the
filter of `ImageCropper(x1, y1, x2, y2)` returns an image of exactly `(x2-x1)×(y2-y1)` (with a
buffer of that many pixels) whose pixel `(x-x1, y-y1)` is the source pixel `(x,y)` for every
`x` in `[x1,x2)` and `y` in `[y1,y2)`. -/
theorem C21_crop (img : RGBImage) (x1 y1 x2 y2 : Int) (hx1 : 0 ≤ x1) (hx12 : x1 ≤ x2)
    (hx2 : x2 ≤ img.width) (hy1 : 0 ≤ y1) (hy12 : y1 ≤ y2) (hy2 : y2 ≤ img.height) :
    ∃ r, ImageCropper.filter { x1 := x1, y1 := y1, x2 := x2, y2 := y2 } img = .ok r
      ∧ r.width = x2 - x1 ∧ r.height = y2 - y1 ∧ r.WF
      ∧ ∀ x y, x1 ≤ x → x < x2 → y1 ≤ y → y < y2 →
          ∃ pix, img.getRGB x y = .ok pix ∧ r.getRGB (x - x1) (y - y1) = .ok pix := by
  have hW : 0 ≤ img.width := by omega
  have hH : 0 ≤ img.height := by omega
  generalize hwe : img.width = W at *
  generalize hhe : img.height = H at *
  lift W to Nat using hW with Wn
  lift H to Nat using hH with Hn
  lift x1 to Nat using hx1 with a
  lift y1 to Nat using hy1 with b
  obtain ⟨wn, rfl⟩ : ∃ wn : Nat, x2 = (a : Int) + (wn : Int) := ⟨(x2 - a).toNat, by omega⟩
  obtain ⟨hn, rfl⟩ : ∃ hn : Nat, y2 = (b : Int) + (hn : Int) := ⟨(y2 - b).toNat, by omega⟩
  obtain ⟨r, hr, rw1, rh1, rl1, rp⟩ := crop_spec img Wn Hn a b wn hn hwe hhe
    (by exact_mod_cast hx2) (by exact_mod_cast hy2) _ _ rfl rfl
  refine ⟨r, hr, by rw [rw1]; omega, by rw [rh1]; omega, WF_of_dims r wn hn rw1 rh1 rl1, ?_⟩
  intro x y hxa hxb hya hyb
  obtain ⟨i, rfl⟩ : ∃ i : Nat, x = (a : Int) + (i : Int) := ⟨(x - a).toNat, by omega⟩
  obtain ⟨j, rfl⟩ : ∃ j : Nat, y = (b : Int) + (j : Int) := ⟨(y - b).toNat, by omega⟩
  have hi : i < wn := by omega
  have hj : j < hn := by omega
  have hiW : a + i < Wn := by
    have : a + wn ≤ Wn := by exact_mod_cast hx2
    omega
  have hjH : b + j < Hn := by
    have : b + hn ≤ Hn := by exact_mod_cast hy2
    omega
  have e1 : (a : Int) + (i : Int) - (a : Int) = (i : Int) := by omega
  have e2 : (b : Int) + (j : Int) - (b : Int) = (j : Int) := by omega
  have e3 : (a : Int) + (i : Int) = ((a + i : Nat) : Int) := by push_cast; rfl
  have e4 : (b : Int) + (j : Int) = ((b + j : Nat) : Int) := by push_cast; rfl
  rw [e1, e2, e3, e4]
  refine ⟨_, getRGB_buffer img Wn Hn (a + i) (b + j) hwe hhe hiW hjH, ?_⟩
  rw [getRGB_buffer r wn hn i j rw1 rh1 hi hj, rp i j hi hj]

/-- Witness of C21: the crop of `sampleImage` to its right column. -/
theorem C21_crop_witness :
    ∃ r, ImageCropper.filter { x1 := 2, y1 := 0, x2 := 3, y2 := 2 } sampleImage = .ok r
      ∧ r.width = 1 ∧ r.height = 2 ∧ r.getRGB 0 1 = .ok ⟨16, 17, 18⟩ := by
  obtain ⟨r, h1, h2, h3, _, h5⟩ := C21_crop sampleImage 2 0 3 2 (by decide) (by decide)
    (by decide) (by decide) (by decide) (by decide)
  obtain ⟨pix, hp, hs⟩ := h5 2 1 (by decide) (by decide) (by decide) (by decide)
  have e : sampleImage.getRGB 2 1 = .ok ⟨16, 17, 18⟩ := rfl
  rw [e] at hp
  have e2 : pix = ⟨16, 17, 18⟩ := (Except.ok.inj hp).symm
  rw [e2] at hs
  exact ⟨r, h1, h2, h3, hs⟩

/-! ### Crops that leave the source -/

/-- The number of quarter turns that the constructor stores is the remainder of the floored
division by 4. -/
theorem rotate_eq_emod (k : Int) : (ImageRotator.create k).rotate = k % 4 := by
  unfold ImageRotator.create
  by_cases hk : 0 ≤ k
  · have h : k.tmod 4 = k % 4 := Int.tmod_eq_emod hk (by decide)
    simp only [h]
    rw [if_neg (by omega)]
  · have h : k.tmod 4 = -((-k) % 4) := tmod_of_neg k 4 (by omega) (by decide)
    simp only [h]
    split
    · simp only
      omega
    · simp only
      omega

theorem rotate_normal_form (k : Int) :
    (ImageRotator.create k).rotate = ((k.tmod 4) + 4).tmod 4 := by
  rw [rotate_eq_emod]
  by_cases hk : 0 ≤ k
  · have h : k.tmod 4 = k % 4 := Int.tmod_eq_emod hk (by decide)
    rw [h, Int.tmod_eq_emod (by omega) (by decide)]
    omega
  · have h : k.tmod 4 = -((-k) % 4) := tmod_of_neg k 4 (by omega) (by decide)
    rw [h, Int.tmod_eq_emod (by omega) (by decide)]
    omega

theorem rotator_ext (a b : ImageRotator) (h : a.rotate = b.rotate) : a = b := by
  cases a
  cases b
  simp only at h
  rw [h]

theorem get_rotated_ok (self : ImageRotator) (h0 : 0 ≤ self.rotate) (h3 : self.rotate ≤ 3)
    (x y width height : Int) :
    (∃ v, self.get_rotated_x x y width height = .ok v)
      ∧ ∃ v, self.get_rotated_y x y width height = .ok v := by
  have h : self.rotate = 0 ∨ self.rotate = 1 ∨ self.rotate = 2 ∨ self.rotate = 3 := by omega
  unfold ImageRotator.get_rotated_x ImageRotator.get_rotated_y
  rcases h with h | h | h | h <;> simp [h]

/-- C24: for every integer `k` the number of quarter turns stored by `ImageRotator(k)` is
`((k % 4) + 4) % 4` with the truncating `%` of C++ and lies in `{0,1,2,3}`; `ImageRotator(k+4)`
is the same filter as `ImageRotator(k)`; and the `default` branch of the two coordinate
switches is never taken. -/
theorem C24_rotation_count (k : Int) :
    (ImageRotator.create k).rotate = ((k.tmod 4) + 4).tmod 4
      ∧ 0 ≤ (ImageRotator.create k).rotate ∧ (ImageRotator.create k).rotate ≤ 3
      ∧ ImageRotator.create (k + 4) = ImageRotator.create k
      ∧ ∀ x y width height : Int,
          (∃ v, (ImageRotator.create k).get_rotated_x x y width height = .ok v)
            ∧ ∃ v, (ImageRotator.create k).get_rotated_y x y width height = .ok v := by
  have hr := rotate_eq_emod k
  refine ⟨rotate_normal_form k, by omega, by omega, ?_, ?_⟩
  · apply rotator_ext
    rw [rotate_eq_emod, rotate_eq_emod]
    omega
  · intro x y width height
    exact get_rotated_ok _ (by omega) (by omega) x y width height

/-! ### The four rotations -/

/-- The loops of `ImageRotator::filter`, for coordinate functions `fx`, `fy` that stay inside
the rotated image and send different source pixels to different places. -/
theorem rotator_fill (self : ImageRotator) (img : RGBImage) (W H W2 H2 : Nat)
    (fx fy : Nat → Nat → Nat) (hw : img.width = (W : Int)) (hh : img.height = (H : Int))
    (hgw : self.get_rotated_width (W : Int) (H : Int) = (W2 : Int))
    (hgh : self.get_rotated_height (W : Int) (H : Int) = (H2 : Int))
    (hfx : ∀ x y, x < W → y < H →
      self.get_rotated_x (x : Int) (y : Int) (W : Int) (H : Int) = .ok (fx x y : Int))
    (hfy : ∀ x y, x < W → y < H →
      self.get_rotated_y (x : Int) (y : Int) (W : Int) (H : Int) = .ok (fy x y : Int))
    (hbx : ∀ x y, x < W → y < H → fx x y < W2) (hby : ∀ x y, x < W → y < H → fy x y < H2)
    (hinj : ∀ x y a b, x < W → y < H → a < W → b < H → fx x y = fx a b → fy x y = fy a b →
      x = a ∧ y = b) :
    ∃ r, self.filter img = .ok r
      ∧ r.width = (W2 : Int) ∧ r.height = (H2 : Int) ∧ r.image.length = W2 * H2
      ∧ ∀ x y, x < W → y < H →
          r.image.getD (fx x y * H2 + fy x y) RGBPixel.default
            = img.image.getD (x * H + y) RGBPixel.default := by
  unfold ImageRotator.filter RGBImage.getWidth RGBImage.getHeight
  simp only [hw, hh, hgw, hgh, create_ok, Int.toNat_natCast]
  apply fill_image _ W H 0 0 W2 H2 (fun i j => fx i j * H2 + fy i j)
    (fun i j => img.image.getD (i * H + j) RGBPixel.default) _ rfl rfl (by simp)
  · intro i j hi hj
    exact idx_lt W2 H2 _ _ (hbx i j hi hj) (hby i j hi hj)
  · intro i j a b hi hj ha hb e
    obtain ⟨e1, e2⟩ := idx_inj H2 _ _ _ _ (hby i j hi hj) (hby a b ha hb) e
    exact hinj i j a b hi hj ha hb e1 e2
  · intro i j hi hj d hdw hdh
    simp only [zero_add, hfx i j hi hj, hfy i j hi hj]
    exact copy_pixel_ok img d id W2 H2 W H i j (fx i j) (fy i j) _ _ _ _ hw hh hdw hdh
      rfl rfl rfl rfl hi hj (hbx i j hi hj) (hby i j hi hj)

theorem rot0_spec (self : ImageRotator) (h : self.rotate = 0) (img : RGBImage) (W H : Nat)
    (hw : img.width = (W : Int)) (hh : img.height = (H : Int)) :
    ∃ r, self.filter img = .ok r
      ∧ r.width = (W : Int) ∧ r.height = (H : Int) ∧ r.image.length = W * H
      ∧ ∀ x y, x < W → y < H →
          r.image.getD (x * H + y) RGBPixel.default
            = img.image.getD (x * H + y) RGBPixel.default := by
  apply rotator_fill self img W H W H (fun x _ => x) (fun _ y => y) hw hh
  · simp [ImageRotator.get_rotated_width, h]
  · simp [ImageRotator.get_rotated_height, h]
  · intro x y _ _
    simp [ImageRotator.get_rotated_x, h]
  · intro x y _ _
    simp [ImageRotator.get_rotated_y, h]
  · intro x y hx _
    exact hx
  · intro x y _ hy
    exact hy
  · intro x y a b _ _ _ _ e1 e2
    exact ⟨e1, e2⟩

theorem rot1_spec (self : ImageRotator) (h : self.rotate = 1) (img : RGBImage) (W H : Nat)
    (hw : img.width = (W : Int)) (hh : img.height = (H : Int)) :
    ∃ r, self.filter img = .ok r
      ∧ r.width = (H : Int) ∧ r.height = (W : Int) ∧ r.image.length = H * W
      ∧ ∀ x y, x < W → y < H →
          r.image.getD ((H - 1 - y) * W + x) RGBPixel.default
            = img.image.getD (x * H + y) RGBPixel.default := by
  apply rotator_fill self img W H H W (fun _ y => H - 1 - y) (fun x _ => x) hw hh
  · have t : (1 : Int).tmod 2 = 1 := rfl
    simp [ImageRotator.get_rotated_width, h, t]
  · have t : (1 : Int).tmod 2 = 1 := rfl
    simp [ImageRotator.get_rotated_height, h, t]
  · intro x y _ hy
    simp only [ImageRotator.get_rotated_x, h]
    simp only [one_ne_zero, if_false, if_true]
    congr 1
    omega
  · intro x y _ _
    simp [ImageRotator.get_rotated_y, h]
  · intro x y _ hy
    omega
  · intro x y hx _
    exact hx
  · intro x y a b _ _ _ _ e1 e2
    omega

theorem rot2_spec (self : ImageRotator) (h : self.rotate = 2) (img : RGBImage) (W H : Nat)
    (hw : img.width = (W : Int)) (hh : img.height = (H : Int)) :
    ∃ r, self.filter img = .ok r
      ∧ r.width = (W : Int) ∧ r.height = (H : Int) ∧ r.image.length = W * H
      ∧ ∀ x y, x < W → y < H →
          r.image.getD ((W - 1 - x) * H + (H - 1 - y)) RGBPixel.default
            = img.image.getD (x * H + y) RGBPixel.default := by
  apply rotator_fill self img W H W H (fun x _ => W - 1 - x) (fun _ y => H - 1 - y) hw hh
  · simp [ImageRotator.get_rotated_width, h]
  · simp [ImageRotator.get_rotated_height, h]
  · intro x y hx _
    simp only [ImageRotator.get_rotated_x, h]
    simp only [OfNat.ofNat_ne_zero, OfNat.ofNat_ne_one, if_false, if_true]
    congr 1
    omega
  · intro x y _ hy
    simp only [ImageRotator.get_rotated_y, h]
    simp only [OfNat.ofNat_ne_zero, OfNat.ofNat_ne_one, if_false, if_true]
    congr 1
    omega
  · intro x y hx _
    omega
  · intro x y _ hy
    omega
  · intro x y a b _ _ _ _ e1 e2
    omega

theorem rot3_spec (self : ImageRotator) (h : self.rotate = 3) (img : RGBImage) (W H : Nat)
    (hw : img.width = (W : Int)) (hh : img.height = (H : Int)) :
    ∃ r, self.filter img = .ok r
      ∧ r.width = (H : Int) ∧ r.height = (W : Int) ∧ r.image.length = H * W
      ∧ ∀ x y, x < W → y < H →
          r.image.getD (y * W + (W - 1 - x)) RGBPixel.default
            = img.image.getD (x * H + y) RGBPixel.default := by
  apply rotator_fill self img W H H W (fun _ y => y) (fun x _ => W - 1 - x) hw hh
  · have t : (3 : Int).tmod 2 = 1 := rfl
    simp [ImageRotator.get_rotated_width, h, t]
  · have t : (3 : Int).tmod 2 = 1 := rfl
    simp [ImageRotator.get_rotated_height, h, t]
  · intro x y _ _
    simp [ImageRotator.get_rotated_x, h]
  · intro x y hx _
    simp only [ImageRotator.get_rotated_y, h]
    have e0 : ¬ ((3 : Int) = 0) := by decide
    have e1 : ¬ ((3 : Int) = 1) := by decide
    have e2 : ¬ ((3 : Int) = 2) := by decide
    simp only [e0, e1, e2, if_false, if_true]
    congr 1
    omega
  · intro x y _ hy
    exact hy
  · intro x y hx _
    omega
  · intro x y a b _ _ _ _ e1 e2
    omega

/-! ### Claims on the size and the direction of a rotation -/

/-- C25: for every image of size `W×H` (non-negative dimensions) and every integer `k`, the
filter of `ImageRotator(k)` succeeds (so no write leaves the bounds of the output, which
`setRGB` checks) and returns an `H×W` image when `k` is odd and a `W×H` image when `k` is
even, with a buffer of that many pixels. -/
theorem C25_rotated_size (img : RGBImage) (hwf : img.WF) (k : Int) :
    ∃ r, (ImageRotator.create k).filter img = .ok r ∧ r.WF
      ∧ (Odd k → r.width = img.height ∧ r.height = img.width)
      ∧ (Even k → r.width = img.width ∧ r.height = img.height) := by
  obtain ⟨hW, hH, _⟩ := hwf
  generalize hwe : img.width = W at *
  generalize hhe : img.height = H at *
  lift W to Nat using hW with Wn
  lift H to Nat using hH with Hn
  have hr := rotate_eq_emod k
  have hc : (ImageRotator.create k).rotate = 0 ∨ (ImageRotator.create k).rotate = 1
      ∨ (ImageRotator.create k).rotate = 2 ∨ (ImageRotator.create k).rotate = 3 := by omega
  rw [Int.odd_iff, Int.even_iff]
  rcases hc with h | h | h | h
  · obtain ⟨r, h1, h2, h3, h4, _⟩ := rot0_spec _ h img Wn Hn hwe hhe
    exact ⟨r, h1, WF_of_dims r Wn Hn h2 h3 h4, fun ho => by omega, fun _ => ⟨h2, h3⟩⟩
  · obtain ⟨r, h1, h2, h3, h4, _⟩ := rot1_spec _ h img Wn Hn hwe hhe
    exact ⟨r, h1, WF_of_dims r Hn Wn h2 h3 h4, fun _ => ⟨h2, h3⟩, fun he => by omega⟩
  · obtain ⟨r, h1, h2, h3, h4, _⟩ := rot2_spec _ h img Wn Hn hwe hhe
    exact ⟨r, h1, WF_of_dims r Wn Hn h2 h3 h4, fun ho => by omega, fun _ => ⟨h2, h3⟩⟩
  · obtain ⟨r, h1, h2, h3, h4, _⟩ := rot3_spec _ h img Wn Hn hwe hhe
    exact ⟨r, h1, WF_of_dims r Hn Wn h2 h3 h4, fun _ => ⟨h2, h3⟩, fun he => by omega⟩

/-- Witness of C25: three quarter turns backwards of the 3×2 image `sampleImage`. -/
theorem C25_rotated_size_witness :
    ∃ r, (ImageRotator.create (-3)).filter sampleImage = .ok r ∧ r.WF
      ∧ (Odd (-3 : Int) → r.width = sampleImage.height ∧ r.height = sampleImage.width)
      ∧ (Even (-3 : Int) → r.width = sampleImage.width ∧ r.height = sampleImage.height) :=
  C25_rotated_size sampleImage (by decide) (-3)

/-- C23 fails on the code: `ImageRotator(1)` turns the 3×2 image `sampleImage` into a 2×3 image
in which the source pixel `(0,0)` lies at `(H-1-0, 0) = (1,0)`, the top right corner, and not
at `(0, W-1-0) = (0,2)`, the bottom left corner: with the origin at the top left the turn is
clockwise. -/
theorem C23_quarter_turn_is_clockwise :
    ∃ r, (ImageRotator.create 1).filter sampleImage = .ok r
      ∧ r.width = 2 ∧ r.height = 3
      ∧ r.getRGB 1 0 = sampleImage.getRGB 0 0
      ∧ r.getRGB 0 2 ≠ sampleImage.getRGB 0 0 := by
  refine ⟨⟨[⟨4, 5, 6⟩, ⟨10, 11, 12⟩, ⟨16, 17, 18⟩, ⟨1, 2, 3⟩, ⟨7, 8, 9⟩, ⟨13, 14, 15⟩], 2, 3⟩,
    rfl, rfl, rfl, rfl, ?_⟩
  intro h
  have h2 : (⟨16, 17, 18⟩ : RGBPixel) = ⟨1, 2, 3⟩ := Except.ok.inj h
  exact absurd h2 (by decide)

/-! ### Four quarter turns -/

/-- Two images of the same size with the same pixel at every coordinate are the same. -/
theorem image_ext (A B : RGBImage) (W H : Nat) (hAw : A.width = (W : Int))
    (hAh : A.height = (H : Int)) (hAl : A.image.length = W * H) (hBw : B.width = (W : Int))
    (hBh : B.height = (H : Int)) (hBl : B.image.length = W * H)
    (h : ∀ x y, x < W → y < H →
      A.image.getD (x * H + y) RGBPixel.default = B.image.getD (x * H + y) RGBPixel.default) :
    A = B := by
  cases A with
  | mk ia wa ha =>
    cases B with
    | mk ib wb hb =>
      simp only at hAw hAh hAl hBw hBh hBl h
      subst hAw hAh hBw hBh
      simp only [RGBImage.mk.injEq, and_true]
      apply list_eq_of_getD _ _ (by rw [hAl, hBl])
      intro k hk
      obtain ⟨x, y, hx, hy, rfl⟩ := idx_decompose W H k (by rw [← hAl]; exact hk)
      exact h x y hx hy

theorem WF_length (A : RGBImage) (W H : Nat) (hwf : A.WF) (hw : A.width = (W : Int))
    (hh : A.height = (H : Int)) : A.image.length = W * H := by
  obtain ⟨_, _, hl⟩ := hwf
  rw [hl, hw, hh, ← Nat.cast_mul, Int.toNat_natCast]

theorem rot0_id (self : ImageRotator) (h : self.rotate = 0) (A : RGBImage) (hwf : A.WF) :
    self.filter A = .ok A := by
  obtain ⟨hW, hH, _⟩ := id hwf
  generalize hwe : A.width = W at *
  generalize hhe : A.height = H at *
  lift W to Nat using hW with Wn
  lift H to Nat using hH with Hn
  obtain ⟨r, e1, w1, h1, l1, p1⟩ := rot0_spec self h A Wn Hn hwe hhe
  rw [e1, image_ext r A Wn Hn w1 h1 l1 hwe hhe (WF_length A Wn Hn hwf hwe hhe) p1]

theorem rot2_twice (self : ImageRotator) (h : self.rotate = 2) (A : RGBImage) (hwf : A.WF) :
    ∃ r1, self.filter A = .ok r1 ∧ r1.WF ∧ self.filter r1 = .ok A := by
  obtain ⟨hW, hH, _⟩ := id hwf
  generalize hwe : A.width = W at *
  generalize hhe : A.height = H at *
  lift W to Nat using hW with Wn
  lift H to Nat using hH with Hn
  obtain ⟨r1, e1, w1, h1, l1, p1⟩ := rot2_spec self h A Wn Hn hwe hhe
  obtain ⟨r2, e2, w2, h2, l2, p2⟩ := rot2_spec self h r1 Wn Hn w1 h1
  refine ⟨r1, e1, WF_of_dims r1 Wn Hn w1 h1 l1, ?_⟩
  rw [e2, image_ext r2 A Wn Hn w2 h2 l2 hwe hhe (WF_length A Wn Hn hwf hwe hhe)]
  intro x y hx hy
  have q2 := p2 (Wn - 1 - x) (Hn - 1 - y) (by omega) (by omega)
  have ex : Wn - 1 - (Wn - 1 - x) = x := by omega
  have ey : Hn - 1 - (Hn - 1 - y) = y := by omega
  rw [ex, ey] at q2
  rw [q2, p1 x y hx hy]

theorem rot1_four (self : ImageRotator) (h : self.rotate = 1) (A : RGBImage) (hwf : A.WF) :
    ∃ r1 r2 r3, self.filter A = .ok r1 ∧ self.filter r1 = .ok r2 ∧ self.filter r2 = .ok r3
      ∧ self.filter r3 = .ok A := by
  obtain ⟨hW, hH, _⟩ := id hwf
  generalize hwe : A.width = W at *
  generalize hhe : A.height = H at *
  lift W to Nat using hW with Wn
  lift H to Nat using hH with Hn
  obtain ⟨r1, e1, w1, h1, l1, p1⟩ := rot1_spec self h A Wn Hn hwe hhe
  obtain ⟨r2, e2, w2, h2, l2, p2⟩ := rot1_spec self h r1 Hn Wn w1 h1
  obtain ⟨r3, e3, w3, h3, l3, p3⟩ := rot1_spec self h r2 Wn Hn w2 h2
  obtain ⟨r4, e4, w4, h4, l4, p4⟩ := rot1_spec self h r3 Hn Wn w3 h3
  refine ⟨r1, r2, r3, e1, e2, e3, ?_⟩
  rw [e4, image_ext r4 A Wn Hn w4 h4 l4 hwe hhe (WF_length A Wn Hn hwf hwe hhe)]
  intro x y hx hy
  have q4 := p4 y (Wn - 1 - x) hy (by omega)
  have q3 := p3 (Wn - 1 - x) (Hn - 1 - y) (by omega) (by omega)
  have q2 := p2 (Hn - 1 - y) x (by omega) hx
  have ex : Wn - 1 - (Wn - 1 - x) = x := by omega
  have ey : Hn - 1 - (Hn - 1 - y) = y := by omega
  rw [ex] at q4
  rw [ey] at q3
  rw [q4, q3, q2, p1 x y hx hy]

theorem rot3_four (self : ImageRotator) (h : self.rotate = 3) (A : RGBImage) (hwf : A.WF) :
    ∃ r1 r2 r3, self.filter A = .ok r1 ∧ self.filter r1 = .ok r2 ∧ self.filter r2 = .ok r3
      ∧ self.filter r3 = .ok A := by
  obtain ⟨hW, hH, _⟩ := id hwf
  generalize hwe : A.width = W at *
  generalize hhe : A.height = H at *
  lift W to Nat using hW with Wn
  lift H to Nat using hH with Hn
  obtain ⟨r1, e1, w1, h1, l1, p1⟩ := rot3_spec self h A Wn Hn hwe hhe
  obtain ⟨r2, e2, w2, h2, l2, p2⟩ := rot3_spec self h r1 Hn Wn w1 h1
  obtain ⟨r3, e3, w3, h3, l3, p3⟩ := rot3_spec self h r2 Wn Hn w2 h2
  obtain ⟨r4, e4, w4, h4, l4, p4⟩ := rot3_spec self h r3 Hn Wn w3 h3
  refine ⟨r1, r2, r3, e1, e2, e3, ?_⟩
  rw [e4, image_ext r4 A Wn Hn w4 h4 l4 hwe hhe (WF_length A Wn Hn hwf hwe hhe)]
  intro x y hx hy
  have q4 := p4 (Hn - 1 - y) x (by omega) hx
  have q3 := p3 (Wn - 1 - x) (Hn - 1 - y) (by omega) (by omega)
  have q2 := p2 y (Wn - 1 - x) hy (by omega)
  have ex : Wn - 1 - (Wn - 1 - x) = x := by omega
  have ey : Hn - 1 - (Hn - 1 - y) = y := by omega
  rw [ey] at q4
  rw [ex] at q3
  rw [q4, q3, q2, p1 x y hx hy]

/-- Four applications of a rotator with a number of quarter turns in `{0,1,2,3}` give back
the image. -/
theorem rotate_four (self : ImageRotator) (h0 : 0 ≤ self.rotate) (h3 : self.rotate ≤ 3)
    (A : RGBImage) (hwf : A.WF) :
    ∃ r1 r2 r3, self.filter A = .ok r1 ∧ self.filter r1 = .ok r2 ∧ self.filter r2 = .ok r3
      ∧ self.filter r3 = .ok A := by
  have hc : self.rotate = 0 ∨ self.rotate = 1 ∨ self.rotate = 2 ∨ self.rotate = 3 := by omega
  rcases hc with h | h | h | h
  · have e := rot0_id self h A hwf
    exact ⟨A, A, A, e, e, e, e⟩
  · exact rot1_four self h A hwf
  · obtain ⟨r1, e1, _, e2⟩ := rot2_twice self h A hwf
    exact ⟨r1, A, r1, e1, e2, e1, e2⟩
  · exact rot3_four self h A hwf

/-- C26: for every image `A` (non-negative dimensions, buffer of `width*height` pixels) the
filters of `ImageRotator(0)` and `ImageRotator(4)` return an image equal to `A`, and for every
integer `k` four applications in succession of the filter of `ImageRotator(k)` return an
image equal to `A`. -/
theorem C26_rotation_identities (A : RGBImage) (hwf : A.WF) :
    (∃ r, (ImageRotator.create 0).filter A = .ok r ∧ r.equals A = true)
      ∧ (∃ r, (ImageRotator.create 4).filter A = .ok r ∧ r.equals A = true)
      ∧ ∀ k : Int, ∃ r1 r2 r3 r4, (ImageRotator.create k).filter A = .ok r1
          ∧ (ImageRotator.create k).filter r1 = .ok r2
          ∧ (ImageRotator.create k).filter r2 = .ok r3
          ∧ (ImageRotator.create k).filter r3 = .ok r4 ∧ r4.equals A = true := by
  refine ⟨⟨A, rot0_id _ rfl A hwf, equals_self A⟩, ⟨A, rot0_id _ rfl A hwf, equals_self A⟩, ?_⟩
  intro k
  have hr := rotate_eq_emod k
  obtain ⟨r1, r2, r3, e1, e2, e3, e4⟩ := rotate_four (ImageRotator.create k) (by omega)
    (by omega) A hwf
  exact ⟨r1, r2, r3, A, e1, e2, e3, e4, equals_self A⟩

/-- Witness of C26: the 3×2 image `sampleImage`. -/
theorem C26_rotation_identities_witness :
    (∃ r, (ImageRotator.create 0).filter sampleImage = .ok r ∧ r.equals sampleImage = true)
      ∧ (∃ r, (ImageRotator.create 4).filter sampleImage = .ok r ∧ r.equals sampleImage = true)
      ∧ ∀ k : Int, ∃ r1 r2 r3 r4, (ImageRotator.create k).filter sampleImage = .ok r1
          ∧ (ImageRotator.create k).filter r1 = .ok r2
          ∧ (ImageRotator.create k).filter r2 = .ok r3
          ∧ (ImageRotator.create k).filter r3 = .ok r4 ∧ r4.equals sampleImage = true :=
  C26_rotation_identities sampleImage (by decide)

/-! ### Colour inversion -/

theorem inverter_spec (img : RGBImage) (W H : Nat) (hw : img.width = (W : Int))
    (hh : img.height = (H : Int)) :
    ∃ r, ColorInverter.filter img = .ok r
      ∧ r.width = (W : Int) ∧ r.height = (H : Int) ∧ r.image.length = W * H
      ∧ ∀ i j, i < W → j < H →
          r.image.getD (i * H + j) RGBPixel.default
            = ColorInverter.invertPixel (img.image.getD (i * H + j) RGBPixel.default) := by
  unfold ColorInverter.filter RGBImage.getWidth RGBImage.getHeight
  simp only [hw, hh, create_ok, Int.toNat_natCast]
  apply fill_image _ W H 0 0 W H (fun i j => i * H + j)
    (fun i j => ColorInverter.invertPixel (img.image.getD (i * H + j) RGBPixel.default)) _
    rfl rfl (by simp)
  · intro i j hi hj
    exact idx_lt W H i j hi hj
  · intro i j a b _ hj _ hb e
    exact idx_inj H i j a b hj hb e
  · intro i j hi hj d hdw hdh
    exact copy_pixel_ok img d ColorInverter.invertPixel W H W H i j i j _ _ _ _ hw hh hdw hdh
      (by omega) (by omega) (by omega) (by omega) hi hj hi hj

theorem inverted_val (v : byte) : ((toByte (255 - (v.val : Int))).val : Int) = 255 - v.val := by
  have := v.isLt
  rw [toByte_val_int]
  omega

theorem invertPixel_twice (p : RGBPixel) :
    ColorInverter.invertPixel (ColorInverter.invertPixel p) = p := by
  cases p with
  | mk r g b =>
    simp only [ColorInverter.invertPixel, inverted_val, sub_sub_cancel, toByte_val]

/-- C29: for every image (non-negative dimensions), `ColorInverter::filter` returns an image
of the same width and height in which each channel of each pixel is 255 minus the channel of
the source pixel at the same coordinate. -/
theorem C29_inverter (img : RGBImage) (hwf : img.WF) :
    ∃ r, ColorInverter.filter img = .ok r ∧ r.width = img.width ∧ r.height = img.height
      ∧ r.WF
      ∧ ∀ x y, 0 ≤ x → x < img.width → 0 ≤ y → y < img.height →
          ∃ pix out, img.getRGB x y = .ok pix ∧ r.getRGB x y = .ok out
            ∧ (out.r.val : Int) = 255 - pix.r.val
            ∧ (out.g.val : Int) = 255 - pix.g.val
            ∧ (out.b.val : Int) = 255 - pix.b.val := by
  obtain ⟨hW, hH, _⟩ := hwf
  generalize hwe : img.width = W at *
  generalize hhe : img.height = H at *
  lift W to Nat using hW with Wn
  lift H to Nat using hH with Hn
  obtain ⟨r, hr, rw1, rh1, rl1, rp⟩ := inverter_spec img Wn Hn hwe hhe
  refine ⟨r, hr, rw1, rh1, WF_of_dims r Wn Hn rw1 rh1 rl1, ?_⟩
  intro x y hx0 hx hy0 hy
  lift x to Nat using hx0 with xn
  lift y to Nat using hy0 with yn
  have hxn : xn < Wn := by exact_mod_cast hx
  have hyn : yn < Hn := by exact_mod_cast hy
  refine ⟨_, _, getRGB_buffer img Wn Hn xn yn hwe hhe hxn hyn,
    getRGB_buffer r Wn Hn xn yn rw1 rh1 hxn hyn, ?_⟩
  rw [rp xn yn hxn hyn]
  exact ⟨inverted_val _, inverted_val _, inverted_val _⟩

/-- Witness of C29: the inverse of `sampleImage`. -/
theorem C29_inverter_witness :
    ∃ r, ColorInverter.filter sampleImage = .ok r ∧ r.width = 3 ∧ r.height = 2
      ∧ r.getRGB 2 1 = .ok ⟨239, 238, 237⟩ := by
  obtain ⟨r, h1, h2, h3, _, _⟩ := C29_inverter sampleImage (by decide)
  have e : ColorInverter.filter sampleImage = .ok ⟨[⟨254, 253, 252⟩, ⟨251, 250, 249⟩,
      ⟨248, 247, 246⟩, ⟨245, 244, 243⟩, ⟨242, 241, 240⟩, ⟨239, 238, 237⟩], 3, 2⟩ := rfl
  rw [e] at h1
  have e2 := Except.ok.inj h1
  subst e2
  exact ⟨_, e, rfl, rfl, rfl⟩

/-- Inverting twice gives back the image. -/
theorem inverter_twice (A : RGBImage) (hwf : A.WF) :
    ∃ r1, ColorInverter.filter A = .ok r1 ∧ r1.WF ∧ ColorInverter.filter r1 = .ok A := by
  obtain ⟨hW, hH, _⟩ := id hwf
  generalize hwe : A.width = W at *
  generalize hhe : A.height = H at *
  lift W to Nat using hW with Wn
  lift H to Nat using hH with Hn
  obtain ⟨r1, e1, w1, h1, l1, p1⟩ := inverter_spec A Wn Hn hwe hhe
  obtain ⟨r2, e2, w2, h2, l2, p2⟩ := inverter_spec r1 Wn Hn w1 h1
  refine ⟨r1, e1, WF_of_dims r1 Wn Hn w1 h1 l1, ?_⟩
  rw [e2, image_ext r2 A Wn Hn w2 h2 l2 hwe hhe (WF_length A Wn Hn hwf hwe hhe)]
  intro x y hx hy
  rw [p2 x y hx hy, p1 x y hx hy, invertPixel_twice]

/-- C30: for every image `A` (non-negative dimensions, buffer of `width*height` pixels),
applying `ColorInverter::filter` twice returns an image equal to `A`. -/
theorem C30_inverter_involution (A : RGBImage) (hwf : A.WF) :
    ∃ r1 r2, ColorInverter.filter A = .ok r1 ∧ ColorInverter.filter r1 = .ok r2
      ∧ r2.equals A = true ∧ r2 = A := by
  obtain ⟨r1, e1, _, e2⟩ := inverter_twice A hwf
  exact ⟨r1, A, e1, e2, equals_self A, rfl⟩

/-- Witness of C30: the 3×2 image `sampleImage`. -/
theorem C30_inverter_involution_witness :
    ∃ r1 r2, ColorInverter.filter sampleImage = .ok r1 ∧ ColorInverter.filter r1 = .ok r2
      ∧ r2.equals sampleImage = true ∧ r2 = sampleImage :=
  C30_inverter_involution sampleImage (by decide)

/-! ### Scaling -/

/-- C28: constructing an `ImageScaler` with factor `s` fails, with an
`IllegalArgumentException`, if and only if `s < 1`; otherwise it stores `s`. -/
theorem C28_scaler_constructor (s : Int) :
    ((∃ msg, ImageScaler.create s = .error (.IllegalArgumentException msg)) ↔ s < 1)
      ∧ ((∃ e, ImageScaler.create s = .error e) ↔ s < 1)
      ∧ ((ImageScaler.create s = .ok { scale := s }) ↔ 1 ≤ s) := by
  unfold ImageScaler.create
  by_cases h : s < 1
  · rw [if_pos h]
    refine ⟨⟨fun _ => h, fun _ => ⟨_, rfl⟩⟩, ⟨fun _ => h, fun _ => ⟨_, rfl⟩⟩, ?_⟩
    constructor
    · intro hc
      cases hc
    · intro hc
      omega
  · rw [if_neg h]
    refine ⟨⟨?_, fun hc => absurd hc h⟩, ⟨?_, fun hc => absurd hc h⟩, ?_⟩
    · intro ⟨_, hc⟩
      cases hc
    · intro ⟨_, hc⟩
      cases hc
    · exact ⟨fun _ => by omega, fun _ => rfl⟩

/-! ### Claim on the storage index -/

/-- C38: for every image of size `W×H` (with a buffer of `W*H` pixels) and every in-bounds
`(x,y)`, the storage index `x*H + y` lies in `[0, W*H)` and differs from the index of every
other in-bounds coordinate; after `setRGB(x,y,p)`, `getRGB(x,y)` returns `p`, `getRGB` is
unchanged at every other in-bounds coordinate, and width and height are unchanged. -/
theorem C38_set_get (img : RGBImage) (hwf : img.WF) (x y : Int) (p : RGBPixel) (hx0 : 0 ≤ x)
    (hx : x < img.width) (hy0 : 0 ≤ y) (hy : y < img.height) :
    (0 ≤ x * img.height + y ∧ x * img.height + y < img.width * img.height)
      ∧ (∀ x2 y2, 0 ≤ x2 → x2 < img.width → 0 ≤ y2 → y2 < img.height →
          x2 * img.height + y2 = x * img.height + y → x2 = x ∧ y2 = y)
      ∧ ∃ img2, img.setRGB x y p = .ok img2 ∧ img2.getRGB x y = .ok p
          ∧ (∀ x2 y2, 0 ≤ x2 → x2 < img.width → 0 ≤ y2 → y2 < img.height →
              ¬ (x2 = x ∧ y2 = y) → img2.getRGB x2 y2 = img.getRGB x2 y2)
          ∧ img2.width = img.width ∧ img2.height = img.height := by
  obtain ⟨hW, hH, _⟩ := id hwf
  generalize hwe : img.width = W at *
  generalize hhe : img.height = H at *
  lift W to Nat using hW with Wn
  lift H to Nat using hH with Hn
  lift x to Nat using hx0 with xn
  lift y to Nat using hy0 with yn
  have hxn : xn < Wn := by exact_mod_cast hx
  have hyn : yn < Hn := by exact_mod_cast hy
  have hl := WF_length img Wn Hn hwf hwe hhe
  have hinj : ∀ x2 y2 : Int, 0 ≤ x2 → x2 < (Wn : Int) → 0 ≤ y2 → y2 < (Hn : Int) →
      x2 * (Hn : Int) + y2 = (xn : Int) * (Hn : Int) + (yn : Int) →
      x2 = (xn : Int) ∧ y2 = (yn : Int) := by
    intro x2 y2 h1 _ h3 h4 e
    lift x2 to Nat using h1 with a
    lift y2 to Nat using h3 with b
    have hb : b < Hn := by exact_mod_cast h4
    have e2 : a * Hn + b = xn * Hn + yn := by exact_mod_cast e
    obtain ⟨e3, e4⟩ := idx_inj Hn a b xn yn hb hyn e2
    exact ⟨by rw [e3], by rw [e4]⟩
  refine ⟨⟨?_, ?_⟩, hinj, ?_⟩
  · have := mul_nonneg (Int.ofNat_nonneg xn) (Int.ofNat_nonneg Hn)
    simp only [Int.ofNat_eq_coe] at this
    omega
  · exact_mod_cast idx_lt Wn Hn xn yn hxn hyn
  · obtain ⟨img2, h2⟩ : ∃ img2 : RGBImage,
        img2 = { img with image := img.image.set (xn * Hn + yn) p } := ⟨_, rfl⟩
    have hs : img.setRGB (xn : Int) (yn : Int) p = .ok img2 := by
      rw [setRGB_ok img _ _ p (by omega) (by rw [hwe]; exact hx) (by omega)
        (by rw [hhe]; exact hy), hhe, toNat_idx, h2, hhe]
    have w2 : img2.width = (Wn : Int) := by rw [h2]; exact hwe
    have hh2 : img2.height = (Hn : Int) := by rw [h2]; exact hhe
    have g2 : ∀ k, img2.image.getD k RGBPixel.default
        = if k = xn * Hn + yn then p else img.image.getD k RGBPixel.default := by
      intro k
      rw [h2]
      exact getD_set _ _ _ _ (by rw [hl]; exact idx_lt Wn Hn xn yn hxn hyn)
    refine ⟨img2, hs, ?_, ?_, w2, hh2⟩
    · rw [getRGB_buffer img2 Wn Hn xn yn w2 hh2 hxn hyn, g2, if_pos rfl]
    · intro x2 y2 h1 h2 h3 h4 hne
      lift x2 to Nat using h1 with a
      lift y2 to Nat using h3 with b
      have ha : a < Wn := by exact_mod_cast h2
      have hb : b < Hn := by exact_mod_cast h4
      rw [getRGB_buffer img2 Wn Hn a b w2 hh2 ha hb, getRGB_buffer img Wn Hn a b hwe hhe ha hb,
        g2, if_neg]
      intro e
      obtain ⟨e3, e4⟩ := idx_inj Hn a b xn yn hb hyn e
      exact hne ⟨by rw [e3], by rw [e4]⟩

/-- Witness of C38: storing a pixel at `(2,1)` of `sampleImage`. -/
theorem C38_set_get_witness :
    ∃ img2, sampleImage.setRGB 2 1 ⟨9, 9, 9⟩ = .ok img2 ∧ img2.getRGB 2 1 = .ok ⟨9, 9, 9⟩
      ∧ img2.getRGB 0 0 = sampleImage.getRGB 0 0 ∧ img2.width = 3 ∧ img2.height = 2 := by
  obtain ⟨_, _, img2, h1, h2, h3, h4, h5⟩ := C38_set_get sampleImage (by decide) 2 1 ⟨9, 9, 9⟩
    (by decide) (by decide) (by decide) (by decide)
  exact ⟨img2, h1, h2, h3 0 0 (by decide) (by decide) (by decide) (by decide) (by decide), h4, h5⟩

/-! ### Claims on colour amplification -/

/-- C32: constructing a `ColorAmplifier` with ratios `(rr, gr, br)` fails, with an
`IllegalArgumentException`, if and only if at least one of the three ratios is negative;
otherwise it stores the three ratios. -/
theorem C32_amplifier_constructor (rr gr br : ℚ) :
    ((∃ msg, ColorAmplifier.create rr gr br = .error (.IllegalArgumentException msg))
        ↔ (rr < 0 ∨ gr < 0 ∨ br < 0))
      ∧ ((∃ e, ColorAmplifier.create rr gr br = .error e) ↔ (rr < 0 ∨ gr < 0 ∨ br < 0))
      ∧ ((ColorAmplifier.create rr gr br = .ok ⟨rr, gr, br⟩) ↔ ¬ (rr < 0 ∨ gr < 0 ∨ br < 0)) := by
  unfold ColorAmplifier.create
  by_cases h : rr < 0 ∨ gr < 0 ∨ br < 0
  · rw [if_pos h]
    refine ⟨⟨fun _ => h, fun _ => ⟨_, rfl⟩⟩, ⟨fun _ => h, fun _ => ⟨_, rfl⟩⟩, ?_⟩
    constructor
    · intro hc
      cases hc
    · intro hc
      exact absurd h hc
  · rw [if_neg h]
    refine ⟨⟨?_, fun hc => absurd hc h⟩, ⟨?_, fun hc => absurd hc h⟩, ?_⟩
    · intro ⟨_, hc⟩
      cases hc
    · intro ⟨_, hc⟩
      cases hc
    · exact ⟨fun _ => h, fun _ => rfl⟩

/-- The product of a byte and a ratio `m * 2^k` with few bits is computed without rounding, and
its truncation is representable as an `int` when the ratio is at most 8421504. -/
theorem fits_dyadic (c : byte) (m : Nat) (k : Int) (hm : 255 * m < 2 ^ 53) (hk : -1074 ≤ k)
    (hb : (m : ℚ) * 2 ^ k ≤ 8421504) :
    toDouble ((c.val : ℚ) * ((m : ℚ) * 2 ^ k)) = (c.val : ℚ) * ((m : ℚ) * 2 ^ k)
      ∧ truncToInt (toDouble ((c.val : ℚ) * ((m : ℚ) * 2 ^ k))) ≤ 2147483647 := by
  have hc := c.isLt
  have hcm : c.val * m < 2 ^ 53 := lt_of_le_of_lt (Nat.mul_le_mul_right m (by omega)) hm
  have e : (c.val : ℚ) * ((m : ℚ) * 2 ^ k) = ((c.val * m : Nat) : ℚ) * 2 ^ k := by
    push_cast
    ring
  have hex : toDouble ((c.val : ℚ) * ((m : ℚ) * 2 ^ k)) = (c.val : ℚ) * ((m : ℚ) * 2 ^ k) := by
    rw [e]
    exact toDouble_exact _ k hcm hk
  refine ⟨hex, ?_⟩
  rw [hex]
  have hr : 0 ≤ (m : ℚ) * 2 ^ k := by positivity
  have hq : 0 ≤ (c.val : ℚ) * ((m : ℚ) * 2 ^ k) := mul_nonneg (by positivity) hr
  rw [truncToInt_floor _ hq]
  have h1 : ((c.val : ℚ)) ≤ 255 := by exact_mod_cast (by omega : c.val ≤ 255)
  have h2 : (c.val : ℚ) * ((m : ℚ) * 2 ^ k) ≤ 255 * 8421504 :=
    mul_le_mul h1 hb hr (by norm_num)
  have h3 : ((⌊(c.val : ℚ) * ((m : ℚ) * 2 ^ k)⌋ : Int) : ℚ) ≤ 2147483647 :=
    le_trans (Int.floor_le _) (le_trans h2 (by norm_num))
  exact_mod_cast h3

/-- The products with the ratio 3/4. -/
theorem fits_three_quarters (c : byte) :
    toDouble ((c.val : ℚ) * (3 / 4)) = (c.val : ℚ) * (3 / 4)
      ∧ truncToInt (toDouble ((c.val : ℚ) * (3 / 4))) ≤ 2147483647 := by
  have h := fits_dyadic c 3 (-2) (by norm_num) (by norm_num) (by norm_num)
  have e : ((3 : Nat) : ℚ) * 2 ^ (-2 : Int) = 3 / 4 := by norm_num
  rw [e] at h
  exact h

/-- The products with the ratio 1. -/
theorem fits_one (c : byte) :
    toDouble ((c.val : ℚ) * 1) = (c.val : ℚ) * 1
      ∧ truncToInt (toDouble ((c.val : ℚ) * 1)) ≤ 2147483647 := by
  have h := fits_dyadic c 1 0 (by norm_num) (by norm_num) (by norm_num)
  have e : ((1 : Nat) : ℚ) * 2 ^ (0 : Int) = 1 := by norm_num
  rw [e] at h
  exact h

/-- The pixel that `amplifyPixel` returns when the three truncated products are representable as
an `int` for every channel value. -/
theorem amplifyPixel_ok (rr gr br : ℚ) (hr : 0 ≤ rr) (hg : 0 ≤ gr) (hb : 0 ≤ br)
    (hfr : ∀ c : byte, truncToInt (toDouble ((c.val : ℚ) * rr)) ≤ 2147483647)
    (hfg : ∀ c : byte, truncToInt (toDouble ((c.val : ℚ) * gr)) ≤ 2147483647)
    (hfb : ∀ c : byte, truncToInt (toDouble ((c.val : ℚ) * br)) ≤ 2147483647)
    (pix : RGBPixel) :
    (⟨rr, gr, br⟩ : ColorAmplifier).amplifyPixel pix
      = .ok { r := toByte (min 255 (truncToInt (toDouble ((pix.r.val : ℚ) * rr)))),
              g := toByte (min 255 (truncToInt (toDouble ((pix.g.val : ℚ) * gr)))),
              b := toByte (min 255 (truncToInt (toDouble ((pix.b.val : ℚ) * br)))) } := by
  simp only [ColorAmplifier.amplifyPixel, amplify_ok _ _ hr (hfr _), amplify_ok _ _ hg (hfg _),
    amplify_ok _ _ hb (hfb _)]

/-- A number whose truncation is not an `int` has no conversion to `int`. -/
theorem doubleToInt_undefined (q : ℚ) (t : Int) (h : truncToInt q = t)
    (ht : ¬ (-2147483648 ≤ t ∧ t ≤ 2147483647)) : doubleToInt q = .error .Undefined := by
  unfold doubleToInt
  rw [h, if_neg ht]

/-- The number 2550000000000 is not an `int`. -/
theorem too_large :
    ¬ (-2147483648 ≤ ((2550000000000 : Nat) : Int)
      ∧ ((2550000000000 : Nat) : Int) ≤ 2147483647) := by
  omega

/-- An undefined conversion makes `amplify` undefined. -/
theorem amplify_undefined (c : byte) (ratio : ℚ)
    (h : doubleToInt (toDouble ((c.val : ℚ) * ratio)) = .error .Undefined) :
    ColorAmplifier.amplify c ratio = .error .Undefined := by
  unfold ColorAmplifier.amplify
  rw [h]

/-- The product of the byte 255 and the ratio `10^10` is computed without rounding. -/
theorem out_of_range_product : truncToInt (toDouble ((((255 : byte).val : Nat) : ℚ) * 10000000000))
      = ((2550000000000 : Nat) : Int) := by
  have e0 : (((255 : byte).val : Nat) : ℚ) = 255 := by norm_cast
  have e1 : (((255 : byte).val : Nat) : ℚ) * 10000000000 = ((2550000000000 : Nat) : ℚ) := by
    rw [e0]
    norm_num
  rw [e1, toDouble_natCast _ (by norm_num), truncToInt_natCast]

/-- A product whose truncation is not representable as an `int`: the byte 255 and the ratio
`10^10`.  The conversion is undefined. -/
theorem amplify_out_of_range : ColorAmplifier.amplify 255 10000000000 = .error .Undefined :=
  amplify_undefined 255 10000000000 (doubleToInt_undefined _ _ out_of_range_product too_large)

/-- C31 (amended): for every image (non-negative dimensions) and every ratio triple with all
ratios `≥ 0` for which the product of every channel value with each ratio, truncated toward
zero, is representable as an `int`, the output of `ColorAmplifier::filter` has the dimensions of
the source and, at every pixel, each output channel is `min(255, trunc(input_channel * ratio))`
for the ratio of that channel, the product being the one computed in `double`. -/
theorem C31_amplifier (img : RGBImage) (hwf : img.WF) (rr gr br : ℚ) (hr : 0 ≤ rr)
    (hg : 0 ≤ gr) (hb : 0 ≤ br)
    (hfr : ∀ c : byte, truncToInt (toDouble ((c.val : ℚ) * rr)) ≤ 2147483647)
    (hfg : ∀ c : byte, truncToInt (toDouble ((c.val : ℚ) * gr)) ≤ 2147483647)
    (hfb : ∀ c : byte, truncToInt (toDouble ((c.val : ℚ) * br)) ≤ 2147483647) :
    ∃ amp, ColorAmplifier.create rr gr br = .ok amp ∧ ∃ r, amp.filter img = .ok r
      ∧ r.width = img.width ∧ r.height = img.height
      ∧ ∀ x y, 0 ≤ x → x < img.width → 0 ≤ y → y < img.height →
          ∃ pix out, img.getRGB x y = .ok pix ∧ r.getRGB x y = .ok out
            ∧ (out.r.val : Int) = min 255 (truncToInt (toDouble ((pix.r.val : ℚ) * rr)))
            ∧ (out.g.val : Int) = min 255 (truncToInt (toDouble ((pix.g.val : ℚ) * gr)))
            ∧ (out.b.val : Int) = min 255 (truncToInt (toDouble ((pix.b.val : ℚ) * br))) := by
  obtain ⟨hW, hH, _⟩ := hwf
  generalize hwe : img.width = W at *
  generalize hhe : img.height = H at *
  lift W to Nat using hW with Wn
  lift H to Nat using hH with Hn
  obtain ⟨r, e1, w1, h1, l1, p1⟩ := amplifier_spec ⟨rr, gr, br⟩ _
    (amplifyPixel_ok rr gr br hr hg hb hfr hfg hfb) img Wn Hn hwe hhe
  refine ⟨_, amplifier_create rr gr br hr hg hb, r, e1, w1, h1, ?_⟩
  intro x y hx0 hx hy0 hy
  lift x to Nat using hx0 with xn
  lift y to Nat using hy0 with yn
  have hxn : xn < Wn := by exact_mod_cast hx
  have hyn : yn < Hn := by exact_mod_cast hy
  refine ⟨_, _, getRGB_buffer img Wn Hn xn yn hwe hhe hxn hyn,
    getRGB_buffer r Wn Hn xn yn w1 h1 hxn hyn, ?_⟩
  rw [p1 xn yn hxn hyn]
  have nn : ∀ (c : byte) (q : ℚ), 0 ≤ q → 0 ≤ truncToInt (toDouble ((c.val : ℚ) * q)) :=
    fun c q hq => truncToInt_nonneg _ (toDouble_nonneg _ (mul_nonneg (by positivity) hq))
  exact ⟨toByte_min_val _ (nn _ rr hr), toByte_min_val _ (nn _ gr hg),
    toByte_min_val _ (nn _ br hb)⟩

/-- Witness of C31: `sampleImage` amplified by `(3/4, 1, 1)`. -/
theorem C31_amplifier_witness :
    ∃ amp, ColorAmplifier.create (3 / 4) 1 1 = .ok amp ∧ ∃ r, amp.filter sampleImage = .ok r
      ∧ r.width = sampleImage.width ∧ r.height = sampleImage.height
      ∧ ∀ x y, 0 ≤ x → x < sampleImage.width → 0 ≤ y → y < sampleImage.height →
          ∃ pix out, sampleImage.getRGB x y = .ok pix ∧ r.getRGB x y = .ok out
            ∧ (out.r.val : Int)
                = min 255 (truncToInt (toDouble ((pix.r.val : ℚ) * (3 / 4))))
            ∧ (out.g.val : Int) = min 255 (truncToInt (toDouble ((pix.g.val : ℚ) * 1)))
            ∧ (out.b.val : Int) = min 255 (truncToInt (toDouble ((pix.b.val : ℚ) * 1))) :=
  C31_amplifier sampleImage (by decide) (3 / 4) 1 1 (by norm_num) (by norm_num) (by norm_num)
    (fun c => (fits_three_quarters c).2) (fun c => (fits_one c).2) (fun c => (fits_one c).2)

/-- Counterexample to C31 as stated: with the ratios `(3/4, 1, 1)` the red channel 1 of pixel
`(0,0)` of `sampleImage` becomes 0, the truncation of the product 0.75, which is a `double`
and is computed without rounding, while `min(255, round(0.75))` is 1. -/
theorem C31_counterexample :
    ∃ amp r out, ColorAmplifier.create (3 / 4) 1 1 = .ok amp ∧ amp.filter sampleImage = .ok r
      ∧ sampleImage.getRGB 0 0 = .ok ⟨1, 2, 3⟩ ∧ r.getRGB 0 0 = .ok out
      ∧ (out.r.val : Int) = 0
      ∧ toDouble (((1 : Nat) : ℚ) * (3 / 4)) = 3 / 4
      ∧ min 255 (round (3 / 4 : ℚ)) = 1 := by
  obtain ⟨r, e1, w1, h1, l1, p1⟩ := amplifier_spec ⟨3 / 4, 1, 1⟩ _
    (amplifyPixel_ok (3 / 4) 1 1 (by norm_num) (by norm_num) (by norm_num)
      (fun c => (fits_three_quarters c).2) (fun c => (fits_one c).2) (fun c => (fits_one c).2))
    sampleImage 3 2 rfl rfl
  have ex := (fits_three_quarters 1).1
  have e0 : (((1 : byte).val : Nat) : ℚ) = ((1 : Nat) : ℚ) := by norm_cast
  rw [e0] at ex
  refine ⟨_, r, _, amplifier_create (3 / 4) 1 1 (by norm_num) (by norm_num) (by norm_num), e1,
    rfl, getRGB_buffer r 3 2 0 0 w1 h1 (by omega) (by omega), ?_, ?_, ?_⟩
  · rw [p1 0 0 (by omega) (by omega)]
    have e : sampleImage.image.getD (0 * 2 + 0) RGBPixel.default = ⟨1, 2, 3⟩ := rfl
    rw [e]
    simp only
    rw [e0, ex, truncToInt_eq _ 0 (by norm_num) (by norm_num) (by norm_num)]
    rfl
  · rw [ex]
    norm_num
  · have e : round (3 / 4 : ℚ) = 1 := by
      rw [round_eq, Int.floor_eq_iff]
      constructor <;> norm_num
    rw [e]
    rfl
/-! ### Reflection -/

theorem reflector_spec (img : RGBImage) (W H : Nat) (hw : img.width = (W : Int))
    (hh : img.height = (H : Int)) :
    ∃ r, ImageReflector.filter img = .ok r
      ∧ r.width = (W : Int) ∧ r.height = (H : Int) ∧ r.image.length = W * H
      ∧ ∀ i j, i < W → j < H →
          r.image.getD ((W - 1 - i) * H + j) RGBPixel.default
            = img.image.getD (i * H + j) RGBPixel.default := by
  unfold ImageReflector.filter RGBImage.getWidth RGBImage.getHeight
  simp only [hw, hh, create_ok, Int.toNat_natCast, ImageReflector.getReflectedX,
    ImageReflector.getReflectedY]
  apply fill_image
    (fun (x y : Int) (s1 : RGBImage) =>
      match img.getRGB x y with
      | .error e => .error e
      | .ok pix => s1.setRGB ((W : Int) - 1 - x) y pix)
    W H 0 0 W H (fun i j => (W - 1 - i) * H + j)
    (fun i j => img.image.getD (i * H + j) RGBPixel.default) _ rfl rfl (by simp)
  · intro i j hi hj
    exact idx_lt W H _ j (by omega) hj
  · intro i j a b hi hj ha hb e
    obtain ⟨e1, e2⟩ := idx_inj H _ _ _ _ hj hb e
    omega
  · intro i j hi hj d hdw hdh
    exact copy_pixel_ok img d id W H W H i j (W - 1 - i) j _ _ _ _ hw hh hdw hdh
      (by omega) (by omega) (by omega) (by omega) hi hj (by omega) hj

/-- C33: for every image of size `W×H` (non-negative dimensions), `ImageReflector::filter`
returns a `W×H` image (with a buffer of `W*H` pixels) whose pixel `(x,y)` is the source pixel
`(W-1-x, y)` for every in-bounds `(x,y)`. -/
theorem C33_reflector (img : RGBImage) (hwf : img.WF) :
    ∃ r, ImageReflector.filter img = .ok r ∧ r.width = img.width ∧ r.height = img.height
      ∧ r.WF
      ∧ ∀ x y, 0 ≤ x → x < img.width → 0 ≤ y → y < img.height →
          ∃ pix, img.getRGB (img.width - 1 - x) y = .ok pix ∧ r.getRGB x y = .ok pix := by
  obtain ⟨hW, hH, _⟩ := hwf
  generalize hwe : img.width = W at *
  generalize hhe : img.height = H at *
  lift W to Nat using hW with Wn
  lift H to Nat using hH with Hn
  obtain ⟨r, e1, w1, h1, l1, p1⟩ := reflector_spec img Wn Hn hwe hhe
  refine ⟨r, e1, w1, h1, WF_of_dims r Wn Hn w1 h1 l1, ?_⟩
  intro x y hx0 hx hy0 hy
  lift x to Nat using hx0 with xn
  lift y to Nat using hy0 with yn
  have hxn : xn < Wn := by exact_mod_cast hx
  have hyn : yn < Hn := by exact_mod_cast hy
  have e : (Wn : Int) - 1 - (xn : Int) = ((Wn - 1 - xn : Nat) : Int) := by omega
  rw [e]
  refine ⟨_, getRGB_buffer img Wn Hn (Wn - 1 - xn) yn hwe hhe (by omega) hyn, ?_⟩
  have q := p1 (Wn - 1 - xn) yn (by omega) hyn
  have e2 : Wn - 1 - (Wn - 1 - xn) = xn := by omega
  rw [e2] at q
  rw [getRGB_buffer r Wn Hn xn yn w1 h1 hxn hyn, q]

/-- Witness of C33: the mirror image of `sampleImage`. -/
theorem C33_reflector_witness :
    ∃ r, ImageReflector.filter sampleImage = .ok r ∧ r.width = 3 ∧ r.height = 2
      ∧ r.getRGB 0 1 = .ok ⟨16, 17, 18⟩ := by
  obtain ⟨r, h1, h2, h3, _, h5⟩ := C33_reflector sampleImage (by decide)
  obtain ⟨pix, hp, hs⟩ := h5 0 1 (by decide) (by decide) (by decide) (by decide)
  have e : sampleImage.getRGB (sampleImage.width - 1 - 0) 1 = .ok ⟨16, 17, 18⟩ := rfl
  rw [e] at hp
  have e2 : pix = ⟨16, 17, 18⟩ := (Except.ok.inj hp).symm
  rw [e2] at hs
  exact ⟨r, h1, h2, h3, hs⟩

/-! ### Claims on files that are cut off, negative sizes and slots -/

/-- C35 fails on the code: `cutPixelFile` has the correct signature and is 56 bytes long, less
than the `54 + (1*3 + 1) * 1 = 58` bytes that its header declares, and the constructor does not
throw a `FileException`: it returns a 1×1 image whose red channel, read past the end of the
file, is 255. -/
theorem C35_cut_file_is_decoded :
    cutPixelFile.take 2 = [0x42, 0x4D]
      ∧ (cutPixelFile.length : Int) < declaredInt cutPixelFile 10
          + (declaredInt cutPixelFile 18 * 3 + getScanlinePadding (declaredInt cutPixelFile 18))
            * declaredInt cutPixelFile 22
      ∧ RGBImage.fromFile [("c.bmp", cutPixelFile)] "c.bmp"
          = .ok { image := [{ r := 255, g := 20, b := 10 }], width := 1, height := 1 } :=
  ⟨by decide, by decide, rfl⟩

/-- C37 fails on the code: `negativeSizeFile` has the correct signature and passes the size
check, and the constructor leaves with the `IllegalArgumentException` of `initializeWith`, not
with a `FileException`. -/
theorem C37_negative_header_not_a_file_error :
    RGBImage.fromFile [("neg.bmp", negativeSizeFile)] "neg.bmp"
      = .error (.IllegalArgumentException
          "Dimensions must be greater than zero. Width: -1 Height: -1\n") := by
  rfl

/-- C40 fails on the code: on the 1×1 image `onePixelImage`, `ImageSlicer(2,1).separate`
creates a vector of `2*1 = 2` images and, for `r = 1`, `c = 0`, assigns to the slot
`r*rows + c = 2`, past the end of the vector. -/
theorem C40_slot_past_the_end :
    ImageSlicer.separate { rows := 2, columns := 1 } onePixelImage = .error .Undefined
      ∧ vectorAssign (List.replicate 2 RGBImage.empty) (1 * 2 + 0) RGBImage.empty
          = .error .Undefined := by
  exact ⟨rfl, rfl⟩

/-! ### Composition of rotations -/

/-- The four rotations in one statement, read from the rotated image back to the source. -/
theorem rot_back (self : ImageRotator) (r : Nat) (hr : r < 4) (h : self.rotate = (r : Int))
    (img : RGBImage) (W H : Nat) (hw : img.width = (W : Int)) (hh : img.height = (H : Int)) :
    ∃ out, self.filter img = .ok out
      ∧ out.width = (rotW r W H : Int) ∧ out.height = (rotH r W H : Int)
      ∧ out.image.length = rotW r W H * rotH r W H
      ∧ ∀ X Y, X < rotW r W H → Y < rotH r W H →
          out.image.getD (X * rotH r W H + Y) RGBPixel.default
            = img.image.getD (srcX r W X Y * H + srcY r H X Y) RGBPixel.default := by
  interval_cases r
  · obtain ⟨out, e, w1, h1, l1, p1⟩ := rot0_spec self h img W H hw hh
    exact ⟨out, e, w1, h1, l1, p1⟩
  · obtain ⟨out, e, w1, h1, l1, p1⟩ := rot1_spec self h img W H hw hh
    refine ⟨out, e, w1, h1, l1, ?_⟩
    intro X Y hX hY
    simp only [rotW, rotH, srcX, srcY] at hX hY ⊢
    have q := p1 Y (H - 1 - X) hY (by omega)
    have e2 : H - 1 - (H - 1 - X) = X := by omega
    rw [e2] at q
    exact q
  · obtain ⟨out, e, w1, h1, l1, p1⟩ := rot2_spec self h img W H hw hh
    refine ⟨out, e, w1, h1, l1, ?_⟩
    intro X Y hX hY
    simp only [rotW, rotH, srcX, srcY] at hX hY ⊢
    have q := p1 (W - 1 - X) (H - 1 - Y) (by omega) (by omega)
    have e2 : H - 1 - (H - 1 - Y) = Y := by omega
    have e3 : W - 1 - (W - 1 - X) = X := by omega
    rw [e2, e3] at q
    exact q
  · obtain ⟨out, e, w1, h1, l1, p1⟩ := rot3_spec self h img W H hw hh
    refine ⟨out, e, w1, h1, l1, ?_⟩
    intro X Y hX hY
    simp only [rotW, rotH, srcX, srcY] at hX hY ⊢
    have q := p1 (W - 1 - Y) X (by omega) hX
    have e3 : W - 1 - (W - 1 - Y) = Y := by omega
    rw [e3] at q
    exact q

theorem getD_idx_congr (l : List RGBPixel) (a1 a2 b1 b2 H : Nat) (ha : a1 = a2) (hb : b1 = b2) :
    l.getD (a1 * H + b1) RGBPixel.default = l.getD (a2 * H + b2) RGBPixel.default := by
  rw [ha, hb]

theorem rot_dims_compose (ra rb W H : Nat) (ha : ra < 4) (hb : rb < 4) :
    rotW ra (rotW rb W H) (rotH rb W H) = rotW ((ra + rb) % 4) W H
      ∧ rotH ra (rotW rb W H) (rotH rb W H) = rotH ((ra + rb) % 4) W H := by
  interval_cases ra <;> interval_cases rb <;> exact ⟨rfl, rfl⟩

theorem src_compose (ra rb W H x y : Nat) (ha : ra < 4) (hb : rb < 4)
    (hx : x < rotW ((ra + rb) % 4) W H) (hy : y < rotH ((ra + rb) % 4) W H) :
    srcX rb W (srcX ra (rotW rb W H) x y) (srcY ra (rotH rb W H) x y)
        = srcX ((ra + rb) % 4) W x y
      ∧ srcY rb H (srcX ra (rotW rb W H) x y) (srcY ra (rotH rb W H) x y)
        = srcY ((ra + rb) % 4) H x y
      ∧ srcX ra (rotW rb W H) x y < rotW rb W H
      ∧ srcY ra (rotH rb W H) x y < rotH rb W H := by
  interval_cases ra <;> interval_cases rb <;>
    simp only [rotW, rotH, srcX, srcY, Nat.reduceAdd, Nat.reduceMod, true_and] at hx hy ⊢ <;> omega

/-- Rotating by `rb` and then by `ra` quarter turns is rotating by `(ra + rb) mod 4`. -/
theorem rot_compose (sa sb sc : ImageRotator) (ra rb : Nat) (ha : ra < 4) (hb : rb < 4)
    (hsa : sa.rotate = (ra : Int)) (hsb : sb.rotate = (rb : Int))
    (hsc : sc.rotate = (((ra + rb) % 4 : Nat) : Int)) (A : RGBImage) (W H : Nat)
    (hw : A.width = (W : Int)) (hh : A.height = (H : Int)) :
    ∃ B C, sb.filter A = .ok B ∧ sa.filter B = .ok C ∧ sc.filter A = .ok C := by
  obtain ⟨B, eB, wB, hB, lB, pB⟩ := rot_back sb rb hb hsb A W H hw hh
  obtain ⟨C, eC, wC, hC, lC, pC⟩ := rot_back sa ra ha hsa B _ _ wB hB
  obtain ⟨D, eD, wD, hD, lD, pD⟩ := rot_back sc ((ra + rb) % 4) (Nat.mod_lt _ (by omega)) hsc
    A W H hw hh
  obtain ⟨dw, dh⟩ := rot_dims_compose ra rb W H ha hb
  simp only [dw, dh] at wC hC lC pC
  refine ⟨B, C, eB, eC, ?_⟩
  rw [eD, image_ext D C _ _ wD hD lD wC hC lC]
  intro x y hx hy
  obtain ⟨c1, c2, c3, c4⟩ := src_compose ra rb W H x y ha hb hx hy
  rw [pD x y hx hy, pC x y hx hy, pB _ _ c3 c4, c1, c2]

/-- Every coordinate of the rotated image is the place of exactly one source pixel. -/
theorem rotation_bijective (self : ImageRotator) (h0 : 0 ≤ self.rotate) (h3 : self.rotate ≤ 3)
    (W H X Y : Int) (hX0 : 0 ≤ X) (hX : X < self.get_rotated_width W H) (hY0 : 0 ≤ Y)
    (hY : Y < self.get_rotated_height W H) :
    ∃! p : Int × Int, 0 ≤ p.1 ∧ p.1 < W ∧ 0 ≤ p.2 ∧ p.2 < H
      ∧ self.get_rotated_x p.1 p.2 W H = .ok X ∧ self.get_rotated_y p.1 p.2 W H = .ok Y := by
  have hc : self.rotate = 0 ∨ self.rotate = 1 ∨ self.rotate = 2 ∨ self.rotate = 3 := by omega
  have t1 : (1 : Int).tmod 2 = 1 := rfl
  have t2 : (2 : Int).tmod 2 = 0 := rfl
  have t3 : (3 : Int).tmod 2 = 1 := rfl
  have n10 : ¬ ((1 : Int) = 0) := by decide
  have n20 : ¬ ((2 : Int) = 0) := by decide
  have n21 : ¬ ((2 : Int) = 1) := by decide
  have n30 : ¬ ((3 : Int) = 0) := by decide
  have n31 : ¬ ((3 : Int) = 1) := by decide
  have n32 : ¬ ((3 : Int) = 2) := by decide
  unfold ImageRotator.get_rotated_width at hX
  unfold ImageRotator.get_rotated_height at hY
  unfold ImageRotator.get_rotated_x ImageRotator.get_rotated_y
  rcases hc with h | h | h | h
  · simp only [h, Int.zero_tmod, if_true] at hX hY ⊢
    refine ⟨(X, Y), ⟨hX0, hX, hY0, hY, rfl, rfl⟩, ?_⟩
    intro p ⟨_, _, _, _, e1, e2⟩
    exact Prod.ext (Except.ok.inj e1) (Except.ok.inj e2)
  · simp only [h, t1, n10, if_false, if_true] at hX hY ⊢
    refine ⟨(Y, H - 1 - X), ⟨hY0, hY, by omega, by omega, by congr 1; omega, rfl⟩, ?_⟩
    intro p ⟨_, _, _, _, e1, e2⟩
    have e3 := Except.ok.inj e1
    have e4 := Except.ok.inj e2
    exact Prod.ext e4 (by show p.2 = H - 1 - X; omega)
  · simp only [h, t2, n20, n21, if_false, if_true] at hX hY ⊢
    refine ⟨(W - 1 - X, H - 1 - Y), ⟨by omega, by omega, by omega, by omega, by congr 1; omega,
      by congr 1; omega⟩, ?_⟩
    intro p ⟨_, _, _, _, e1, e2⟩
    have e3 := Except.ok.inj e1
    have e4 := Except.ok.inj e2
    exact Prod.ext (by show p.1 = W - 1 - X; omega) (by show p.2 = H - 1 - Y; omega)
  · simp only [h, t3, n10, n30, n31, n32, if_false, if_true] at hX hY ⊢
    refine ⟨(W - 1 - Y, X), ⟨by omega, by omega, hX0, hX, rfl, by congr 1; omega⟩, ?_⟩
    intro p ⟨_, _, _, _, e1, e2⟩
    have e3 := Except.ok.inj e1
    have e4 := Except.ok.inj e2
    exact Prod.ext (by show p.1 = W - 1 - Y; omega) e3

theorem rotate_toNat (k : Int) :
    (ImageRotator.create k).rotate = (((k % 4).toNat : Nat) : Int) ∧ (k % 4).toNat < 4 := by
  rw [rotate_eq_emod]
  omega

/-- C39: rotations compose additively: for every image `A` (non-negative dimensions, buffer of
`width*height` pixels) and all integers `a` and `b`, the filter of `ImageRotator(a)` applied to
the result of `ImageRotator(b)` on `A` returns the image that `ImageRotator(a+b)` returns on
`A`; `ImageRotator(-b)` undoes `ImageRotator(b)`; and every coordinate of the output of a
rotation is the place of exactly one source pixel. -/
theorem C39_rotations_compose (A : RGBImage) (hwf : A.WF) (a b : Int) :
    (∃ B C, (ImageRotator.create b).filter A = .ok B ∧ (ImageRotator.create a).filter B = .ok C
        ∧ (ImageRotator.create (a + b)).filter A = .ok C)
      ∧ (∃ B, (ImageRotator.create b).filter A = .ok B
          ∧ (ImageRotator.create (-b)).filter B = .ok A)
      ∧ ∀ X Y, 0 ≤ X → X < (ImageRotator.create b).get_rotated_width A.width A.height →
          0 ≤ Y → Y < (ImageRotator.create b).get_rotated_height A.width A.height →
          ∃! p : Int × Int, 0 ≤ p.1 ∧ p.1 < A.width ∧ 0 ≤ p.2 ∧ p.2 < A.height
            ∧ (ImageRotator.create b).get_rotated_x p.1 p.2 A.width A.height = .ok X
            ∧ (ImageRotator.create b).get_rotated_y p.1 p.2 A.width A.height = .ok Y := by
  have hcomp : ∀ a2 : Int, ∃ B C, (ImageRotator.create b).filter A = .ok B
      ∧ (ImageRotator.create a2).filter B = .ok C
      ∧ (ImageRotator.create (a2 + b)).filter A = .ok C := by
    intro a2
    obtain ⟨hW, hH, _⟩ := id hwf
    generalize hwe : A.width = W at *
    generalize hhe : A.height = H at *
    lift W to Nat using hW with Wn
    lift H to Nat using hH with Hn
    obtain ⟨ea, la⟩ := rotate_toNat a2
    obtain ⟨eb, lb⟩ := rotate_toNat b
    exact rot_compose _ _ _ (a2 % 4).toNat (b % 4).toNat la lb ea eb (by
      rw [rotate_eq_emod]
      omega) A Wn Hn hwe hhe
  refine ⟨hcomp a, ?_, ?_⟩
  · obtain ⟨B, C, e1, e2, e3⟩ := hcomp (-b)
    have e0 : -b + b = 0 := by omega
    rw [e0, rot0_id (ImageRotator.create 0) rfl A hwf] at e3
    have e4 : A = C := Except.ok.inj e3
    rw [← e4] at e2
    exact ⟨B, e1, e2⟩
  · intro X Y hX0 hX hY0 hY
    have hr := rotate_eq_emod b
    exact rotation_bijective _ (by omega) (by omega) _ _ X Y hX0 hX hY0 hY

/-- Witness of C39: one quarter turn after two, and a turn back, of `sampleImage`. -/
theorem C39_rotations_compose_witness :
    (∃ B C, (ImageRotator.create 2).filter sampleImage = .ok B
        ∧ (ImageRotator.create 1).filter B = .ok C
        ∧ (ImageRotator.create (1 + 2)).filter sampleImage = .ok C)
      ∧ (∃ B, (ImageRotator.create 2).filter sampleImage = .ok B
          ∧ (ImageRotator.create (-2)).filter B = .ok sampleImage) :=
  ⟨(C39_rotations_compose sampleImage (by decide) 1 2).1,
    (C39_rotations_compose sampleImage (by decide) 1 2).2.1⟩

/-! ### Encoding followed by decoding -/

theorem read_write (fs : FileSystem) (filename : String) (contents : List byte) :
    (fs.write filename contents).read filename = some contents := by
  simp [FileSystem.read, FileSystem.write]

/-- The header fields of the file that `encode` writes, as `decode` reads them. -/
theorem encoded_fields (img : RGBImage) (hwf : img.WF) (out : List byte)
    (ho : encode img = .ok out) :
    out.take 2 = [0x42, 0x4D]
      ∧ declaredInt out 2
          = toInt32 (54 + (3 * img.width + getScanlinePadding img.width) * img.height)
      ∧ declaredInt out 10 = 54
      ∧ declaredInt out 18 = toInt32 img.width ∧ declaredInt out 22 = toInt32 img.height := by
  obtain ⟨out1, ho1, _, hpre⟩ := encode_header img hwf
  rw [ho] at ho1
  have e : out = out1 := Except.ok.inj ho1
  subst e
  obtain ⟨a0, a2, a10, _, a18, a22, _, _, _⟩ := header_holds img.width img.height
  have b0 := holdsLE_prefix out _ 0 2 _ (by omega) hpre a0
  have b2 := holdsLE_prefix out _ 2 4 _ (by omega) hpre a2
  have b10 := holdsLE_prefix out _ 10 4 _ (by omega) hpre a10
  have b18 := holdsLE_prefix out _ 18 4 _ (by omega) hpre a18
  have b22 := holdsLE_prefix out _ 22 4 _ (by omega) hpre a22
  refine ⟨?_, holdsLE_declaredInt out 2 _ b2, holdsLE_declaredInt out 10 _ b10,
    holdsLE_declaredInt out 18 _ b18, holdsLE_declaredInt out 22 _ b22⟩
  rw [← signature_iff]
  exact holdsLE_declaredShort out 0 _ b0

/-- A property that every successful step of a loop keeps holds after the loop. -/
theorem forLoop_preserves {σ : Type} (body : Int → σ → Result σ) (step : Int) (Q : σ → Prop)
    (hb : ∀ i s s1, Q s → body i s = .ok s1 → Q s1) :
    ∀ (n : Nat) (start : Int) (s s1 : σ), Q s → forLoop body step n start s = .ok s1 → Q s1 := by
  intro n
  induction n with
  | zero =>
    intro start s s1 hq h
    simp only [forLoop] at h
    rw [← Except.ok.inj h]
    exact hq
  | succ n ih =>
    intro start s s1 hq h
    simp only [forLoop] at h
    cases hbody : body start s with
    | error e =>
      rw [hbody] at h
      cases h
    | ok t =>
      rw [hbody] at h
      exact ih (start + step) t s1 (hb start s t hq hbody) h

theorem setRGB_length (img img1 : RGBImage) (x y : Int) (p : RGBPixel)
    (h : img.setRGB x y p = .ok img1) : img1.image.length = img.image.length := by
  unfold RGBImage.setRGB at h
  split at h
  · cases h
  · rw [← Except.ok.inj h]
    simp only [List.length_set]

/-- Reading a scanline from a stream keeps the number of pixels of the buffer. -/
theorem readScanline_length (n : Nat) (y : Int) (st s1 : ifstream × RGBImage)
    (hl : st.2.image.length = n) (h : readScanline y st = .ok s1) : s1.2.image.length = n := by
  unfold readScanline at h
  refine forLoop_preserves _ 1 (fun s => s.2.image.length = n) ?_ _ 0 st s1 hl h
  intro i s s2 hq hbody
  simp only at hbody
  cases hset : s.2.setRGB i y (readPixel s.1).1 with
  | error e =>
    rw [hset] at hbody
    cases hbody
  | ok img =>
    rw [hset] at hbody
    rw [← Except.ok.inj hbody]
    simp only
    rw [setRGB_length _ _ _ _ _ hset]
    exact hq

/-- Reading an image from a stream keeps the number of pixels of its buffer. -/
theorem readImage_length (ifs : ifstream) (img : RGBImage) (s1 : ifstream × RGBImage)
    (h : readImage ifs img = .ok s1) : s1.2.image.length = img.image.length := by
  unfold readImage at h
  refine forLoop_preserves _ (-1) (fun s => s.2.image.length = img.image.length) ?_ _ _
    (ifs, img) s1 rfl h
  intro i s s2 hq hbody
  simp only at hbody
  cases hrow : readScanline i s with
  | error e =>
    rw [hrow] at hbody
    cases hbody
  | ok t =>
    rw [hrow] at hbody
    rw [← Except.ok.inj hbody]
    exact readScanline_length _ i s t hq hrow

theorem pixelAt_of_channels (c : List byte) (P : Nat) (q : RGBPixel)
    (h0 : c.getD P 0 = q.channel 0) (h1 : c.getD (P + 1) 0 = q.channel 1)
    (h2 : c.getD (P + 2) 0 = q.channel 2) : pixelAt c P = q := by
  cases q with
  | mk r g b =>
    simp only [RGBPixel.channel] at h0 h1 h2
    simp only [pixelAt, h0, h1, h2]
    simp

theorem flipped_row (h y : Nat) (hy : y < h) : h - 1 - y < h ∧ h - 1 - (h - 1 - y) = y := by
  omega

theorem pixel_offset_lt (w h p x y k : Nat) (hx : x < w) (hy : y < h) (hk : k < 3) :
    54 + (h - 1 - y) * (3 * w + p) + 3 * x + k < 54 + h * (3 * w + p) := by
  have hjr := row_le (3 * w + p) (h - 1 - y) h (flipped_row h y hy).1
  omega

/-- Decoding a file whose header passes the checks and declares an image without pixels. -/
theorem decode_empty (filename : String) (c : List byte) (w h : Nat)
    (hsig : c.take 2 = [0x42, 0x4D])
    (f2 : declaredInt c 2
      = 54 + ((w : Int) * PIXEL_SIZE + getScanlinePadding (w : Int)) * (h : Int))
    (f10 : declaredInt c 10 = 54) (f18 : declaredInt c 18 = (w : Int))
    (f22 : declaredInt c 22 = (h : Int)) (hwh : w * h = 0) :
    decode filename (ifstream.open c) = .ok { image := [], width := w, height := h } := by
  have f2w : declaredInt c 2
      = toInt32 (54 + ((w : Int) * PIXEL_SIZE + getScanlinePadding (w : Int)) * (h : Int)) := by
    rw [← f2, toInt32_declaredInt]
  rw [(afterHeader_spec c hsig).2 filename, f10, f18, f22, if_neg (fun hne => hne f2w)]
  have hcr := create_ok w h
  unfold RGBImage.create at hcr
  rw [hcr, hwh]
  simp only [List.replicate]
  obtain ⟨s1, h1, h2, h3⟩ := readImage_ok ((afterHeader c).seekg 54)
    { image := [], width := (w : Int), height := (h : Int) }
  have h4 := readImage_length _ _ s1 h1
  rw [h1]
  simp only
  congr 1
  cases hs : s1.2 with
  | mk im wd ht =>
    rw [hs] at h2 h3 h4
    simp only at h2 h3 h4
    have e : im = [] := List.length_eq_zero.mp h4
    rw [h2, h3, e]

/-- Decoding the bytes that `encode` writes gives back the image. -/
theorem decode_encode (filename : String) (img : RGBImage) (hwf : img.WF)
    (hW : img.width < 2147483648) (hH : img.height < 2147483648)
    (hsize : 54 + (3 * img.width + getScanlinePadding img.width) * img.height < 2147483648)
    (out : List byte) (ho : encode img = .ok out) :
    decode filename (ifstream.open out) = .ok img := by
  obtain ⟨hsig, f2, f10, f18, f22⟩ := encoded_fields img hwf out ho
  obtain ⟨hW0, hH0, _⟩ := id hwf
  obtain ⟨hp0, _⟩ := padding_range img.width
  generalize hwe : img.width = W at *
  generalize hhe : img.height = H at *
  lift W to Nat using hW0 with w
  lift H to Nat using hH0 with h
  lift getScanlinePadding (w : Int) to Nat using hp0 with p hp
  have hl := WF_length img w h hwf hwe hhe
  have hrows : (0 : Int) ≤ (3 * (w : Int) + (p : Int)) * (h : Int) :=
    mul_nonneg (by omega) (by omega)
  rw [toInt32_of_range _ (by omega) hsize] at f2
  rw [toInt32_of_range _ (by omega) hW] at f18
  rw [toInt32_of_range _ (by omega) hH] at f22
  obtain ⟨out1, ho1, hlen, hbytes⟩ := encode_spec img w h p hwe hhe hp.symm
  rw [ho] at ho1
  have e : out = out1 := Except.ok.inj ho1
  subst e
  by_cases hz : h * (3 * w + p) = 0
  · have hwh : w * h = 0 := by
      rcases Nat.mul_eq_zero.mp hz with h1 | h1
      · rw [h1, Nat.mul_zero]
      · have : w = 0 := by omega
        rw [this, Nat.zero_mul]
    have f2b : declaredInt out 2
        = 54 + ((w : Int) * PIXEL_SIZE + getScanlinePadding (w : Int)) * (h : Int) := by
      rw [f2, ← hp]
      unfold PIXEL_SIZE
      ring
    rw [decode_empty filename out w h hsig f2b f10 f18 f22 hwh]
    congr 1
    cases himg : img with
    | mk im wd ht =>
      rw [himg] at hwe hhe hl
      simp only at hwe hhe hl
      have e : im = [] := List.length_eq_zero.mp (by rw [hl, hwh])
      rw [hwe, hhe, e]
  · rw [if_neg hz] at hlen
    obtain ⟨img2, hdec, w2, h2, l2, p2⟩ := decode_pixels filename out 54 w h p hsig f18 f22 f10
      hp.symm (by rw [f2]; ring) (by omega)
    rw [hdec]
    congr 1
    apply image_ext img2 img w h w2 h2 l2 hwe hhe hl
    intro x y hx hy
    rw [p2 x y hx hy]
    have ey := (flipped_row h y hy).2
    have hb : ∀ k, k < 3 →
        out.getD (54 + (h - 1 - y) * (3 * w + p) + 3 * x + k) 0
          = (img.image.getD (x * h + y) RGBPixel.default).channel k := by
      intro k hk
      rw [hbytes _ (pixel_offset_lt w h p x y k hx hy hk), encodedByte_pixel img _ w h p (h - 1 - y) x k hx hk, ey]
    exact pixelAt_of_channels out _ _ (hb 0 (by omega)) (hb 1 (by omega)) (hb 2 (by omega))

/-- C36: decode undoes encode: for every image of size `W×H` (class invariant; `W`, `H` and
the file size `54 + (3W + padding(W))*H` below `2^31`), the bytes that `saveImage` writes pass
the signature check and the size check of the constructor `RGBImage(filename)`, and the
constructor returns an image equal to the original. -/
theorem C36_decode_undoes_encode (fs : FileSystem) (filename : String) (img : RGBImage)
    (hwf : img.WF) (hW : img.width < 2147483648) (hH : img.height < 2147483648)
    (hsize : 54 + (3 * img.width + getScanlinePadding img.width) * img.height < 2147483648) :
    ∃ fs1 contents, saveImage fs filename img = .ok fs1 ∧ fs1.read filename = some contents
      ∧ contents.take 2 = [0x42, 0x4D]
      ∧ declaredInt contents 2 = declaredInt contents 10
          + (declaredInt contents 18 * 3 + getScanlinePadding (declaredInt contents 18))
            * declaredInt contents 22
      ∧ ∃ img2, RGBImage.fromFile fs1 filename = .ok img2 ∧ img2.equals img = true
          ∧ img2 = img := by
  obtain ⟨out, ho⟩ := encode_ok img hwf
  have hdec := decode_encode filename img hwf hW hH hsize out ho
  obtain ⟨hsig, f2, f10, f18, f22⟩ := encoded_fields img hwf out ho
  obtain ⟨hW0, hH0, _⟩ := id hwf
  obtain ⟨hp0, _⟩ := padding_range img.width
  have hrows : (0 : Int) ≤ (3 * img.width + getScanlinePadding img.width) * img.height :=
    mul_nonneg (by omega) hH0
  rw [toInt32_of_range _ (by omega) hsize] at f2
  rw [toInt32_of_range _ (by omega) hW] at f18
  rw [toInt32_of_range _ (by omega) hH] at f22
  have hchk : declaredInt out 2 = declaredInt out 10
      + (declaredInt out 18 * 3 + getScanlinePadding (declaredInt out 18))
        * declaredInt out 22 := by
    rw [f2, f10, f18, f22, Int.mul_comm img.width 3]
  refine ⟨fs.write filename out, out, ?_, read_write fs filename out, hsig, hchk, img, ?_,
    equals_self img, rfl⟩
  · unfold saveImage
    rw [ho]
  · unfold RGBImage.fromFile
    rw [read_write]
    exact hdec

/-- Witness of C36: saving and loading the 3×2 image `sampleImage`. -/
theorem C36_decode_undoes_encode_witness :
    ∃ fs1, saveImage [] "s.bmp" sampleImage = .ok fs1
      ∧ RGBImage.fromFile fs1 "s.bmp" = .ok sampleImage := by
  obtain ⟨fs1, _, h1, _, _, _, img2, h2, _, h3⟩ := C36_decode_undoes_encode [] "s.bmp"
    sampleImage (by decide) (by decide) (by decide) (by decide)
  rw [h3] at h2
  exact ⟨fs1, h1, h2⟩

/-! ### The size check beyond 32 bits -/

theorem wrappedLengthFile_length : wrappedLengthFile.length = 131126 := by
  unfold wrappedLengthFile
  rw [List.length_append, List.length_replicate]
  rfl

/-- A header word that lies in the first part of a file. -/
theorem declaredInt_append (h t : List byte) (off : Nat) (hl : off + 4 ≤ h.length) :
    declaredInt (h ++ t) off = declaredInt h off := by
  unfold declaredInt byteAt
  rw [List.getElem?_append_left (by omega), List.getElem?_append_left (by omega),
    List.getElem?_append_left (by omega), List.getElem?_append_left (by omega)]

/-- A file with the correct signature whose header passes the size check and declares no
negative dimension is decoded to an image of the declared dimensions. -/
theorem decode_accepts (filename : String) (c : List byte) (hsig : c.take 2 = [0x42, 0x4D])
    (hW : 0 ≤ declaredInt c 18) (hH : 0 ≤ declaredInt c 22)
    (hchk : declaredInt c 2 = toInt32 (declaredInt c 10
      + (declaredInt c 18 * 3 + getScanlinePadding (declaredInt c 18)) * declaredInt c 22)) :
    ∃ img, decode filename (ifstream.open c) = .ok img ∧ img.width = declaredInt c 18
      ∧ img.height = declaredInt c 22 := by
  rw [(afterHeader_spec c hsig).2 filename]
  simp only [PIXEL_SIZE]
  rw [if_neg (fun hne => hne hchk)]
  unfold RGBImage.initializeWith
  rw [if_neg (by omega)]
  obtain ⟨s1, h1, h2, h3⟩ := readImage_ok ((afterHeader c).seekg (declaredInt c 10))
    { image := List.replicate (declaredInt c 18 * declaredInt c 22).toNat RGBPixel.default,
      width := declaredInt c 18, height := declaredInt c 22 }
  simp only [h1]
  exact ⟨s1.2, rfl, h2, h3⟩

/-- Without the bound on the size of the image the round trip fails: the constructor accepts
`wrappedLengthFile`, whose data offset is 54, whose length is the file size it declares and
whose rows have no padding, and the file encoded from the decoded image has
`196608 * 21846` bytes after offset 54, not 131072. -/
theorem round_trip_wrapped_size :
    ∃ img, RGBImage.fromFile [("big.bmp", wrappedLengthFile)] "big.bmp" = .ok img
      ∧ declaredInt wrappedLengthFile 10 = 54
      ∧ (wrappedLengthFile.length : Int) = declaredInt wrappedLengthFile 2
      ∧ getScanlinePadding img.width = 0
      ∧ ∀ out, encode img = .ok out → out.drop 54 ≠ wrappedLengthFile.drop 54 := by
  have hsig : wrappedLengthFile.take 2 = [0x42, 0x4D] := by
    unfold wrappedLengthFile
    rw [List.take_append_of_le_length (by decide)]
    rfl
  have f2 : declaredInt wrappedLengthFile 2 = 131126 := by
    unfold wrappedLengthFile
    rw [declaredInt_append _ _ _ (by decide)]
    decide
  have f10 : declaredInt wrappedLengthFile 10 = 54 := by
    unfold wrappedLengthFile
    rw [declaredInt_append _ _ _ (by decide)]
    decide
  have f18 : declaredInt wrappedLengthFile 18 = 65536 := by
    unfold wrappedLengthFile
    rw [declaredInt_append _ _ _ (by decide)]
    decide
  have f22 : declaredInt wrappedLengthFile 22 = 21846 := by
    unfold wrappedLengthFile
    rw [declaredInt_append _ _ _ (by decide)]
    decide
  obtain ⟨img, hdec, hw, hh⟩ := decode_accepts "big.bmp" wrappedLengthFile hsig
    (by rw [f18]; decide) (by rw [f22]; decide) (by rw [f2, f10, f18, f22]; decide)
  rw [f18] at hw
  rw [f22] at hh
  have hread : FileSystem.read [("big.bmp", wrappedLengthFile)] "big.bmp"
      = some wrappedLengthFile := by
    simp [FileSystem.read]
  refine ⟨img, ?_, f10, ?_, ?_, ?_⟩
  · unfold RGBImage.fromFile
    rw [hread]
    exact hdec
  · rw [wrappedLengthFile_length, f2]
    rfl
  · rw [hw]
    decide
  · intro out ho hcontra
    obtain ⟨out1, ho1, hlen, _⟩ := encode_spec img 65536 21846 0 hw hh (by decide)
    rw [ho] at ho1
    have e : out = out1 := Except.ok.inj ho1
    subst e
    have hl := congrArg List.length hcontra
    rw [List.length_drop, List.length_drop, wrappedLengthFile_length, hlen] at hl
    simp at hl

end IManip
